import Mathlib

/-!
Verification development for a half-edge mesh core (a JavaScript polygon-mesh
library).  The JS classes `HEdge`, `HFace`, `HVertex`, `HedgeMesh` are embedded
shallowly: object references become indices into the mesh arrays, JS `null` and
`undefined` become `Option.none`, numbers become `ℚ` (exact) with `ℝ` only where
the source takes square roots, and every place where the JS would throw a
`TypeError` (property access on `null`/`undefined`) is modelled by an `Option`
failure of the whole call.  Unbounded `while` loops are modelled with explicit
fuel; a fuel-exhausted walk returns `none`.
-/

/-! ## Vector utilities (glMatrix vec3 over ℚ, lengths over ℝ) -/

structure Vec3 where
  x : ℚ
  y : ℚ
  z : ℚ
deriving DecidableEq

def vec3zero : Vec3 := ⟨0, 0, 0⟩

def vec3add (a b : Vec3) : Vec3 := ⟨a.x + b.x, a.y + b.y, a.z + b.z⟩

def vec3negate (a : Vec3) : Vec3 := ⟨-a.x, -a.y, -a.z⟩

def vec3scale (a : Vec3) (s : ℚ) : Vec3 := ⟨a.x * s, a.y * s, a.z * s⟩

def vec3cross (a b : Vec3) : Vec3 :=
  ⟨a.y * b.z - a.z * b.y, a.z * b.x - a.x * b.z, a.x * b.y - a.y * b.x⟩

def Vec3.sqLength (a : Vec3) : ℚ := a.x * a.x + a.y * a.y + a.z * a.z

/-- Source helper `getVectorBetweenPoints(a, b)`: negates `b` and adds, i.e. `a - b`. -/
def getVectorBetweenPoints (a b : Vec3) : Vec3 := vec3add a (vec3negate b)

instance : Zero Vec3 := ⟨vec3zero⟩

instance : Add Vec3 := ⟨vec3add⟩

instance : AddCommMonoid Vec3 where
  add_assoc a b c := by
    show vec3add (vec3add a b) c = vec3add a (vec3add b c)
    simp [vec3add, add_assoc]
  zero_add a := by
    show vec3add vec3zero a = a
    simp [vec3add, vec3zero]
  add_zero a := by
    show vec3add a vec3zero = a
    simp [vec3add, vec3zero]
  add_comm a b := by
    show vec3add a b = vec3add b a
    simp [vec3add, add_comm]
  nsmul := nsmulRec
  nsmul_zero := fun _ => rfl
  nsmul_succ := fun _ _ => rfl

theorem vec3add_eq_add (a b : Vec3) : vec3add a b = a + b := rfl

theorem vec3zero_eq_zero : vec3zero = (0 : Vec3) := rfl

/-- Real-valued 3-vectors, for the results of normalizing (which divides by a
square root). -/
structure Vec3R where
  x : ℝ
  y : ℝ
  z : ℝ

noncomputable def vec3addR (a b : Vec3R) : Vec3R := ⟨a.x + b.x, a.y + b.y, a.z + b.z⟩

noncomputable def vec3scaleR (a : Vec3R) (s : ℝ) : Vec3R := ⟨a.x * s, a.y * s, a.z * s⟩

def vec3zeroR : Vec3R := ⟨0, 0, 0⟩

def Vec3.toR (a : Vec3) : Vec3R := ⟨(a.x : ℝ), (a.y : ℝ), (a.z : ℝ)⟩

/-- The glMatrix `vec3.length`: square root of the sum of squares. -/
noncomputable def Vec3.length (a : Vec3) : ℝ := Real.sqrt ((a.sqLength : ℝ))

/-- The glMatrix `vec3.normalize`: computes `len = x*x+y*y+z*z`; when `len > 0`
it becomes `1/sqrt(len)`, and the vector is scaled by `len` either way (so a
zero vector normalizes to the zero vector, with no error). -/
noncomputable def vec3normalize (a : Vec3) : Vec3R :=
  if a.sqLength = 0 then vec3scaleR a.toR 0
  else vec3scaleR a.toR (1 / Real.sqrt ((a.sqLength : ℝ)))

/-! ## Mesh components

Object references are indices; `ID` fields start out absent (`none`), matching
the JS objects where `.ID` is `undefined` until assigned.  JS loose equality on
IDs (`undefined == undefined` is true, `undefined == n` is false) is exactly
equality of the `Option Nat` values. -/

structure HEdge where
  head : Option Nat := none
  face : Option Nat := none
  pair : Option Nat := none
  prev : Option Nat := none
  next : Option Nat := none
  ID : Option Nat := none
deriving DecidableEq

structure HVertex where
  pos : Vec3
  color : Vec3 := ⟨1/2, 1/2, 1/2⟩
  h : Option Nat := none
  ID : Option Nat := none
deriving DecidableEq

structure HFace where
  h : Option Nat := none
  ID : Option Nat := none
deriving DecidableEq

structure HedgeMesh where
  vertices : List HVertex := []
  edges : List HEdge := []
  faces : List HFace := []
  needsDisplayUpdate : Bool := false
deriving DecidableEq

/-- Head vertex index stored on edge `i` (reading `edges[i].head`). -/
def headOf (es : List HEdge) (i : Nat) : Option Nat :=
  match es[i]? with
  | some e => e.head
  | none => none

/-- Option-valued map over a list, failing when any element fails (a JS loop
over elements where any thrown TypeError aborts the whole call). -/
def optionMapM {α β : Type} (g : α → Option β) : List α → Option (List β)
  | [] => some []
  | a :: t => (g a).bind fun b => (optionMapM g t).map fun bs => b :: bs

/-- Option-valued left fold, failing when any step fails. -/
def optionFoldlM {α β : Type} (g : β → α → Option β) : β → List α → Option β
  | b, [] => some b
  | b, a :: t => (g b a).bind fun b1 => optionFoldlM g b1 t

/-! ## Helper functions from the source -/

/-- Source `makeNextPrev(h1, h2)`: `h1.next = h2; h2.prev = h1`. -/
def makeNextPrev (es : List HEdge) (i j : Nat) : List HEdge :=
  let es1 := es.set i { es.getD i {} with next := some j }
  es1.set j { es1.getD j {} with prev := some i }

/-- Source `linkEdges(h1, h2)`: `h1.pair = h2; h2.pair = h1`. -/
def linkEdges (es : List HEdge) (i j : Nat) : List HEdge :=
  let es1 := es.set i { es.getD i {} with pair := some j }
  es1.set j { es1.getD j {} with pair := some i }

/-! ## makeTriangle

The source builds three vertices at (0,0,0), (1,0,0), (0,1,0), six fresh
half-edges, one face whose stored edge is edge 0, and then links everything in
a loop over k = 0, 1, 2.  Note the source never assigns `ID` fields here. -/

def makeTriangleStep (m : HedgeMesh) (k : Nat) : HedgeMesh :=
  let vs := m.vertices.set k { m.vertices.getD k { pos := vec3zero } with h := some k }
  let es := m.edges.set k { m.edges.getD k {} with head := some ((k + 1) % 3) }
  let es2 := es.set (k + 3) { es.getD (k + 3) {} with head := some k }
  let es3 := es2.set k { es2.getD k {} with face := some 0 }
  let es4 := makeNextPrev es3 k ((k + 1) % 3)
  let es5 := makeNextPrev es4 (3 + (k + 1) % 3) (3 + k)
  let es6 := linkEdges es5 k (k + 3)
  { m with vertices := vs, edges := es6 }

def makeTriangle : HedgeMesh :=
  let m0 : HedgeMesh :=
    { vertices := [{ pos := ⟨0, 0, 0⟩ }, { pos := ⟨1, 0, 0⟩ }, { pos := ⟨0, 1, 0⟩ }]
      edges := List.replicate 6 {}
      faces := [{ h := some 0 }]
      needsDisplayUpdate := true }
  [0, 1, 2].foldl makeTriangleStep m0

/-! ## Face boundary walks (HFace.getEdges / HFace.getVertices)

Both walk `next` from `this.h.next` until the walk revisits `this.h` (object
identity, i.e. index equality).  `getEdges` collects the edges themselves,
starting with `this.h`; `getVertices` collects each pushed edge head, starting
with `this.h.head`. -/

def faceEdgeWalk (es : List HEdge) (stop : Nat) : Option Nat → Nat → Option (List Nat)
  | _, 0 => none
  | h?, fuel + 1 =>
    if h? = some stop then some []
    else
      h?.bind fun h =>
      (es[h]?).bind fun e =>
      (faceEdgeWalk es stop e.next fuel).map fun rest => h :: rest

def faceVertexWalk (es : List HEdge) (stop : Nat) : Option Nat → Nat → Option (List (Option Nat))
  | _, 0 => none
  | h?, fuel + 1 =>
    if h? = some stop then some []
    else
      h?.bind fun h =>
      (es[h]?).bind fun e =>
      (faceVertexWalk es stop e.next fuel).map fun rest => e.head :: rest

def faceEdgesFrom (m : HedgeMesh) (h0 : Nat) (fuel : Nat) : Option (List Nat) :=
  (m.edges[h0]?).bind fun e0 =>
  (faceEdgeWalk m.edges h0 e0.next fuel).map fun rest => h0 :: rest

def faceVerticesFrom (m : HedgeMesh) (h0 : Nat) (fuel : Nat) : Option (List (Option Nat)) :=
  (m.edges[h0]?).bind fun e0 =>
  (faceVertexWalk m.edges h0 e0.next fuel).map fun rest => e0.head :: rest

/-- Source `HFace.getEdges`: an empty list when no edge is stored, otherwise the
stored edge followed by the `next`-walk back around to it. -/
def HFace.getEdges (m : HedgeMesh) (f : Nat) (fuel : Nat) : Option (List Nat) :=
  (m.faces[f]?).bind fun face =>
    match face.h with
    | none => some []
    | some h0 => faceEdgesFrom m h0 fuel

/-- Source `HFace.getVertices`: an empty list when no edge is stored, otherwise
`this.h.head` followed by the heads pushed by the same `next`-walk. -/
def HFace.getVertices (m : HedgeMesh) (f : Nat) (fuel : Nat) : Option (List (Option Nat)) :=
  (m.faces[f]?).bind fun face =>
    match face.h with
    | none => some []
    | some h0 => faceVerticesFrom m h0 fuel

example : HFace.getEdges makeTriangle 0 7 = some [0, 1, 2] := by decide

example : HFace.getVertices makeTriangle 0 7 = some [some 1, some 2, some 0] := by decide

/-! ## Spoke walks around a vertex

`HVertex.getVertexNeighbors` and `HVertex.getAttachedFaces` walk the fan of
half-edges around a vertex: advance along `next` until the current edge heads
back into the vertex, then cross to `pair`.  The loops compare `.ID` fields
with JS loose equality (`Option Nat` equality here).  The self-repair step at
the top (`if (this.h.head.ID == this.ID) this.h = this.h.next`) also writes the
repaired edge back to `this.h`; only the value it walks from matters here, so
the repair is modelled functionally. -/

/-- Inner loop `while (edge.head.ID != this.ID) edge = edge.next`, returning
the index of the edge it stops at.  Reading `.ID` of a `null` head, or
advancing past a `null` next pointer, throws in JS: `none` here. -/
def vertexScan (m : HedgeMesh) (vid : Option Nat) : Option Nat → Nat → Option Nat
  | _, 0 => none
  | e?, fuel + 1 =>
    e?.bind fun e =>
    (m.edges[e]?).bind fun ed =>
    ed.head.bind fun hd =>
    (m.vertices[hd]?).bind fun hv =>
    if hv.ID = vid then some e
    else vertexScan m vid ed.next fuel

/-- Outer do-while of `getVertexNeighbors`: push the current edge head, scan to
the edge heading into the vertex, cross its pair, and stop when the pair edge
head ID equals the first pushed neighbor ID. -/
def neighborWalk (m : HedgeMesh) (vid firstID : Option Nat) (fuelInner : Nat) :
    Nat → Nat → Option (List Nat)
  | _, 0 => none
  | e, fuelOuter + 1 =>
    (m.edges[e]?).bind fun ed =>
    ed.head.bind fun hd =>
    (vertexScan m vid (some e) fuelInner).bind fun stopE =>
    ((m.edges[stopE]?).bind HEdge.pair).bind fun pe =>
    (m.edges[pe]?).bind fun ped =>
    ped.head.bind fun phd =>
    (m.vertices[phd]?).bind fun phv =>
    if phv.ID = firstID then some [hd]
    else (neighborWalk m vid firstID fuelInner pe fuelOuter).map fun rest => hd :: rest

/-- Source `HVertex.getVertexNeighbors`: empty when the vertex stores no edge;
otherwise self-repair the stored edge and run the spoke walk.  Returns the
indices of the collected neighbor vertices. -/
def HVertex.getVertexNeighbors (m : HedgeMesh) (v : Nat) (fuelInner fuelOuter : Nat) :
    Option (List Nat) :=
  (m.vertices[v]?).bind fun hv =>
    match hv.h with
    | none => some []
    | some h0 =>
      (m.edges[h0]?).bind fun e0 =>
      e0.head.bind fun hd0 =>
      (m.vertices[hd0]?).bind fun hv0 =>
      (if hv0.ID = hv.ID then e0.next else some h0).bind fun s =>
      (m.edges[s]?).bind fun se =>
      se.head.bind fun shd =>
      (m.vertices[shd]?).bind fun shv =>
      neighborWalk m hv.ID shv.ID fuelInner s fuelOuter

/-- Outer do-while of `getAttachedFaces`: push the current edge face when it is
not null, scan and cross the pair, hop across a second boundary pair when the
crossed edge has a null face, and stop when the current face ID equals the
first collected face ID (reading `.ID` of a null face, or of `faces[0]` when
nothing was collected, throws). -/
def faceWalk (m : HedgeMesh) (vid : Option Nat) (fuelInner : Nat) :
    Option Nat → Nat → Nat → Option (List Nat)
  | _, _, 0 => none
  | first?, e, fuelOuter + 1 =>
    (m.edges[e]?).bind fun ed =>
    let pushed : Option Nat := ed.face
    let acc : Option Nat := match first? with | some f => some f | none => pushed
    (vertexScan m vid (some e) fuelInner).bind fun stopE =>
    ((m.edges[stopE]?).bind HEdge.pair).bind fun pe =>
    (m.edges[pe]?).bind fun ped =>
    (if ped.face = none then
       (vertexScan m vid (some pe) fuelInner).bind
         (fun s2 => (m.edges[s2]?).bind HEdge.pair)
     else some pe).bind fun ce =>
    ((m.edges[ce]?).bind HEdge.face).bind fun cf =>
    (m.faces[cf]?).bind fun cfo =>
    acc.bind fun f0 =>
    (m.faces[f0]?).bind fun f0o =>
    if cfo.ID = f0o.ID then
      some (match pushed with | some f => [f] | none => [])
    else
      (faceWalk m vid fuelInner (some f0) ce fuelOuter).map fun rest =>
        match pushed with | some f => f :: rest | none => rest

/-- Source `HVertex.getAttachedFaces`: empty when the vertex stores no edge;
otherwise self-repair and run the face spoke walk.  Returns the indices of the
collected faces. -/
def HVertex.getAttachedFaces (m : HedgeMesh) (v : Nat) (fuelInner fuelOuter : Nat) :
    Option (List Nat) :=
  (m.vertices[v]?).bind fun hv =>
    match hv.h with
    | none => some []
    | some h0 =>
      (m.edges[h0]?).bind fun e0 =>
      e0.head.bind fun hd0 =>
      (m.vertices[hd0]?).bind fun hv0 =>
      (if hv0.ID = hv.ID then e0.next else some h0).bind fun s =>
      faceWalk m hv.ID fuelInner none s fuelOuter

example : HVertex.getVertexNeighbors makeTriangle 0 7 7 = some [2] := by decide

example : HVertex.getAttachedFaces makeTriangle 0 7 7 = some [0] := by decide

example : HVertex.getAttachedFaces makeTriangle 1 7 7 = some [0] := by decide

/-! ## Face geometry (area vector, face normal) -/

/-- The vector of boundary edge `i`: its head position minus its tail
(`prev.head`) position, as computed twice per loop step in `HFace.getArea`. -/
def edgeVector (m : HedgeMesh) (i : Nat) : Option Vec3 :=
  (m.edges[i]?).bind fun e =>
  e.head.bind fun hd =>
  (m.vertices[hd]?).bind fun hv =>
  e.prev.bind fun p =>
  (m.edges[p]?).bind fun pe =>
  pe.head.bind fun phd =>
  (m.vertices[phd]?).bind fun phv =>
  some (getVectorBetweenPoints hv.pos phv.pos)

/-- The vector accumulated by `HFace.getArea` before taking its length: for
`i` from 0 to `edges.length - 3`, add `0.5 * cross(vec(edges[i]), vec(edges[i+1]))`. -/
def HFace.getAreaVec (m : HedgeMesh) (f : Nat) (fuel : Nat) : Option Vec3 :=
  (HFace.getEdges m f fuel).bind fun es =>
  optionFoldlM
    (fun acc i =>
      (es[i]?).bind fun i1 =>
      (es[i + 1]?).bind fun i2 =>
      (edgeVector m i1).bind fun v1 =>
      (edgeVector m i2).bind fun v2 =>
      some (vec3add acc (vec3scale (vec3cross v1 v2) (1/2))))
    vec3zero (List.range (es.length - 2))

/-- Source `HFace.getArea`: the length of the accumulated cross-product sum. -/
noncomputable def HFace.getArea (m : HedgeMesh) (f : Nat) (fuel : Nat) : Option ℝ :=
  (HFace.getAreaVec m f fuel).map Vec3.length

/-- The cross product computed by `HFace.getNormal` before normalizing:
`cross(head - prev.head, next.head - head)` at the stored edge. -/
def HFace.normalCross (m : HedgeMesh) (f : Nat) : Option Vec3 :=
  (m.faces[f]?).bind fun face =>
  face.h.bind fun h0 =>
  (m.edges[h0]?).bind fun e0 =>
  e0.head.bind fun hd =>
  (m.vertices[hd]?).bind fun hv =>
  e0.prev.bind fun p =>
  (m.edges[p]?).bind fun pe =>
  pe.head.bind fun phd =>
  (m.vertices[phd]?).bind fun phv =>
  e0.next.bind fun nx =>
  (m.edges[nx]?).bind fun ne =>
  ne.head.bind fun nhd =>
  (m.vertices[nhd]?).bind fun nhv =>
  some (vec3cross (getVectorBetweenPoints hv.pos phv.pos)
                  (getVectorBetweenPoints nhv.pos hv.pos))

/-- Source `HFace.getNormal`: the normalized cross product at the stored edge. -/
noncomputable def HFace.getNormal (m : HedgeMesh) (f : Nat) : Option Vec3R :=
  (HFace.normalCross m f).map vec3normalize

example : HFace.getAreaVec makeTriangle 0 7 = some ⟨0, 0, 1/2⟩ := by
  have h : HFace.getAreaVec makeTriangle 0 7 =
      some (vec3add vec3zero (vec3scale
        (vec3cross (getVectorBetweenPoints ⟨1, 0, 0⟩ ⟨0, 0, 0⟩)
                   (getVectorBetweenPoints ⟨0, 1, 0⟩ ⟨1, 0, 0⟩)) (1/2))) := rfl
  rw [h]; simp [vec3add, vec3scale, vec3cross, getVectorBetweenPoints, vec3negate, vec3zero]

example : HFace.normalCross makeTriangle 0 = some ⟨0, 0, 1⟩ := by
  have h : HFace.normalCross makeTriangle 0 =
      some (vec3cross (getVectorBetweenPoints ⟨1, 0, 0⟩ ⟨0, 0, 0⟩)
                      (getVectorBetweenPoints ⟨0, 1, 0⟩ ⟨1, 0, 0⟩)) := rfl
  rw [h]; simp [vec3cross, getVectorBetweenPoints, vec3add, vec3negate]

/-! ## Vertex normal -/

/-- Total attached area accumulated by `HVertex.getNormal` (its `areaSum`). -/
noncomputable def vertexAreaSum (m : HedgeMesh) (v : Nat) (fuelInner fuelOuter fuelFace : Nat) :
    Option ℝ :=
  (HVertex.getAttachedFaces m v fuelInner fuelOuter).bind fun fs =>
  (optionMapM (fun f => HFace.getArea m f fuelFace) fs).bind fun areas =>
  some (areas.foldl (fun s a => s + a) 0)

/-- Source `HVertex.getNormal`: area-weighted sum of attached face normals,
scaled at the end by `1/areaSum`.  The source performs this division
unconditionally; when `areaSum` is zero the JS result is a NaN vector, which
this real-valued model renders as the junk value of division by zero.  No
error is raised on any path. -/
noncomputable def HVertex.getNormal (m : HedgeMesh) (v : Nat) (fuelInner fuelOuter fuelFace : Nat) :
    Option Vec3R :=
  (HVertex.getAttachedFaces m v fuelInner fuelOuter).bind fun fs =>
  (optionMapM (fun f =>
      (HFace.getNormal m f).bind fun n =>
      (HFace.getArea m f fuelFace).bind fun a =>
      some (a, n)) fs).bind fun contribs =>
  let areaSum : ℝ := (contribs.map Prod.fst).foldl (fun s a => s + a) 0
  let total : Vec3R :=
    contribs.foldl (fun acc p => vec3addR acc (vec3scaleR p.2 p.1)) vec3zeroR
  some (vec3scaleR total (1 / areaSum))

/-! ## Mesh construction from a polygon soup

`HedgeMesh.loadFileFromLines` first runs the external `BasicMesh` collaborator
(out of scope here, per the spec) to produce a record of vertex positions,
colors and consistently CCW-oriented faces; the embedding starts from that
record.  Steps 2 to 6 of the source are modelled directly: add vertices, add
faces and their half-edges (hashing each directed edge), pair opposite
half-edges (synthesizing null-face boundary edges), link the boundary edges,
and number everything.

The JS hash objects are modelled by association lists.  `str2Hedge` has
underscore-joined string keys, which JS enumerates in insertion order, with an
overwrite keeping the original position: exactly `tblInsert` below.
`boundaryEdges` has integer-like keys, which JS enumerates in ascending
numeric order: step 5 iterates over vertex IDs in order and looks each one up
(every key is a vertex ID of the loaded soup). -/

def tblInsert {α : Type} [DecidableEq α] (t : List (α × Nat)) (k : α) (v : Nat) :
    List (α × Nat) :=
  match t with
  | [] => [(k, v)]
  | (k0, v0) :: rest => if k0 = k then (k0, v) :: rest else (k0, v0) :: tblInsert rest k v

def tblLookup {α : Type} [DecidableEq α] (t : List (α × Nat)) (k : α) : Option Nat :=
  match t with
  | [] => none
  | (k0, v0) :: rest => if k0 = k then some v0 else tblLookup rest k

/-- Step 2: one `HVertex` per position/color pair, with sequential IDs. -/
def mkVertices (positions colors : List Vec3) : List HVertex :=
  (List.range positions.length).map (fun i =>
    { pos := positions.getD i vec3zero
      color := colors.getD i ⟨1/2, 1/2, 1/2⟩
      h := none
      ID := some i })

/-- Source `HedgeMesh.addHalfEdge(v1, v2, face)`: append a half-edge with head
`v2` and the given face, and point `v1` at it.  Returns the new edge index. -/
def HedgeMesh.addHalfEdge (vs : List HVertex) (es : List HEdge) (v1 v2 : Nat) (face : Nat) :
    List HVertex × List HEdge × Nat :=
  let idx := es.length
  let hedge : HEdge := { head := some v2, face := some face }
  (vs.set v1 { vs.getD v1 { pos := vec3zero } with h := some idx }, es ++ [hedge], idx)

/-- First per-face loop of step 3: `addHalfEdge` for each consecutive vertex
pair, record it in the hash table, and remember the last one as the face edge. -/
def addFaceEdgesLoop (fidx : Nat) :
    List HVertex → List HEdge → List ((Nat × Nat) × Nat) → Option Nat → List (Nat × Nat) →
    List HVertex × List HEdge × List ((Nat × Nat) × Nat) × Option Nat
  | vs, es, tbl, fh, [] => (vs, es, tbl, fh)
  | vs, es, tbl, _, (v1, v2) :: rest =>
    match HedgeMesh.addHalfEdge vs es v1 v2 fidx with
    | (vs1, es1, idx) => addFaceEdgesLoop fidx vs1 es1 (tblInsert tbl (v1, v2) idx) (some idx) rest

/-- Second per-face loop of step 3: `vertsi[k].h.next = vertsi[k+1].h` and the
matching `prev`, through the vertex `h` pointers the first loop just wrote. -/
def linkFaceEdgesLoop (vs : List HVertex) : List HEdge → List (Nat × Nat) → Option (List HEdge)
  | es, [] => some es
  | es, (v1, v2) :: rest =>
    (vs[v1]?).bind fun hv1 =>
    hv1.h.bind fun h1 =>
    (vs[v2]?).bind fun hv2 =>
    let es1 := es.set h1 { es.getD h1 {} with next := hv2.h }
    hv2.h.bind fun h2 =>
    linkFaceEdgesLoop vs (es1.set h2 { es1.getD h2 {} with prev := some h1 }) rest

/-- Step 3 for one face.  The JS resolves each face vertex index into
`this.vertices` and crashes on the first out-of-range one when it writes its
`h` field, so an out-of-range index fails the whole construction. -/
def processFace (vs : List HVertex) (es : List HEdge) (tbl : List ((Nat × Nat) × Nat))
    (fs : List HFace) (fverts : List Nat) :
    Option (List HVertex × List HEdge × List ((Nat × Nat) × Nat) × List HFace) :=
  if fverts.all (fun a => a < vs.length) then
    let pairs := fverts.zip (fverts.rotate 1)
    match addFaceEdgesLoop fs.length vs es tbl none pairs with
    | (vs1, es1, tbl1, fh) =>
      match linkFaceEdgesLoop vs1 es1 pairs with
      | none => none
      | some es2 => some (vs1, es2, tbl1, fs ++ [{ h := fh }])
  else none

/-- Step 3 over all faces. -/
def addFacesLoop :
    List HVertex → List HEdge → List ((Nat × Nat) × Nat) → List HFace → List (List Nat) →
    Option (List HVertex × List HEdge × List ((Nat × Nat) × Nat) × List HFace)
  | vs, es, tbl, fs, [] => some (vs, es, tbl, fs)
  | vs, es, tbl, fs, fverts :: rest =>
    match processFace vs es tbl fs fverts with
    | none => none
    | some (vs1, es1, tbl1, fs1) => addFacesLoop vs1 es1 tbl1 fs1 rest

/-- Step 4: for each hash entry `(a,b) ↦ h1`, link to the reverse entry when it
exists; otherwise synthesize a boundary half-edge with null face and head `a`,
pair the two, and index the new edge by its tail `b`. -/
def pairEdgesLoop (tblAll : List ((Nat × Nat) × Nat)) :
    List HEdge → List (Nat × Nat) → List ((Nat × Nat) × Nat) → List HEdge × List (Nat × Nat)
  | es, bnd, [] => (es, bnd)
  | es, bnd, ((a, b), h1) :: rest =>
    match tblLookup tblAll (b, a) with
    | some j => pairEdgesLoop tblAll (es.set h1 { es.getD h1 {} with pair := some j }) bnd rest
    | none =>
      let idx := es.length
      let es1 := es.set h1 { es.getD h1 {} with pair := some idx }
      pairEdgesLoop tblAll (es1 ++ [({ head := some a, pair := some h1 } : HEdge)])
        (tblInsert bnd b idx) rest

/-- Step 5: each boundary edge with no `next` yet is linked to the boundary
edge whose tail is its head.  A missing entry makes `e2` undefined and the JS
write `e2.prev = e` throw, failing the construction. -/
def linkBoundaryLoop (bnd : List (Nat × Nat)) (vs : List HVertex) :
    List HEdge → List Nat → Option (List HEdge)
  | es, [] => some es
  | es, v :: rest =>
    match tblLookup bnd v with
    | none => linkBoundaryLoop bnd vs es rest
    | some e =>
      match (es.getD e {}).next with
      | some _ => linkBoundaryLoop bnd vs es rest
      | none =>
        ((es.getD e {}).head).bind fun hd =>
        (vs[hd]?).bind fun hv =>
        hv.ID.bind fun hid =>
        (tblLookup bnd hid).bind fun e2 =>
        let es1 := es.set e { es.getD e {} with next := some e2 }
        linkBoundaryLoop bnd vs (es1.set e2 { es1.getD e2 {} with prev := some e }) rest

/-- Step 6: sequential IDs on edges and faces. -/
def numberEdges (es : List HEdge) : List HEdge :=
  (List.range es.length).map (fun i => { es.getD i {} with ID := some i })

def numberFaces (fs : List HFace) : List HFace :=
  (List.range fs.length).map (fun i => { fs.getD i {} with ID := some i })

/-- A polygon-soup record as handed over by the out-of-scope collaborator:
positions, per-vertex colors, and faces as CCW-ordered vertex index lists. -/
structure Soup where
  positions : List Vec3
  colors : List Vec3
  faces : List (List Nat)
deriving DecidableEq

/-- Steps 2 to 6 of `HedgeMesh.loadFileFromLines`, from the prepared record. -/
def HedgeMesh.loadFromSoup (s : Soup) : Option HedgeMesh :=
  let vs := mkVertices s.positions s.colors
  match addFacesLoop vs [] [] [] s.faces with
  | none => none
  | some (vs1, es1, tbl, fs1) =>
    match pairEdgesLoop tbl es1 [] tbl with
    | (es2, bnd) =>
      match linkBoundaryLoop bnd vs1 es2 (List.range vs1.length) with
      | none => none
      | some es3 =>
        some { vertices := vs1, edges := numberEdges es3, faces := numberFaces fs1
               needsDisplayUpdate := true }

/-- The single CCW triangle soup from the spec: positions (0,0,0), (1,0,0),
(0,1,0), one face [0,1,2]. -/
def triSoup : Soup :=
  { positions := [⟨0, 0, 0⟩, ⟨1, 0, 0⟩, ⟨0, 1, 0⟩]
    colors := []
    faces := [[0, 1, 2]] }

/-- The mesh loaded from `triSoup` (total by defaulting, see the lemma that
`loadFromSoup` succeeds on it). -/
def triMesh : HedgeMesh := (HedgeMesh.loadFromSoup triSoup).getD {}

example : (HedgeMesh.loadFromSoup triSoup).isSome = true := by decide

example : triMesh.edges.map HEdge.pair =
    [some 3, some 4, some 5, some 0, some 1, some 2] := by decide

example : triMesh.edges.map HEdge.next =
    [some 1, some 2, some 0, some 5, some 3, some 4] := by decide

example : triMesh.edges.map HEdge.prev =
    [some 2, some 0, some 1, some 4, some 5, some 3] := by decide

example : HVertex.getVertexNeighbors triMesh 0 7 7 = some [1, 2] := by decide

example : HVertex.getAttachedFaces triMesh 0 7 7 = some [0] := by decide

/-! ## Laplacian smoothing and sharpening -/

def defaultVertex : HVertex := { pos := vec3zero }

/-- One step of the accumulation in `laplacianSmoothSharpen`: add the vector
from the vertex to the neighbor (`getVectorBetweenPoints(neighbor.pos,
vertex.pos)`). -/
def deltaStep (m : HedgeMesh) (i : Nat) (acc : Vec3) (nb : Nat) : Option Vec3 :=
  (m.vertices[nb]?).bind fun nv =>
  (m.vertices[i]?).bind fun v =>
  some (vec3add acc (getVectorBetweenPoints nv.pos v.pos))

/-- The displacement `laplacianSmoothSharpen` computes for vertex `i` from the
current mesh: the summed neighbor-to-vertex difference vectors, scaled by
`(1/count) * sign`. -/
def vertexDelta (m : HedgeMesh) (sign : ℚ) (i : Nat) (fuelInner fuelOuter : Nat) :
    Option Vec3 :=
  (HVertex.getVertexNeighbors m i fuelInner fuelOuter).bind fun nbs =>
  (optionFoldlM (deltaStep m i) vec3zero nbs).bind fun mean =>
  some (vec3scale mean ((1 / (nbs.length : ℚ)) * sign))

/-- Source `HedgeMesh.laplacianSmoothSharpen`: first compute every vertex
displacement from the unmodified mesh, then add them to the positions. -/
def HedgeMesh.laplacianSmoothSharpen (m : HedgeMesh) (smooth : Bool)
    (fuelInner fuelOuter : Nat) : Option HedgeMesh :=
  let sign : ℚ := if smooth then 1 else -1
  (optionMapM
    (fun i => vertexDelta m sign i fuelInner fuelOuter)
    (List.range m.vertices.length)).bind fun deltas =>
  some { m with
          vertices := (List.range m.vertices.length).map (fun i =>
            let v := m.vertices.getD i defaultVertex
            { v with pos := vec3add v.pos (deltas.getD i vec3zero) })
          needsDisplayUpdate := true }

/-! ## Boundary cycles -/

/-- Inner while of `getBoundaryCycles`: collect edges along `next` until the
current edge head ID equals the start edge head ID. -/
def cycleWalk (m : HedgeMesh) (startHeadID : Option Nat) : Option Nat → Nat → Option (List Nat)
  | _, 0 => none
  | it?, fuel + 1 =>
    it?.bind fun it =>
    (m.edges[it]?).bind fun ed =>
    ed.head.bind fun hd =>
    (m.vertices[hd]?).bind fun hv =>
    if hv.ID = startHeadID then some []
    else (cycleWalk m startHeadID ed.next fuel).map fun rest => it :: rest

/-- Outer loop of `getBoundaryCycles` over the edge collection in order,
starting a cycle at each null-face edge not yet checked.  The `isChecked`
marks on edge objects are modelled by the `checked` list (the walk itself
never reads them, so collecting them after each walk is equivalent). -/
def boundaryCyclesLoop (m : HedgeMesh) (fuel : Nat) :
    List Nat → List Nat → Option (List (List Nat))
  | _, [] => some []
  | checked, i :: rest =>
    (m.edges[i]?).bind fun e =>
    if e.face = none ∧ i ∉ checked then
      e.head.bind fun hd =>
      (m.vertices[hd]?).bind fun hv =>
      (cycleWalk m hv.ID e.next fuel).bind fun cyc =>
      (boundaryCyclesLoop m fuel (checked ++ i :: cyc) rest).map fun cycles =>
        (i :: cyc) :: cycles
    else boundaryCyclesLoop m fuel checked rest

/-- Source `HedgeMesh.getBoundaryCycles`. -/
def HedgeMesh.getBoundaryCycles (m : HedgeMesh) (fuel : Nat) : Option (List (List Nat)) :=
  boundaryCyclesLoop m fuel [] (List.range m.edges.length)

example : HedgeMesh.getBoundaryCycles triMesh 7 = some [[3, 5, 4]] := by decide

example : HedgeMesh.getBoundaryCycles makeTriangle 7 = some [[3], [4], [5]] := by decide

/-! ## Claim 1: order of faceVertices relative to faceEdges

The source pushes `this.h.head` first and then the head of every further edge
of the same walk, so the vertex list lines up with the edge list with no
rotation. -/

theorem faceVertexWalk_eq_map (es : List HEdge) (stop : Nat) (h? : Option Nat) (fuel : Nat) :
    faceVertexWalk es stop h? fuel = (faceEdgeWalk es stop h? fuel).map (List.map (headOf es)) := by
  induction fuel generalizing h? with
  | zero => rfl
  | succ n ih =>
    simp only [faceVertexWalk, faceEdgeWalk]
    by_cases hstop : h? = some stop
    · simp [hstop]
    · simp only [if_neg hstop]
      cases h? with
      | none => rfl
      | some h =>
        simp only [Option.some_bind]
        cases hes : es[h]? with
        | none => rfl
        | some e =>
          simp only [Option.some_bind, ih]
          cases faceEdgeWalk es stop e.next n with
          | none => rfl
          | some rest => simp [headOf, hes]

theorem faceVerticesFrom_eq_map (m : HedgeMesh) (h0 : Nat) (fuel : Nat) :
    faceVerticesFrom m h0 fuel = (faceEdgesFrom m h0 fuel).map (List.map (headOf m.edges)) := by
  simp only [faceVerticesFrom, faceEdgesFrom]
  cases hes : m.edges[h0]? with
  | none => rfl
  | some e0 =>
    simp only [Option.some_bind, faceVertexWalk_eq_map, Option.map_map]
    congr 1
    funext rest
    simp [headOf, hes, Function.comp]

/-- Claim C1 (corrected): for every mesh, face and fuel, `HFace.getVertices`
returns exactly the heads of the edges of `HFace.getEdges`, in the same order
with no rotation — the i-th vertex is the head of the i-th boundary edge. -/
theorem faceVertices_matches_faceEdges_order (m : HedgeMesh) (f : Nat) (fuel : Nat) :
    HFace.getVertices m f fuel = (HFace.getEdges m f fuel).map (List.map (headOf m.edges)) := by
  simp only [HFace.getVertices, HFace.getEdges]
  cases m.faces[f]? with
  | none => rfl
  | some face =>
    simp only [Option.some_bind]
    cases face.h with
    | none => rfl
    | some h0 => exact faceVerticesFrom_eq_map m h0 fuel

/-- Claim C1 counterexample: on the `makeTriangle` face, the first vertex
returned by `HFace.getVertices` is the head of the first boundary edge of
`HFace.getEdges` (edge 0, head vertex 1), not the head of the second boundary
edge (edge 1, head vertex 2) as the claim states. -/
theorem faceVertices_not_rotated_on_makeTriangle :
    HFace.getVertices makeTriangle 0 7 = some [some 1, some 2, some 0] ∧
    HFace.getEdges makeTriangle 0 7 = some [0, 1, 2] ∧
    headOf makeTriangle.edges 0 = some 1 ∧
    headOf makeTriangle.edges 1 = some 2 ∧
    ¬ (some 2 : Option Nat) = some 1 := by decide

/-! ## Claim 3: duplicated directed edge

The source defines no error type and never throws deliberately.  With a
duplicated directed edge the hash entry is overwritten, the first copy is
never visited by the pairing pass, and construction completes, returning a
mesh whose first copy has no pair. -/

/-- Two faces that both traverse the directed edge (0, 1). -/
def dupSoup : Soup :=
  { positions := [⟨0, 0, 0⟩, ⟨1, 0, 0⟩, ⟨0, 1, 0⟩, ⟨0, 0, 1⟩]
    colors := []
    faces := [[0, 1, 2], [0, 1, 3]] }

/-- Claim C3 counterexample: loading `dupSoup` (which duplicates the directed
edge (0,1)) raises nothing — the construction completes and returns a mesh —
and the result is partially linked: edge 0, the first half-edge with key
(0,1), is left with `pair = none`. -/
theorem loadFromSoup_duplicate_edge_returns_mesh :
    (HedgeMesh.loadFromSoup dupSoup).isSome = true ∧
    (((HedgeMesh.loadFromSoup dupSoup).getD {}).edges[0]?).map HEdge.pair = some none := by
  decide

/-- Claim C3 (corrected): on a duplicated directed edge the construction
silently produces a partially linked mesh: it succeeds, edge 0 (the first
copy of (0,1)) has a null pair, edge 3 (the second copy, created for the
second face) is instead paired with a synthesized boundary edge 6 with null
face, and the boundary edge 8 is left with a null `next` because its entry in
the boundary table was also overwritten. -/
theorem loadFromSoup_duplicate_edge_partial_linking :
    (HedgeMesh.loadFromSoup dupSoup).isSome = true ∧
    ((HedgeMesh.loadFromSoup dupSoup).getD {}).edges.map HEdge.pair =
      [none, some 7, some 8, some 6, some 9, some 10,
       some 3, some 1, some 2, some 4, some 5] ∧
    ((HedgeMesh.loadFromSoup dupSoup).getD {}).edges.map HEdge.face =
      [some 0, some 0, some 0, some 1, some 1, some 1,
       none, none, none, none, none] ∧
    (((HedgeMesh.loadFromSoup dupSoup).getD {}).edges[8]?).map HEdge.next = some none := by
  decide

/-! ## Claim 4: vertex normal at zero total area

`HVertex.getNormal` divides by `areaSum` unconditionally; no error exists or
is raised.  A degenerate (collinear) triangle gives a concrete witness. -/

/-- A degenerate triangle with collinear vertices, so the face area is 0. -/
def degSoup : Soup :=
  { positions := [⟨0, 0, 0⟩, ⟨1, 0, 0⟩, ⟨2, 0, 0⟩]
    colors := []
    faces := [[0, 1, 2]] }

def degMesh : HedgeMesh := (HedgeMesh.loadFromSoup degSoup).getD {}

theorem optionMapM_isSome_of_forall {α β : Type} (g : α → Option β) (l : List α)
    (h : ∀ a ∈ l, (g a).isSome) : (optionMapM g l).isSome := by
  induction l with
  | nil => rfl
  | cons a t ih =>
    obtain ⟨b, hb⟩ := Option.isSome_iff_exists.mp (h a (by simp))
    obtain ⟨bs, hbs⟩ := Option.isSome_iff_exists.mp (ih fun x hx => h x (by simp [hx]))
    simp [optionMapM, hb, hbs]

/-- Claim C4 (corrected): `vertexNormal` raises nothing on any input.
Whenever the attached-face walk succeeds and the per-face geometry lookups
resolve, it returns a vector — even when the total attached area is zero, in
which case the unconditional division by `areaSum` makes the JS result a NaN
vector (the junk value of division by zero in this model), silently. -/
theorem vertexNormal_total_on_resolved_faces (m : HedgeMesh) (v : Nat)
    (fuelInner fuelOuter fuelFace : Nat) (fs : List Nat)
    (hfs : HVertex.getAttachedFaces m v fuelInner fuelOuter = some fs)
    (hok : ∀ f ∈ fs, (HFace.normalCross m f).isSome = true ∧
                     (HFace.getAreaVec m f fuelFace).isSome = true) :
    (HVertex.getNormal m v fuelInner fuelOuter fuelFace).isSome = true := by
  simp only [HVertex.getNormal, hfs, Option.some_bind]
  have hmap : (optionMapM (fun f =>
      (HFace.getNormal m f).bind fun n =>
      (HFace.getArea m f fuelFace).bind fun a => some (a, n)) fs).isSome := by
    apply optionMapM_isSome_of_forall
    intro f hf
    obtain ⟨b, hb⟩ := Option.isSome_iff_exists.mp (hok f hf).1
    obtain ⟨c, hc⟩ := Option.isSome_iff_exists.mp (hok f hf).2
    simp [HFace.getNormal, HFace.getArea, hb, hc]
  obtain ⟨r, hr⟩ := Option.isSome_iff_exists.mp hmap
  rw [hr]
  rfl

/-- Claim C4 counterexample: at vertex 0 of the degenerate mesh the attached
faces have total area 0, yet `HVertex.getNormal` still returns a value — the
call to it raises nothing; the JS scales by `1/0` and silently yields a NaN
vector. -/
theorem vertexNormal_zero_area_counterexample :
    vertexAreaSum degMesh 0 7 7 7 = some 0 ∧
    (HVertex.getNormal degMesh 0 7 7 7).isSome = true := by
  have hfs : HVertex.getAttachedFaces degMesh 0 7 7 = some [0] := by decide
  have hav : HFace.getAreaVec degMesh 0 7 = some vec3zero := by
    have h : HFace.getAreaVec degMesh 0 7 =
        some (vec3add vec3zero (vec3scale (vec3cross
          (getVectorBetweenPoints ⟨0, 0, 0⟩ ⟨2, 0, 0⟩)
          (getVectorBetweenPoints ⟨1, 0, 0⟩ ⟨0, 0, 0⟩)) (1/2))) := rfl
    rw [h]
    simp [vec3add, vec3scale, vec3cross, getVectorBetweenPoints, vec3negate, vec3zero]
  have harea : HFace.getArea degMesh 0 7 = some 0 := by
    rw [HFace.getArea, hav]
    simp [Vec3.length, Vec3.sqLength, vec3zero]
  have hnc : HFace.normalCross degMesh 0 =
      some (vec3cross (getVectorBetweenPoints ⟨0, 0, 0⟩ ⟨2, 0, 0⟩)
                      (getVectorBetweenPoints ⟨1, 0, 0⟩ ⟨0, 0, 0⟩)) := rfl
  have hn : (HFace.getNormal degMesh 0).isSome = true := by
    rw [HFace.getNormal, hnc]; rfl
  obtain ⟨nv, hnv⟩ := Option.isSome_iff_exists.mp hn
  constructor
  · simp [vertexAreaSum, hfs, optionMapM, harea]
  · simp [HVertex.getNormal, hfs, optionMapM, hnv, harea]

/-- Witness for the claim C4 theorem at the degenerate mesh: the hypotheses
hold concretely and the normal call returns a value. -/
theorem vertexNormal_total_on_resolved_faces_witness :
    (HVertex.getNormal degMesh 0 7 7 7).isSome = true :=
  vertexNormal_total_on_resolved_faces degMesh 0 7 7 7 [0] (by decide) (by decide)

/-! ## Claim 8: the makeTriangle mesh -/

theorem vec3length_of_sq (a : Vec3) (r : ℚ) (h : a.sqLength = r * r) (hr : 0 ≤ r) :
    Vec3.length a = (r : ℝ) := by
  rw [Vec3.length, h]
  push_cast
  exact Real.sqrt_mul_self (by exact_mod_cast hr)

theorem makeTriangle_areaVec : HFace.getAreaVec makeTriangle 0 7 = some ⟨0, 0, 1/2⟩ := by
  have h : HFace.getAreaVec makeTriangle 0 7 =
      some (vec3add vec3zero (vec3scale
        (vec3cross (getVectorBetweenPoints ⟨1, 0, 0⟩ ⟨0, 0, 0⟩)
                   (getVectorBetweenPoints ⟨0, 1, 0⟩ ⟨1, 0, 0⟩)) (1/2))) := rfl
  rw [h]; simp [vec3add, vec3scale, vec3cross, getVectorBetweenPoints, vec3negate, vec3zero]

theorem makeTriangle_face_area : HFace.getArea makeTriangle 0 7 = some ((1/2 : ℚ) : ℝ) := by
  rw [HFace.getArea, makeTriangle_areaVec, Option.map_some']
  congr 1
  apply vec3length_of_sq _ (1/2)
  · norm_num [Vec3.sqLength]
  · norm_num

theorem makeTriangle_face_normal : HFace.getNormal makeTriangle 0 = some ⟨0, 0, 1⟩ := by
  have hnc : HFace.normalCross makeTriangle 0 =
      some (vec3cross (getVectorBetweenPoints ⟨1, 0, 0⟩ ⟨0, 0, 0⟩)
                      (getVectorBetweenPoints ⟨0, 1, 0⟩ ⟨1, 0, 0⟩)) := rfl
  have hc : HFace.normalCross makeTriangle 0 = some ⟨0, 0, 1⟩ := by
    rw [hnc]
    simp [vec3cross, getVectorBetweenPoints, vec3add, vec3negate]
  rw [HFace.getNormal, hc, Option.map_some']
  congr 1
  rw [vec3normalize, if_neg (by norm_num [Vec3.sqLength])]
  norm_num [Vec3.sqLength, Vec3.toR, vec3scaleR, Real.sqrt_one, Vec3R.mk.injEq]

theorem makeTriangle_vertex_normal (v : Nat)
    (hfs : HVertex.getAttachedFaces makeTriangle v 7 7 = some [0]) :
    HVertex.getNormal makeTriangle v 7 7 7 = some ⟨0, 0, 1⟩ := by
  rw [HVertex.getNormal, hfs, Option.some_bind]
  simp only [optionMapM, makeTriangle_face_normal, makeTriangle_face_area,
    Option.some_bind, Option.map_some']
  simp only [List.map, List.foldl, vec3addR, vec3scaleR, vec3zeroR, Option.some_bind]
  norm_num [Vec3R.mk.injEq]

/-- Claim C8 (confirmed): `makeTriangle` builds the single CCW triangle at
(0,0,0), (1,0,0), (0,1,0) with exactly 3 vertices, 6 half-edges of which 3
carry the face and 3 are boundary edges with null face, and 1 face; and
`vertexNormal` at each of the three vertices is (0,0,1). -/
theorem makeTriangle_counts_and_vertex_normals :
    makeTriangle.vertices.map HVertex.pos = [⟨0, 0, 0⟩, ⟨1, 0, 0⟩, ⟨0, 1, 0⟩] ∧
    makeTriangle.vertices.length = 3 ∧
    makeTriangle.edges.length = 6 ∧
    makeTriangle.faces.length = 1 ∧
    (makeTriangle.edges.filter (fun e => e.face.isSome)).length = 3 ∧
    (makeTriangle.edges.filter (fun e => e.face.isNone)).length = 3 ∧
    HVertex.getNormal makeTriangle 0 7 7 7 = some ⟨0, 0, 1⟩ ∧
    HVertex.getNormal makeTriangle 1 7 7 7 = some ⟨0, 0, 1⟩ ∧
    HVertex.getNormal makeTriangle 2 7 7 7 = some ⟨0, 0, 1⟩ := by
  refine ⟨rfl, by decide, by decide, by decide, by decide, by decide, ?_, ?_, ?_⟩
  · exact makeTriangle_vertex_normal 0 (by decide)
  · exact makeTriangle_vertex_normal 1 (by decide)
  · exact makeTriangle_vertex_normal 2 (by decide)

/-! ## Claim 7: faceArea as the magnitude of a vector sum -/

theorem optionMapM_getD {α β : Type} (g : α → Option β) (l : List α) (r : List β)
    (h : optionMapM g l = some r) (d : α) (d' : β) :
    ∀ i, i < l.length → g (l.getD i d) = some (r.getD i d') := by
  induction l generalizing r with
  | nil => intro i hi; simp at hi
  | cons a t ih =>
    simp only [optionMapM] at h
    cases hg : g a with
    | none => rw [hg] at h; simp at h
    | some b =>
      rw [hg] at h
      cases ht : optionMapM g t with
      | none => rw [ht] at h; simp at h
      | some bs =>
        rw [ht] at h
        simp only [Option.some_bind, Option.map_some', Option.some.injEq] at h
        subst h
        intro i hi
        cases i with
        | zero => simpa using hg
        | succ j =>
          simp only [List.getD_cons_succ]
          exact ih bs ht j (by simpa using hi)

/-- The loop of `HFace.getArea`, evaluated: starting from `acc`, the fold over
any list of indices whose successors stay in range accumulates exactly the
halved cross products of consecutive edge vectors. -/
theorem areaFold_eq (m : HedgeMesh) (es : List Nat) (ws : List Vec3)
    (hws : optionMapM (edgeVector m) es = some ws) (l : List Nat) :
    ∀ (acc : Vec3), (∀ i ∈ l, i + 1 < es.length) →
    optionFoldlM (fun acc i =>
      (es[i]?).bind fun i1 =>
      (es[i + 1]?).bind fun i2 =>
      (edgeVector m i1).bind fun v1 =>
      (edgeVector m i2).bind fun v2 =>
      some (vec3add acc (vec3scale (vec3cross v1 v2) (1/2)))) acc l =
    some (acc + (l.map (fun i =>
      vec3scale (vec3cross (ws.getD i vec3zero) (ws.getD (i + 1) vec3zero)) (1/2))).sum) := by
  induction l with
  | nil => intro acc _; simp [optionFoldlM]
  | cons i t ih =>
    intro acc hl
    have hi1 : i + 1 < es.length := hl i (by simp)
    have hi : i < es.length := Nat.lt_of_succ_lt hi1
    have he1 : es[i]? = some (es.getD i 0) := by
      rw [List.getElem?_eq_getElem hi, List.getD_eq_getElem es 0 hi]
    have he2 : es[i + 1]? = some (es.getD (i + 1) 0) := by
      rw [List.getElem?_eq_getElem hi1, List.getD_eq_getElem es 0 hi1]
    have hv1 : edgeVector m (es.getD i 0) = some (ws.getD i vec3zero) :=
      optionMapM_getD (edgeVector m) es ws hws 0 vec3zero i hi
    have hv2 : edgeVector m (es.getD (i + 1) 0) = some (ws.getD (i + 1) vec3zero) :=
      optionMapM_getD (edgeVector m) es ws hws 0 vec3zero (i + 1) hi1
    simp only [optionFoldlM, he1, he2, hv1, hv2, Option.some_bind]
    rw [ih (vec3add acc (vec3scale (vec3cross (ws.getD i vec3zero) (ws.getD (i + 1) vec3zero))
      (1/2))) (fun j hj => hl j (by simp [hj]))]
    simp [vec3add_eq_add, add_assoc]

/-- Claim C7 (confirmed): for a face whose boundary walk yields `n` edges with
resolved edge vectors, `faceArea` equals the magnitude of the vector sum —
not the sum of magnitudes — of the halved cross products of the `n - 2`
consecutive edge-vector pairs, each edge vector being head position minus
tail (prev.head) position as computed by `edgeVector`. -/
theorem faceArea_is_length_of_vector_sum (m : HedgeMesh) (f fuel : Nat)
    (es : List Nat) (ws : List Vec3)
    (hes : HFace.getEdges m f fuel = some es)
    (hws : optionMapM (edgeVector m) es = some ws) :
    HFace.getArea m f fuel =
      some (Vec3.length (((List.range (es.length - 2)).map (fun i =>
        vec3scale (vec3cross (ws.getD i vec3zero) (ws.getD (i + 1) vec3zero)) (1/2))).sum)) := by
  rw [HFace.getArea, HFace.getAreaVec, hes, Option.some_bind]
  rw [areaFold_eq m es ws hws (List.range (es.length - 2)) vec3zero
    (fun i hi => by
      have := List.mem_range.mp hi
      omega)]
  rw [Option.map_some']
  congr 2
  rw [vec3zero_eq_zero, zero_add]

/-- The three boundary edge vectors of the makeTriangle face, in boundary
order. -/
def triEdgeVectors : List Vec3 :=
  [getVectorBetweenPoints ⟨1, 0, 0⟩ ⟨0, 0, 0⟩,
   getVectorBetweenPoints ⟨0, 1, 0⟩ ⟨1, 0, 0⟩,
   getVectorBetweenPoints ⟨0, 0, 0⟩ ⟨0, 1, 0⟩]

/-- Witness for the claim C7 theorem on the `makeTriangle` face: 3 boundary
edges, one consecutive pair, area = the length of the halved cross product. -/
theorem faceArea_is_length_of_vector_sum_witness :
    HFace.getArea makeTriangle 0 7 =
      some (Vec3.length (((List.range 1).map (fun i =>
        vec3scale (vec3cross (triEdgeVectors.getD i vec3zero)
          (triEdgeVectors.getD (i + 1) vec3zero)) (1/2))).sum)) :=
  faceArea_is_length_of_vector_sum makeTriangle 0 7 [0, 1, 2] triEdgeVectors (by decide) rfl

/-! ## Claim 6: laplacian smoothing and sharpening is a two-pass mean update -/

theorem getD_map_range {β : Type} (n i : Nat) (g : Nat → β) (d : β) (hi : i < n) :
    ((List.range n).map g).getD i d = g i := by
  rw [List.getD_eq_getElem _ d (by simpa using hi)]
  simp

theorem getD_range (n i : Nat) (hi : i < n) : (List.range n).getD i 0 = i := by
  rw [List.getD_eq_getElem _ 0 (by simpa using hi)]
  simp

/-- The accumulation loop of `vertexDelta`, evaluated: a successful fold adds
up the neighbor-to-vertex difference vectors read from the mesh. -/
theorem deltaFold_eq (m : HedgeMesh) (i : Nat) (nbs : List Nat) :
    ∀ (acc s : Vec3),
    optionFoldlM (deltaStep m i) acc nbs = some s →
    s = acc + (nbs.map (fun nb =>
      getVectorBetweenPoints (m.vertices.getD nb defaultVertex).pos
        (m.vertices.getD i defaultVertex).pos)).sum := by
  induction nbs with
  | nil =>
    intro acc s h
    simp only [optionFoldlM, Option.some.injEq] at h
    simp [← h]
  | cons nb t ih =>
    intro acc s h
    simp only [optionFoldlM] at h
    cases hstep : deltaStep m i acc nb with
    | none => rw [hstep] at h; simp at h
    | some acc1 =>
      rw [hstep] at h
      simp only [Option.some_bind] at h
      simp only [deltaStep] at hstep
      cases hnv : m.vertices[nb]? with
      | none => rw [hnv] at hstep; simp at hstep
      | some nv =>
        rw [hnv] at hstep
        cases hv : m.vertices[i]? with
        | none => rw [hv] at hstep; simp at hstep
        | some v =>
          rw [hv] at hstep
          simp only [Option.some_bind, Option.some.injEq] at hstep
          obtain ⟨hnb, hnbv⟩ := List.getElem?_eq_some_iff.mp hnv
          obtain ⟨hiv, hivv⟩ := List.getElem?_eq_some_iff.mp hv
          have e1 : m.vertices.getD nb defaultVertex = nv := by
            rw [List.getD_eq_getElem _ _ hnb, hnbv]
          have e2 : m.vertices.getD i defaultVertex = v := by
            rw [List.getD_eq_getElem _ _ hiv, hivv]
          rw [ih _ _ h, ← hstep, ← e1, ← e2]
          simp [vec3add_eq_add, add_assoc]

/-- Claim C6 (confirmed): `laplacianSmoothSharpen` moves every vertex by
`((1/count) * sign)` times the sum of `(neighbor.pos - vertex.pos)` — the mean
of the difference vectors, added when smoothing (`sign = 1`) and subtracted
when sharpening (`sign = -1`).  Every quantity on the right-hand side is read
from the pre-mutation mesh `m` (the source computes all the deltas first and
applies them in a second pass), so the result does not depend on the order in
which vertices are visited. -/
theorem laplacianSmoothSharpen_two_pass_mean (m : HedgeMesh) (smooth : Bool)
    (fuelInner fuelOuter : Nat) (m1 : HedgeMesh) (i : Nat) (nbs : List Nat)
    (hm : HedgeMesh.laplacianSmoothSharpen m smooth fuelInner fuelOuter = some m1)
    (hi : i < m.vertices.length)
    (hnbs : HVertex.getVertexNeighbors m i fuelInner fuelOuter = some nbs) :
    (m1.vertices.getD i defaultVertex).pos =
      vec3add (m.vertices.getD i defaultVertex).pos
        (vec3scale ((nbs.map (fun nb =>
            getVectorBetweenPoints (m.vertices.getD nb defaultVertex).pos
              (m.vertices.getD i defaultVertex).pos)).sum)
          ((1 / (nbs.length : ℚ)) * (if smooth then 1 else -1))) := by
  simp only [HedgeMesh.laplacianSmoothSharpen] at hm
  cases hds : optionMapM
      (fun i => vertexDelta m (if smooth then 1 else -1) i fuelInner fuelOuter)
      (List.range m.vertices.length) with
  | none => rw [hds] at hm; simp at hm
  | some deltas =>
    rw [hds] at hm
    simp only [Option.some_bind, Option.some.injEq] at hm
    have hdel : vertexDelta m (if smooth then 1 else -1) ((List.range m.vertices.length).getD i 0)
        fuelInner fuelOuter = some (deltas.getD i vec3zero) :=
      optionMapM_getD _ _ _ hds 0 vec3zero i (by simpa using hi)
    rw [getD_range _ _ hi] at hdel
    simp only [vertexDelta, hnbs, Option.some_bind] at hdel
    cases hfold : optionFoldlM (deltaStep m i) vec3zero nbs with
    | none => rw [hfold] at hdel; simp at hdel
    | some s =>
      rw [hfold] at hdel
      simp only [Option.some_bind, Option.some.injEq] at hdel
      have hs : s = (nbs.map (fun nb =>
          getVectorBetweenPoints (m.vertices.getD nb defaultVertex).pos
            (m.vertices.getD i defaultVertex).pos)).sum := by
        rw [deltaFold_eq m i nbs vec3zero s hfold, vec3zero_eq_zero, zero_add]
      rw [← hm]
      simp only [getD_map_range _ _ _ _ hi]
      rw [← hdel, hs]

theorem option_eq_some_getD {α : Type} (o : Option α) (d : α) (h : o.isSome = true) :
    o = some (o.getD d) := by
  cases o with
  | none => simp at h
  | some a => rfl

/-- Witness for the claim C6 theorem on the loaded triangle, vertex 0 with
neighbors 1 and 2, smoothing. -/
theorem laplacianSmoothSharpen_two_pass_mean_witness :
    (((HedgeMesh.laplacianSmoothSharpen triMesh true 7 7).getD {}).vertices.getD 0
        defaultVertex).pos =
      vec3add (triMesh.vertices.getD 0 defaultVertex).pos
        (vec3scale ((([1, 2] : List Nat).map (fun nb =>
            getVectorBetweenPoints (triMesh.vertices.getD nb defaultVertex).pos
              (triMesh.vertices.getD 0 defaultVertex).pos)).sum)
          ((1 / (([1, 2] : List Nat).length : ℚ)) * (if true then 1 else -1))) :=
  laplacianSmoothSharpen_two_pass_mean triMesh true 7 7
    ((HedgeMesh.laplacianSmoothSharpen triMesh true 7 7).getD {}) 0 [1, 2]
    (option_eq_some_getD _ _ (by decide)) (by decide) (by decide)

/-! ## Claim 9: boundary cycle extraction

Well-formedness of the boundary structure is expressed through explicit
next-orbits: a boundary orbit is a nonempty list of null-face edges linked in
a cycle by `next`, whose heads resolve to in-range vertices and are pairwise
distinct (the walk stops on head-ID equality, so distinct heads make it stop
exactly on the return to the start). -/

def nextOf (m : HedgeMesh) (e : Nat) : Option Nat := (m.edges[e]?).bind HEdge.next

def nextIter (m : HedgeMesh) : Nat → Nat → Option Nat
  | e, 0 => some e
  | e, t + 1 => (nextOf m e).bind fun e1 => nextIter m e1 t

/-- The list `xs` is a chain of `next` links ending by pointing at `tgt`. -/
def nextChain (m : HedgeMesh) (tgt : Nat) : List Nat → Prop
  | [] => True
  | x :: xs => nextOf m x = some (xs.headD tgt) ∧ nextChain m tgt xs

instance nextChainDec (m : HedgeMesh) (tgt : Nat) : ∀ l, Decidable (nextChain m tgt l)
  | [] => isTrue trivial
  | x :: xs =>
    haveI := nextChainDec m tgt xs
    inferInstanceAs (Decidable (_ ∧ _))

def isBoundaryEdge (m : HedgeMesh) (i : Nat) : Bool :=
  match m.edges[i]? with
  | some ed => decide (ed.face = none)
  | none => false

def headOK (m : HedgeMesh) (i : Nat) : Bool :=
  match headOf m.edges i with
  | some hd => decide (hd < m.vertices.length)
  | none => false

/-- A closed boundary cycle of the mesh, starting at its first element. -/
def BoundaryOrbit (m : HedgeMesh) (cyc : List Nat) : Prop :=
  cyc ≠ [] ∧
  nextChain m (cyc.headD 0) cyc ∧
  (∀ i ∈ cyc, isBoundaryEdge m i = true) ∧
  (cyc.map (fun i => headOf m.edges i)).Nodup ∧
  (∀ i ∈ cyc, headOK m i = true)

instance (m : HedgeMesh) (cyc : List Nat) : Decidable (BoundaryOrbit m cyc) :=
  inferInstanceAs (Decidable (_ ∧ _ ∧ _ ∧ _ ∧ _))

theorem headD_eq_getD {α : Type} (l : List α) (d : α) : l.headD d = l.getD 0 d := by
  cases l <;> rfl

theorem headOf_inv (es : List HEdge) (i hd : Nat) (h : headOf es i = some hd) :
    ∃ ed, es[i]? = some ed ∧ ed.head = some hd := by
  unfold headOf at h
  cases he : es[i]? with
  | none => rw [he] at h; simp at h
  | some ed => rw [he] at h; exact ⟨ed, rfl, h⟩

theorem isBoundaryEdge_inv (m : HedgeMesh) (i : Nat) (h : isBoundaryEdge m i = true) :
    ∃ ed, m.edges[i]? = some ed ∧ ed.face = none := by
  unfold isBoundaryEdge at h
  cases he : m.edges[i]? with
  | none => rw [he] at h; simp at h
  | some ed => rw [he] at h; exact ⟨ed, rfl, by simpa using h⟩

theorem headOK_inv (m : HedgeMesh) (i : Nat) (h : headOK m i = true) :
    ∃ hd, headOf m.edges i = some hd ∧ hd < m.vertices.length := by
  unfold headOK at h
  cases he : headOf m.edges i with
  | none => rw [he] at h; simp at h
  | some hd => rw [he] at h; exact ⟨hd, rfl, by simpa using h⟩

theorem nodup_lt_length_le (l : List Nat) (n : Nat) (hnd : l.Nodup)
    (hlt : ∀ x ∈ l, x < n) : l.length ≤ n := by
  have h1 : l.toFinset.card = l.length := List.toFinset_card_of_nodup hnd
  have h2 : l.toFinset ⊆ Finset.range n := by
    intro x hx
    simp only [List.mem_toFinset] at hx
    exact Finset.mem_range.mpr (hlt x hx)
  have h3 := Finset.card_le_card h2
  rw [h1, Finset.card_range] at h3
  exact h3

theorem boundaryOrbit_mem_lt (m : HedgeMesh) (cyc : List Nat) (h : BoundaryOrbit m cyc) :
    ∀ x ∈ cyc, x < m.edges.length := by
  intro x hx
  obtain ⟨ed, hed, _⟩ := isBoundaryEdge_inv m x (h.2.2.1 x hx)
  exact (List.getElem?_eq_some_iff.mp hed).1

theorem boundaryOrbit_length_le (m : HedgeMesh) (cyc : List Nat) (h : BoundaryOrbit m cyc) :
    cyc.length ≤ m.edges.length :=
  nodup_lt_length_le cyc m.edges.length (h.2.2.2.1.of_map) (boundaryOrbit_mem_lt m cyc h)

theorem nextChain_getD (m : HedgeMesh) (tgt : Nat) :
    ∀ (cyc : List Nat), nextChain m tgt cyc →
    ∀ k, k < cyc.length →
    nextOf m (cyc.getD k 0) = some (if k + 1 < cyc.length then cyc.getD (k + 1) 0 else tgt) := by
  intro cyc
  induction cyc with
  | nil => intro _ k hk; simp at hk
  | cons x xs ih =>
    intro hch k hk
    obtain ⟨h1, h2⟩ := hch
    cases k with
    | zero =>
      cases xs with
      | nil => simpa using h1
      | cons y ys => simpa using h1
    | succ j =>
      have hj : j < xs.length := by simpa using hk
      have := ih h2 j hj
      simp only [List.getD_cons_succ]
      rw [this]
      by_cases hlt : j + 1 < xs.length
      · rw [if_pos hlt, if_pos (by simpa using Nat.succ_lt_succ hlt)]
      · rw [if_neg hlt, if_neg (by simpa using fun h => hlt (Nat.lt_of_succ_lt_succ h))]

theorem orbit_step (m : HedgeMesh) (cyc : List Nat) (hne : cyc ≠ [])
    (hch : nextChain m (cyc.headD 0) cyc) (k : Nat) (hk : k < cyc.length) :
    nextOf m (cyc.getD k 0) = some (cyc.getD ((k + 1) % cyc.length) 0) := by
  have h := nextChain_getD m _ cyc hch k hk
  by_cases hlt : k + 1 < cyc.length
  · rw [h, if_pos hlt, Nat.mod_eq_of_lt hlt]
  · have hk1 : k + 1 = cyc.length := by omega
    rw [h, if_neg hlt, hk1, Nat.mod_self, headD_eq_getD]

theorem orbit_nextIter (m : HedgeMesh) (cyc : List Nat) (hne : cyc ≠ [])
    (hch : nextChain m (cyc.headD 0) cyc) :
    ∀ (t k : Nat), k < cyc.length →
    nextIter m (cyc.getD k 0) t = some (cyc.getD ((k + t) % cyc.length) 0) := by
  intro t
  induction t with
  | zero => intro k hk; simp [nextIter, Nat.mod_eq_of_lt hk]
  | succ s ih =>
    intro k hk
    have hpos : 0 < cyc.length := List.length_pos.mpr hne
    simp only [nextIter]
    rw [orbit_step m cyc hne hch k hk, Option.some_bind,
      ih ((k + 1) % cyc.length) (Nat.mod_lt _ hpos)]
    congr 2
    rw [Nat.mod_add_mod]
    congr 1
    omega

/-- Two boundary orbits sharing an edge have the same members: following
`next` from the shared edge traverses both cycles. -/
theorem orbit_mem_subset (m : HedgeMesh) (cyc1 cyc2 : List Nat)
    (h1 : BoundaryOrbit m cyc1) (h2 : BoundaryOrbit m cyc2)
    (j : Nat) (hj1 : j ∈ cyc1) (hj2 : j ∈ cyc2) :
    ∀ x, x ∈ cyc1 → x ∈ cyc2 := by
  intro x hx
  obtain ⟨k1, hk1, hjk1⟩ := List.mem_iff_getElem.mp hj1
  obtain ⟨ix, hix, hxx⟩ := List.mem_iff_getElem.mp hx
  obtain ⟨k2, hk2, hjk2⟩ := List.mem_iff_getElem.mp hj2
  have hL2 : 0 < cyc2.length := by omega
  have gj1 : cyc1.getD k1 0 = j := by rw [List.getD_eq_getElem _ _ hk1, hjk1]
  have gx1 : cyc1.getD ix 0 = x := by rw [List.getD_eq_getElem _ _ hix, hxx]
  have gj2 : cyc2.getD k2 0 = j := by rw [List.getD_eq_getElem _ _ hk2, hjk2]
  have hmod : (k1 + (cyc1.length - k1 + ix) % cyc1.length) % cyc1.length = ix := by
    rw [Nat.add_mod_mod]
    have harith : k1 + (cyc1.length - k1 + ix) = cyc1.length + ix := by omega
    rw [harith, Nat.add_mod_left, Nat.mod_eq_of_lt hix]
  have e1 : nextIter m j ((cyc1.length - k1 + ix) % cyc1.length) = some x := by
    rw [← gj1, orbit_nextIter m cyc1 h1.1 h1.2.1 _ k1 hk1, hmod, gx1]
  have e2 : nextIter m j ((cyc1.length - k1 + ix) % cyc1.length) =
      some (cyc2.getD ((k2 + (cyc1.length - k1 + ix) % cyc1.length) % cyc2.length) 0) := by
    rw [← gj2, orbit_nextIter m cyc2 h2.1 h2.2.1 _ k2 hk2]
  rw [e1] at e2
  have hx2 : x = cyc2.getD ((k2 + (cyc1.length - k1 + ix) % cyc1.length) % cyc2.length) 0 :=
    Option.some.inj e2
  rw [hx2, List.getD_eq_getElem _ _ (Nat.mod_lt _ hL2)]
  exact List.getElem_mem _

/-- The cycle walk follows a `next` chain exactly: started after `s` on a
chain whose member heads all differ from the head of `s`, it collects the
chain and stops on returning to the head of `s`. -/
theorem cycleWalk_eq (m : HedgeMesh)
    (hids : ∀ (i : Nat) (hv : HVertex), m.vertices[i]? = some hv → hv.ID = some i)
    (s hd_s : Nat) (hhs : headOf m.edges s = some hd_s) (hvs : hd_s < m.vertices.length) :
    ∀ (xs : List Nat) (fuel : Nat), xs.length < fuel →
    nextChain m s xs →
    (∀ x ∈ xs, ∃ hd, headOf m.edges x = some hd ∧ hd < m.vertices.length ∧ hd ≠ hd_s) →
    cycleWalk m (some hd_s) (some (xs.headD s)) fuel = some xs := by
  intro xs
  induction xs with
  | nil =>
    intro fuel hf _ _
    match fuel, hf with
    | f + 1, _ =>
      obtain ⟨ed, hed, hh⟩ := headOf_inv m.edges s hd_s hhs
      have hhv : m.vertices[hd_s]? = some (m.vertices.get ⟨hd_s, hvs⟩) :=
        List.getElem?_eq_getElem hvs
      simp only [List.headD, cycleWalk, Option.some_bind, hed, hh, hhv]
      rw [hids hd_s _ hhv]
      simp
  | cons x xs ih =>
    intro fuel hf hch hheads
    obtain ⟨hlink, hch1⟩ := hch
    obtain ⟨hd, hhx, hhdlt, hne⟩ := hheads x (by simp)
    match fuel, hf with
    | f + 1, hf =>
      obtain ⟨ed, hed, hh⟩ := headOf_inv m.edges x hd hhx
      have hhv : m.vertices[hd]? = some (m.vertices.get ⟨hd, hhdlt⟩) :=
        List.getElem?_eq_getElem hhdlt
      simp only [List.headD, cycleWalk, Option.some_bind, hed, hh, hhv]
      rw [hids hd _ hhv]
      rw [if_neg (by simpa using hne)]
      have hnext : ed.next = some (xs.headD s) := by
        have h := hlink
        simp only [nextOf, hed, Option.some_bind] at h
        exact h
      rw [hnext, ih f (by simpa using Nat.lt_of_succ_lt_succ hf) hch1
        (fun y hy => hheads y (by simp [hy]))]
      rfl

/-- The main loop of `getBoundaryCycles` over the index window `[a, a+n)`:
given that every boundary edge heads a boundary orbit, that the checked set is
closed under orbits, and that every boundary edge before the window is
checked, the loop succeeds and emits boundary orbits that partition the
unchecked boundary edges of the window, each started at its minimal member,
in increasing start order. -/
theorem boundaryCyclesLoop_spec (m : HedgeMesh)
    (hids : ∀ (i : Nat) (hv : HVertex), m.vertices[i]? = some hv → hv.ID = some i)
    (horb : ∀ e, isBoundaryEdge m e = true →
      ∃ cyc, BoundaryOrbit m cyc ∧ cyc.headD 0 = e) :
    ∀ (n a : Nat) (checked : List Nat),
    a + n ≤ m.edges.length →
    (∀ j ∈ checked, ∀ cyc, BoundaryOrbit m cyc → j ∈ cyc → ∀ x ∈ cyc, x ∈ checked) →
    (∀ e, e < a → isBoundaryEdge m e = true → e ∈ checked) →
    ∃ cycles,
      boundaryCyclesLoop m (m.edges.length + 1) checked (List.range' a n) = some cycles ∧
      (∀ c ∈ cycles, BoundaryOrbit m c ∧ a ≤ c.headD 0 ∧ c.headD 0 < a + n ∧
        (∀ e ∈ c, c.headD 0 ≤ e) ∧ (∀ e ∈ c, e ∉ checked)) ∧
      (∀ e, isBoundaryEdge m e = true → e ∉ checked → a ≤ e → e < a + n →
        cycles.countP (fun c => decide (e ∈ c)) = 1) ∧
      (∀ e ∈ checked, cycles.countP (fun c => decide (e ∈ c)) = 0) ∧
      List.Chain' (· < ·) (cycles.map (fun c => c.headD 0)) := by
  intro n
  induction n with
  | zero =>
    intro a checked _ _ _
    refine ⟨[], rfl, by simp, ?_, by simp, by simp⟩
    intro e _ _ h1 h2
    omega
  | succ n ih =>
    intro a checked hE hIC hIB
    have halt : a < m.edges.length := by omega
    obtain ⟨ea, hed⟩ : ∃ ea, m.edges[a]? = some ea := ⟨_, List.getElem?_eq_getElem halt⟩
    rw [show List.range' a (n + 1) = a :: List.range' (a + 1) n from rfl]
    simp only [boundaryCyclesLoop, hed, Option.some_bind]
    by_cases hcond : ea.face = none ∧ a ∉ checked
    · rw [if_pos hcond]
      have hba : isBoundaryEdge m a = true := by
        unfold isBoundaryEdge
        rw [hed]
        simpa using hcond.1
      obtain ⟨cyc, horbC, hheadC⟩ := horb a hba
      obtain ⟨c0, tail, rfl⟩ : ∃ c0 t, cyc = c0 :: t := by
        cases cyc with
        | nil => exact absurd rfl horbC.1
        | cons c0 t => exact ⟨c0, t, rfl⟩
      have hc0 : c0 = a := by simpa using hheadC
      subst hc0
      obtain ⟨hd_a, hha, hhalt⟩ := headOK_inv m c0 (horbC.2.2.2.2 c0 (by simp))
      obtain ⟨ed', hed', hh'⟩ := headOf_inv m.edges c0 hd_a hha
      have hee : ed' = ea := by rw [hed] at hed'; exact (Option.some.inj hed').symm
      rw [hee] at hh'
      obtain ⟨hv, hhv⟩ : ∃ hv, m.vertices[hd_a]? = some hv :=
        ⟨_, List.getElem?_eq_getElem hhalt⟩
      simp only [hh', hhv, Option.some_bind]
      rw [hids hd_a hv hhv]
      have hnext : ea.next = some (tail.headD c0) := by
        have h := horbC.2.1.1
        simp only [List.headD, nextOf, hed, Option.some_bind] at h
        exact h
      have hlen : (c0 :: tail).length ≤ m.edges.length :=
        boundaryOrbit_length_le m _ horbC
      have hwalk : cycleWalk m (some hd_a) ea.next (m.edges.length + 1) = some tail := by
        rw [hnext]
        apply cycleWalk_eq m hids c0 hd_a hha hhalt tail (m.edges.length + 1)
          (by simp only [List.length_cons] at hlen; omega) horbC.2.1.2
        intro x hx
        obtain ⟨hd_x, hhx, hhxlt⟩ := headOK_inv m x (horbC.2.2.2.2 x (by simp [hx]))
        refine ⟨hd_x, hhx, hhxlt, ?_⟩
        intro hcontra
        have hnd := horbC.2.2.2.1
        simp only [List.map_cons, List.nodup_cons] at hnd
        apply hnd.1
        apply List.mem_map.mpr
        exact ⟨x, hx, by rw [hhx, hcontra, hha]⟩
      rw [hwalk]
      have hmemcyc : ∀ e ∈ c0 :: tail, e ∉ checked := by
        intro e he hechk
        exact hcond.2 (hIC e hechk _ horbC he c0 (by simp))
      have hmincyc : ∀ e ∈ c0 :: tail, c0 ≤ e := by
        intro e he
        have heb := horbC.2.2.1 e he
        by_contra hlt
        exact hmemcyc e he (hIB e (by omega) heb)
      obtain ⟨cycles1, hloop1, hC1, hC2, hC3, hC4⟩ :=
        ih (c0 + 1) (checked ++ c0 :: tail) (by omega)
          (by
            intro j hj cyc2 horb2 hj2 x hx
            rcases List.mem_append.mp hj with hj | hj
            · exact List.mem_append_left _ (hIC j hj cyc2 horb2 hj2 x hx)
            · exact List.mem_append_right _
                (orbit_mem_subset m cyc2 _ horb2 horbC j hj2 hj x hx))
          (by
            intro e he heb
            by_cases hea : e = c0
            · exact List.mem_append_right _ (by simp [hea])
            · exact List.mem_append_left _ (hIB e (by omega) heb))
      rw [Option.some_bind, hloop1, Option.map_some']
      refine ⟨(c0 :: tail) :: cycles1, rfl, ?_, ?_, ?_, ?_⟩
      · intro c hc
        rcases List.mem_cons.mp hc with rfl | hc
        · exact ⟨horbC, by simp, by simp only [List.headD]; omega,
            by simpa using hmincyc, hmemcyc⟩
        · obtain ⟨ho, h1, h2, h3, h4⟩ := hC1 c hc
          refine ⟨ho, by omega, by omega, h3, ?_⟩
          intro e he hechk
          exact h4 e he (List.mem_append_left _ hechk)
      · intro e heb hechk hae hean
        rw [List.countP_cons]
        by_cases hein : e ∈ c0 :: tail
        · have h0 : cycles1.countP (fun c => decide (e ∈ c)) = 0 :=
            hC3 e (List.mem_append_right _ hein)
          simp [h0, hein]
        · have h1 : cycles1.countP (fun c => decide (e ∈ c)) = 1 := by
            apply hC2 e heb
            · intro hmem
              rcases List.mem_append.mp hmem with h | h
              · exact hechk h
              · exact hein h
            · have : e ≠ c0 := fun h => hein (h ▸ List.mem_cons_self _ _)
              omega
            · omega
          simp [h1, hein]
      · intro e hechk
        rw [List.countP_cons]
        have h0 : cycles1.countP (fun c => decide (e ∈ c)) = 0 :=
          hC3 e (List.mem_append_left _ hechk)
        have hni : e ∉ c0 :: tail := fun hein => hmemcyc e hein hechk
        simp [h0, hni]
      · rw [List.map_cons]
        rw [List.chain'_cons']
        constructor
        · intro b hb
          have hbmem : b ∈ cycles1.map (fun c => c.headD 0) := List.mem_of_mem_head? hb
          obtain ⟨c, hc, hbc⟩ := List.mem_map.mp hbmem
          have h2 := (hC1 c hc).2.1
          rw [List.headD_cons, ← hbc]
          show c0 < c.headD 0
          omega
        · exact hC4
    · rw [if_neg hcond]
      have hIB1 : ∀ e, e < a + 1 → isBoundaryEdge m e = true → e ∈ checked := by
        intro e he heb
        by_cases hea : e = a
        · subst hea
          have hface : ea.face = none := by
            unfold isBoundaryEdge at heb
            rw [hed] at heb
            simpa using heb
          by_cases hchk : e ∈ checked
          · exact hchk
          · exact absurd ⟨hface, hchk⟩ hcond
        · exact hIB e (by omega) heb
      obtain ⟨cycles1, hloop1, hC1, hC2, hC3, hC4⟩ :=
        ih (a + 1) checked (by omega) hIC hIB1
      refine ⟨cycles1, hloop1, ?_, ?_, hC3, hC4⟩
      · intro c hc
        obtain ⟨ho, h1, h2, h3, h4⟩ := hC1 c hc
        exact ⟨ho, by omega, by omega, h3, h4⟩
      · intro e heb hechk hae hean
        apply hC2 e heb hechk
        · by_cases hea : e = a
          · subst hea
            exact absurd (hIB1 e (by omega) heb) hechk
          · omega
        · omega

theorem ids_assigned_of_getD (m : HedgeMesh)
    (h : ∀ i, i < m.vertices.length → (m.vertices.getD i defaultVertex).ID = some i) :
    ∀ (i : Nat) (hv : HVertex), m.vertices[i]? = some hv → hv.ID = some i := by
  intro i hv hh
  obtain ⟨hlt, heq⟩ := List.getElem?_eq_some_iff.mp hh
  have h1 := h i hlt
  rw [List.getD_eq_getElem _ _ hlt, heq] at h1
  exact h1

theorem horb_of_fn (m : HedgeMesh) (cycFn : Nat → List Nat)
    (h : ∀ e, e < m.edges.length → isBoundaryEdge m e = true →
      BoundaryOrbit m (cycFn e) ∧ (cycFn e).headD 0 = e) :
    ∀ e, isBoundaryEdge m e = true → ∃ cyc, BoundaryOrbit m cyc ∧ cyc.headD 0 = e := by
  intro e heb
  have hlt : e < m.edges.length := by
    unfold isBoundaryEdge at heb
    cases he : m.edges[e]? with
    | none => rw [he] at heb; simp at heb
    | some ed => exact (List.getElem?_eq_some_iff.mp he).1
  exact ⟨cycFn e, (h e hlt heb).1, (h e hlt heb).2⟩

/-- Claim C9 (confirmed): when the vertex IDs are assigned and every null-face
half-edge heads a closed boundary orbit (a manifold boundary structure),
`getBoundaryCycles` succeeds and partitions the null-face half-edges into
disjoint `next`-cycles — every boundary edge lies in exactly one returned
cycle, each returned cycle is a boundary orbit started at its smallest edge
index, and the cycles are emitted in increasing order of those start indices,
i.e. in the order boundary edges are first encountered in the edge
collection.  In particular, on the mesh loaded from a single triangle, with
one face and three boundary edges, it returns exactly one cycle of length 3. -/
theorem getBoundaryCycles_partitions (m : HedgeMesh)
    (hids : ∀ (i : Nat) (hv : HVertex), m.vertices[i]? = some hv → hv.ID = some i)
    (horb : ∀ e, isBoundaryEdge m e = true →
      ∃ cyc, BoundaryOrbit m cyc ∧ cyc.headD 0 = e) :
    (∃ cycles,
      HedgeMesh.getBoundaryCycles m (m.edges.length + 1) = some cycles ∧
      (∀ c ∈ cycles, BoundaryOrbit m c) ∧
      (∀ e, isBoundaryEdge m e = true → cycles.countP (fun c => decide (e ∈ c)) = 1) ∧
      (∀ c ∈ cycles, ∀ e ∈ c, c.headD 0 ≤ e) ∧
      List.Chain' (· < ·) (cycles.map (fun c => c.headD 0))) ∧
    HedgeMesh.getBoundaryCycles triMesh 7 = some [[3, 5, 4]] := by
  constructor
  · obtain ⟨cycles, hloop, hC1, hC2, hC3, hC4⟩ :=
      boundaryCyclesLoop_spec m hids horb m.edges.length 0 [] (by omega)
        (by intro j hj; simp at hj) (by intro e he _; omega)
    refine ⟨cycles, ?_, ?_, ?_, ?_, hC4⟩
    · rw [HedgeMesh.getBoundaryCycles, List.range_eq_range']
      exact hloop
    · intro c hc
      exact (hC1 c hc).1
    · intro e heb
      apply hC2 e heb (by simp) (by omega)
      obtain ⟨ed, hed, _⟩ := isBoundaryEdge_inv m e heb
      have := (List.getElem?_eq_some_iff.mp hed).1
      omega
    · intro c hc
      exact (hC1 c hc).2.2.2.1
  · decide

/-- Witness for the claim C9 theorem on the loaded triangle mesh: IDs are
assigned, each of the three boundary edges (3, 4, 5) heads a closed orbit. -/
theorem getBoundaryCycles_partitions_witness :
    (∃ cycles,
      HedgeMesh.getBoundaryCycles triMesh (triMesh.edges.length + 1) = some cycles ∧
      (∀ c ∈ cycles, BoundaryOrbit triMesh c) ∧
      (∀ e, isBoundaryEdge triMesh e = true →
        cycles.countP (fun c => decide (e ∈ c)) = 1) ∧
      (∀ c ∈ cycles, ∀ e ∈ c, c.headD 0 ≤ e) ∧
      List.Chain' (· < ·) (cycles.map (fun c => c.headD 0))) ∧
    HedgeMesh.getBoundaryCycles triMesh 7 = some [[3, 5, 4]] :=
  getBoundaryCycles_partitions triMesh
    (ids_assigned_of_getD triMesh (by decide))
    (horb_of_fn triMesh
      (fun e => if e = 3 then [3, 5, 4] else if e = 4 then [4, 3, 5] else [5, 4, 3])
      (by decide))

/-! ## Claim 5: spoke walk termination and the absence of any guard

The accessors have no iteration cap and the source defines no
`NonManifoldError`; on a malformed mesh the walk simply never returns.  On a
manifold vertex — its spokes forming a single closed fan, expressed below
through the executable spoke-step orbit — the walks return within fuel
bounded by the mesh size. -/

/-- A deliberately malformed mesh: the only edge points to itself by `next`
while heading a vertex that is not the walked vertex, so the inner scan of the
spoke walk never finds an edge heading back and never terminates. -/
def nonManifoldMesh : HedgeMesh :=
  { vertices := [{ pos := vec3zero, h := some 0, ID := some 0 },
                 { pos := vec3zero, ID := some 1 }]
    edges := [{ head := some 1, next := some 0, pair := some 0, prev := some 0, ID := some 0 }]
    faces := [] }

/-- The spoke walks of a vertex return nothing at any fuel: the loops run
forever in the JS source. -/
def spokeWalksDiverge (m : HedgeMesh) (v : Nat) : Prop :=
  (∀ fuelInner fuelOuter, HVertex.getVertexNeighbors m v fuelInner fuelOuter = none) ∧
  (∀ fuelInner fuelOuter, HVertex.getAttachedFaces m v fuelInner fuelOuter = none)

/-- Claim C5 counterexample: on the malformed mesh the spoke-walk accessors
never return, for any iteration budget — there is no NonManifoldError and no
cap; the source loops forever instead of failing. -/
theorem nonManifoldMesh_walks_diverge : spokeWalksDiverge nonManifoldMesh 0 := by
  have hscan : ∀ f, vertexScan nonManifoldMesh (some 0) (some 0) f = none := by
    intro f
    induction f with
    | zero => rfl
    | succ g ih =>
      exact (show vertexScan nonManifoldMesh (some 0) (some 0) (g + 1) =
        vertexScan nonManifoldMesh (some 0) (some 0) g from rfl).trans ih
  constructor
  · intro fi fo
    cases fo with
    | zero => rfl
    | succ fo1 =>
      show neighborWalk nonManifoldMesh (some 0) (some 1) fi 0 (fo1 + 1) = none
      simp only [neighborWalk, hscan fi]
      rfl
  · intro fi fo
    cases fo with
    | zero => rfl
    | succ fo1 =>
      show faceWalk nonManifoldMesh (some 0) fi none 0 (fo1 + 1) = none
      simp only [faceWalk, hscan fi]
      rfl

/-- One full spoke step of the neighbor walk: scan to the edge heading into
the vertex, then cross its pair. -/
def spokeStep (m : HedgeMesh) (vid : Option Nat) (fuelInner e : Nat) : Option Nat :=
  (vertexScan m vid (some e) fuelInner).bind fun stopE =>
  (m.edges[stopE]?).bind HEdge.pair

/-- Iterate `spokeStep` a given number of times. -/
def iterSpoke (m : HedgeMesh) (vid : Option Nat) (fuelInner : Nat) : Nat → Nat → Option Nat
  | e, 0 => some e
  | e, j + 1 => (spokeStep m vid fuelInner e).bind fun e1 => iterSpoke m vid fuelInner e1 j

/-- The resolved ID of the head vertex of edge `e` (`none` when any of edge,
head pointer, or head vertex is missing). -/
def spokeHeadID (m : HedgeMesh) (e : Nat) : Option (Option Nat) :=
  (m.edges[e]?).bind fun ed =>
  ed.head.bind fun hd =>
  (m.vertices[hd]?).map HVertex.ID

/-- One full spoke step of the attached-faces walk: the neighbor spoke step
followed by the extra boundary hop when the crossed edge has a null face. -/
def faceSpokeStep (m : HedgeMesh) (vid : Option Nat) (fuelInner e : Nat) : Option Nat :=
  (spokeStep m vid fuelInner e).bind fun pe =>
  (m.edges[pe]?).bind fun ped =>
  (if ped.face = none then
     (vertexScan m vid (some pe) fuelInner).bind
       (fun s2 => (m.edges[s2]?).bind HEdge.pair)
   else some pe)

/-- Iterate `faceSpokeStep` a given number of times. -/
def iterFaceSpoke (m : HedgeMesh) (vid : Option Nat) (fuelInner : Nat) : Nat → Nat → Option Nat
  | e, 0 => some e
  | e, j + 1 => (faceSpokeStep m vid fuelInner e).bind fun e1 => iterFaceSpoke m vid fuelInner e1 j

/-- The resolved ID of the face of edge `e` (`none` when edge, face pointer,
or face object is missing). -/
def faceIDOf (m : HedgeMesh) (e : Nat) : Option (Option Nat) :=
  ((m.edges[e]?).bind HEdge.face).bind fun cf => (m.faces[cf]?).map HFace.ID

/-- The start spoke used by both accessors: the stored edge of the vertex,
self-repaired by one `next` hop when its head already is the vertex. -/
def startSpoke (m : HedgeMesh) (v : Nat) : Option Nat :=
  (m.vertices[v]?).bind fun hv =>
  hv.h.bind fun h0 =>
  (m.edges[h0]?).bind fun e0 =>
  e0.head.bind fun hd0 =>
  (m.vertices[hd0]?).bind fun hv0 =>
  if hv0.ID = hv.ID then e0.next else some h0

theorem spokeHeadID_inv (m : HedgeMesh) (e : Nat) (idv : Option Nat)
    (h : spokeHeadID m e = some idv) :
    ∃ ed hd hv, m.edges[e]? = some ed ∧ ed.head = some hd ∧
      m.vertices[hd]? = some hv ∧ hv.ID = idv := by
  simp only [spokeHeadID, Option.bind_eq_some, Option.map_eq_some'] at h
  obtain ⟨ed, hed, hd, hhd, hv, hhv, hid⟩ := h
  exact ⟨ed, hd, hv, hed, hhd, hhv, hid⟩

theorem spokeStep_inv (m : HedgeMesh) (vid : Option Nat) (fuelInner e e1 : Nat)
    (h : spokeStep m vid fuelInner e = some e1) :
    ∃ stopE, vertexScan m vid (some e) fuelInner = some stopE ∧
      (m.edges[stopE]?).bind HEdge.pair = some e1 := by
  simp only [spokeStep, Option.bind_eq_some] at h
  obtain ⟨stopE, hscan, hrest⟩ := h
  exact ⟨stopE, hscan, Option.bind_eq_some.mpr hrest⟩

theorem iterSpoke_shift (m : HedgeMesh) (vid : Option Nat) (fuelInner e e1 : Nat)
    (h : spokeStep m vid fuelInner e = some e1) (t : Nat) :
    iterSpoke m vid fuelInner e (t + 1) = iterSpoke m vid fuelInner e1 t := by
  show (spokeStep m vid fuelInner e).bind (fun x => iterSpoke m vid fuelInner x t) = _
  rw [h, Option.some_bind]

theorem iterFaceSpoke_shift (m : HedgeMesh) (vid : Option Nat) (fuelInner e e1 : Nat)
    (h : faceSpokeStep m vid fuelInner e = some e1) (t : Nat) :
    iterFaceSpoke m vid fuelInner e (t + 1) = iterFaceSpoke m vid fuelInner e1 t := by
  show (faceSpokeStep m vid fuelInner e).bind (fun x => iterFaceSpoke m vid fuelInner x t) = _
  rw [h, Option.some_bind]

theorem neighborWalk_isSome (m : HedgeMesh) (vid firstID : Option Nat) (fuelInner : Nat) :
    ∀ (j e fuelOuter : Nat), 1 ≤ j → j < fuelOuter →
    (∀ t, t ≤ j → ((iterSpoke m vid fuelInner e t).bind (spokeHeadID m)).isSome = true) →
    (iterSpoke m vid fuelInner e j).bind (spokeHeadID m) = some firstID →
    (neighborWalk m vid firstID fuelInner e fuelOuter).isSome = true := by
  intro j e fuelOuter hj hfo hchain hstop
  obtain ⟨jj, rfl⟩ : ∃ jj, j = jj + 1 := ⟨j - 1, by omega⟩
  clear hj
  induction jj generalizing e fuelOuter with
  | zero =>
    obtain ⟨fo1, rfl⟩ : ∃ fo1, fuelOuter = fo1 + 1 := ⟨fuelOuter - 1, by omega⟩
    have h0 := hchain 0 (by omega)
    rw [show iterSpoke m vid fuelInner e 0 = some e from rfl, Option.some_bind] at h0
    obtain ⟨idv0, hidv0⟩ := Option.isSome_iff_exists.mp h0
    obtain ⟨ed, hd, hv, hed, hhd, _, _⟩ := spokeHeadID_inv m e idv0 hidv0
    rw [Option.bind_eq_some] at hstop
    obtain ⟨e1, he1, hfid1⟩ := hstop
    rw [show iterSpoke m vid fuelInner e 1 =
      (spokeStep m vid fuelInner e).bind (fun x => iterSpoke m vid fuelInner x 0) from rfl,
      Option.bind_eq_some] at he1
    obtain ⟨e1', hstep, he1'⟩ := he1
    rw [show iterSpoke m vid fuelInner e1' 0 = some e1' from rfl] at he1'
    rw [show e1' = e1 from Option.some.inj he1'] at hstep
    obtain ⟨stopE, hscan, hpair⟩ := spokeStep_inv m vid fuelInner e e1 hstep
    obtain ⟨ped, phd, phv, hped, hphd, hphv, hpid⟩ := spokeHeadID_inv m e1 firstID hfid1
    simp only [neighborWalk, hed, hhd, hscan, hpair, hped, hphd, hphv, Option.some_bind]
    rw [if_pos hpid]
    rfl
  | succ jj ih =>
    obtain ⟨fo1, rfl⟩ : ∃ fo1, fuelOuter = fo1 + 1 := ⟨fuelOuter - 1, by omega⟩
    have h0 := hchain 0 (by omega)
    rw [show iterSpoke m vid fuelInner e 0 = some e from rfl, Option.some_bind] at h0
    obtain ⟨idv0, hidv0⟩ := Option.isSome_iff_exists.mp h0
    obtain ⟨ed, hd, hv, hed, hhd, _, _⟩ := spokeHeadID_inv m e idv0 hidv0
    have h1 := hchain 1 (by omega)
    obtain ⟨idv1, hidv1⟩ := Option.isSome_iff_exists.mp h1
    rw [Option.bind_eq_some] at hidv1
    obtain ⟨e1, he1, hfid1⟩ := hidv1
    rw [show iterSpoke m vid fuelInner e 1 =
      (spokeStep m vid fuelInner e).bind (fun x => iterSpoke m vid fuelInner x 0) from rfl,
      Option.bind_eq_some] at he1
    obtain ⟨e1', hstep, he1'⟩ := he1
    rw [show iterSpoke m vid fuelInner e1' 0 = some e1' from rfl] at he1'
    rw [show e1' = e1 from Option.some.inj he1'] at hstep
    obtain ⟨stopE, hscan, hpair⟩ := spokeStep_inv m vid fuelInner e e1 hstep
    obtain ⟨ped, phd, phv, hped, hphd, hphv, hpid⟩ := spokeHeadID_inv m e1 idv1 hfid1
    simp only [neighborWalk, hed, hhd, hscan, hpair, hped, hphd, hphv, Option.some_bind]
    by_cases hcase : phv.ID = firstID
    · rw [if_pos hcase]
      rfl
    · rw [if_neg hcase]
      have hshift := iterSpoke_shift m vid fuelInner e e1 hstep
      have hchain' : ∀ t, t ≤ jj + 1 →
          ((iterSpoke m vid fuelInner e1 t).bind (spokeHeadID m)).isSome = true := by
        intro t ht
        have := hchain (t + 1) (by omega)
        rwa [hshift t] at this
      have hstop' : (iterSpoke m vid fuelInner e1 (jj + 1)).bind (spokeHeadID m) =
          some firstID := by
        rw [← hshift (jj + 1)]
        exact hstop
      have hrec := ih e1 fo1 (by omega) hchain' hstop'
      obtain ⟨res, hres⟩ := Option.isSome_iff_exists.mp hrec
      rw [hres]
      rfl

theorem faceIDOf_inv (m : HedgeMesh) (e : Nat) (idv : Option Nat)
    (h : faceIDOf m e = some idv) :
    ∃ cf cfo, (m.edges[e]?).bind HEdge.face = some cf ∧
      m.faces[cf]? = some cfo ∧ cfo.ID = idv := by
  simp only [faceIDOf, Option.bind_eq_some, Option.map_eq_some'] at h
  obtain ⟨cf, hcf, cfo, hcfo, hid⟩ := h
  exact ⟨cf, cfo, Option.bind_eq_some.mpr hcf, hcfo, hid⟩

theorem faceSpokeStep_inv (m : HedgeMesh) (vid : Option Nat) (fuelInner e e1 : Nat)
    (h : faceSpokeStep m vid fuelInner e = some e1) :
    ∃ stopE pe ped, vertexScan m vid (some e) fuelInner = some stopE ∧
      (m.edges[stopE]?).bind HEdge.pair = some pe ∧
      m.edges[pe]? = some ped ∧
      (if ped.face = none then
         (vertexScan m vid (some pe) fuelInner).bind
           (fun s2 => (m.edges[s2]?).bind HEdge.pair)
       else some pe) = some e1 := by
  simp only [faceSpokeStep, spokeStep, Option.bind_eq_some] at h
  obtain ⟨pe, ⟨stopE, hscan, hpair⟩, ped, hped, hif⟩ := h
  exact ⟨stopE, pe, ped, hscan, Option.bind_eq_some.mpr hpair, hped, hif⟩

theorem vertexScan_start_inv (m : HedgeMesh) (vid : Option Nat) (e fi stopE : Nat)
    (h : vertexScan m vid (some e) fi = some stopE) :
    ∃ ed, m.edges[e]? = some ed := by
  cases fi with
  | zero => exact absurd h (by simp [vertexScan])
  | succ g =>
    simp only [vertexScan, Option.some_bind, Option.bind_eq_some] at h
    obtain ⟨ed, hed, _⟩ := h
    exact ⟨ed, hed⟩

theorem faceWalk_isSome (m : HedgeMesh) (vid : Option Nat) (fuelInner f0 : Nat)
    (f0o : HFace) (hf0 : m.faces[f0]? = some f0o) :
    ∀ (j e fuelOuter : Nat), 1 ≤ j → j < fuelOuter →
    (∀ t, t ≤ j → (iterFaceSpoke m vid fuelInner e t).isSome = true) →
    (∀ t, 1 ≤ t → t ≤ j →
      ((iterFaceSpoke m vid fuelInner e t).bind (faceIDOf m)).isSome = true) →
    (iterFaceSpoke m vid fuelInner e j).bind (faceIDOf m) = some f0o.ID →
    (faceWalk m vid fuelInner (some f0) e fuelOuter).isSome = true := by
  intro j e fuelOuter hj hfo hchain hfids hstop
  obtain ⟨jj, rfl⟩ : ∃ jj, j = jj + 1 := ⟨j - 1, by omega⟩
  clear hj
  induction jj generalizing e fuelOuter with
  | zero =>
    obtain ⟨fo1, rfl⟩ : ∃ fo1, fuelOuter = fo1 + 1 := ⟨fuelOuter - 1, by omega⟩
    rw [Option.bind_eq_some] at hstop
    obtain ⟨e1, he1, hfid1⟩ := hstop
    rw [show iterFaceSpoke m vid fuelInner e 1 =
      (faceSpokeStep m vid fuelInner e).bind (fun x => iterFaceSpoke m vid fuelInner x 0) from rfl,
      Option.bind_eq_some] at he1
    obtain ⟨e1', hstep, he1'⟩ := he1
    rw [show iterFaceSpoke m vid fuelInner e1' 0 = some e1' from rfl] at he1'
    rw [show e1' = e1 from Option.some.inj he1'] at hstep
    obtain ⟨stopE, pe, ped, hscan, hpair, hped, hif⟩ :=
      faceSpokeStep_inv m vid fuelInner e e1 hstep
    obtain ⟨ed, hed⟩ := vertexScan_start_inv m vid e fuelInner stopE hscan
    obtain ⟨cf, cfo, hcf, hcfo, hcid⟩ := faceIDOf_inv m e1 f0o.ID hfid1
    simp only [faceWalk, hed, hscan, hpair, hped, hif, hcf, hcfo, hf0, Option.some_bind]
    rw [if_pos hcid]
    rfl
  | succ jj ih =>
    obtain ⟨fo1, rfl⟩ : ∃ fo1, fuelOuter = fo1 + 1 := ⟨fuelOuter - 1, by omega⟩
    have h1 := hfids 1 (by omega) (by omega)
    obtain ⟨idv1, hidv1⟩ := Option.isSome_iff_exists.mp h1
    rw [Option.bind_eq_some] at hidv1
    obtain ⟨e1, he1, hfid1⟩ := hidv1
    rw [show iterFaceSpoke m vid fuelInner e 1 =
      (faceSpokeStep m vid fuelInner e).bind (fun x => iterFaceSpoke m vid fuelInner x 0) from rfl,
      Option.bind_eq_some] at he1
    obtain ⟨e1', hstep, he1'⟩ := he1
    rw [show iterFaceSpoke m vid fuelInner e1' 0 = some e1' from rfl] at he1'
    rw [show e1' = e1 from Option.some.inj he1'] at hstep
    obtain ⟨stopE, pe, ped, hscan, hpair, hped, hif⟩ :=
      faceSpokeStep_inv m vid fuelInner e e1 hstep
    obtain ⟨ed, hed⟩ := vertexScan_start_inv m vid e fuelInner stopE hscan
    obtain ⟨cf, cfo, hcf, hcfo, hcid⟩ := faceIDOf_inv m e1 idv1 hfid1
    simp only [faceWalk, hed, hscan, hpair, hped, hif, hcf, hcfo, hf0, Option.some_bind]
    by_cases hcase : cfo.ID = f0o.ID
    · rw [if_pos hcase]
      rfl
    · rw [if_neg hcase]
      have hshift := iterFaceSpoke_shift m vid fuelInner e e1 hstep
      have hchain' : ∀ t, t ≤ jj + 1 →
          (iterFaceSpoke m vid fuelInner e1 t).isSome = true := by
        intro t ht
        have := hchain (t + 1) (by omega)
        rwa [hshift t] at this
      have hfids' : ∀ t, 1 ≤ t → t ≤ jj + 1 →
          ((iterFaceSpoke m vid fuelInner e1 t).bind (faceIDOf m)).isSome = true := by
        intro t ht1 ht
        have := hfids (t + 1) (by omega) (by omega)
        rwa [hshift t] at this
      have hstop' : (iterFaceSpoke m vid fuelInner e1 (jj + 1)).bind (faceIDOf m) =
          some f0o.ID := by
        rw [← hshift (jj + 1)]
        exact hstop
      have hrec := ih e1 fo1 (by omega) hchain' hfids' hstop'
      obtain ⟨res, hres⟩ := Option.isSome_iff_exists.mp hrec
      rw [hres]
      rfl

theorem startSpoke_inv (m : HedgeMesh) (v s : Nat) (h : startSpoke m v = some s) :
    ∃ hv h0 e0 hd0 hv0, m.vertices[v]? = some hv ∧ hv.h = some h0 ∧
      m.edges[h0]? = some e0 ∧ e0.head = some hd0 ∧ m.vertices[hd0]? = some hv0 ∧
      (if hv0.ID = hv.ID then e0.next else some h0) = some s := by
  simp only [startSpoke, Option.bind_eq_some] at h
  obtain ⟨hv, hhv, h0, hh0, e0, he0, hd0, hhd0, hv0, hhv0, hif⟩ := h
  exact ⟨hv, h0, e0, hd0, hv0, hhv, hh0, he0, hhd0, hhv0, hif⟩

theorem getVertexNeighbors_eq_walk (m : HedgeMesh) (v s : Nat)
    (hids : ∀ (i : Nat) (hv : HVertex), m.vertices[i]? = some hv → hv.ID = some i)
    (hs : startSpoke m v = some s) (fid : Option Nat)
    (hfid : spokeHeadID m s = some fid) (fuelInner fuelOuter : Nat) :
    HVertex.getVertexNeighbors m v fuelInner fuelOuter =
      neighborWalk m (some v) fid fuelInner s fuelOuter := by
  obtain ⟨hv, h0, e0, hd0, hv0, hhv, hh0, he0, hhd0, hhv0, hif⟩ := startSpoke_inv m v s hs
  obtain ⟨se, shd, shv, hse, hshd, hshv, hsid⟩ := spokeHeadID_inv m s fid hfid
  have hvid : hv.ID = some v := hids v hv hhv
  rw [hvid] at hif
  simp only [HVertex.getVertexNeighbors, hhv, hh0, he0, hhd0, hhv0, hvid, hif, hse, hshd, hshv,
    hsid, Option.some_bind]

theorem getAttachedFaces_eq_walk (m : HedgeMesh) (v s : Nat)
    (hids : ∀ (i : Nat) (hv : HVertex), m.vertices[i]? = some hv → hv.ID = some i)
    (hs : startSpoke m v = some s) (fuelInner fuelOuter : Nat) :
    HVertex.getAttachedFaces m v fuelInner fuelOuter =
      faceWalk m (some v) fuelInner none s fuelOuter := by
  obtain ⟨hv, h0, e0, hd0, hv0, hhv, hh0, he0, hhd0, hhv0, hif⟩ := startSpoke_inv m v s hs
  have hvid : hv.ID = some v := hids v hv hhv
  rw [hvid] at hif
  simp only [HVertex.getAttachedFaces, hhv, hh0, he0, hhd0, hhv0, hvid, hif, Option.some_bind]

/-- Claim C5 (amended): the source has no `NonManifoldError` and no iteration
cap, so the true guarantee is conditional: at a vertex whose spokes form a
single closed fan — expressed by the executable spoke-step orbit returning to
the starting head ID (neighbors) and to the first collected face ID (attached
faces) within `|edges|` steps, with every visited spoke resolving — both
`getVertexNeighbors` and `getAttachedFaces` terminate with a result, within
iteration budgets bounded by the mesh size. -/
theorem spoke_walks_terminate_on_fan (m : HedgeMesh) (v s : Nat) (fid : Option Nat)
    (f0 : Nat) (f0o : HFace) (jn jf : Nat)
    (hids : ∀ (i : Nat) (hv : HVertex), m.vertices[i]? = some hv → hv.ID = some i)
    (hs : startSpoke m v = some s)
    (hfid : spokeHeadID m s = some fid)
    (hjn1 : 1 ≤ jn) (hjnE : jn ≤ m.edges.length)
    (hchainN : ∀ t, t ≤ jn →
      ((iterSpoke m (some v) (m.edges.length + 1) s t).bind (spokeHeadID m)).isSome = true)
    (hstopN : (iterSpoke m (some v) (m.edges.length + 1) s jn).bind (spokeHeadID m) = some fid)
    (hface0 : (m.edges[s]?).bind HEdge.face = some f0)
    (hf0 : m.faces[f0]? = some f0o)
    (hjf1 : 1 ≤ jf) (hjfE : jf ≤ m.edges.length)
    (hchainF : ∀ t, t ≤ jf →
      (iterFaceSpoke m (some v) (m.edges.length + 1) s t).isSome = true)
    (hfidF : ∀ t, 1 ≤ t → t ≤ jf →
      ((iterFaceSpoke m (some v) (m.edges.length + 1) s t).bind (faceIDOf m)).isSome = true)
    (hstopF : (iterFaceSpoke m (some v) (m.edges.length + 1) s jf).bind (faceIDOf m) =
      some f0o.ID) :
    (HVertex.getVertexNeighbors m v (m.edges.length + 1) (m.edges.length + 1)).isSome = true ∧
    (HVertex.getAttachedFaces m v (m.edges.length + 1) (m.edges.length + 1)).isSome = true := by
  constructor
  · rw [getVertexNeighbors_eq_walk m v s hids hs fid hfid]
    exact neighborWalk_isSome m (some v) fid (m.edges.length + 1) jn s (m.edges.length + 1)
      hjn1 (by omega) hchainN hstopN
  · rw [getAttachedFaces_eq_walk m v s hids hs]
    obtain ⟨sed, hsed, hsf⟩ := Option.bind_eq_some.mp hface0
    have h1 := hchainF 1 (by omega)
    obtain ⟨e1, he1⟩ := Option.isSome_iff_exists.mp h1
    have hstep : faceSpokeStep m (some v) (m.edges.length + 1) s = some e1 := by
      rw [show iterFaceSpoke m (some v) (m.edges.length + 1) s 1 =
        (faceSpokeStep m (some v) (m.edges.length + 1) s).bind
          (fun x => iterFaceSpoke m (some v) (m.edges.length + 1) x 0) from rfl,
        Option.bind_eq_some] at he1
      obtain ⟨e1', hstep', he1'⟩ := he1
      rw [show iterFaceSpoke m (some v) (m.edges.length + 1) e1' 0 = some e1' from rfl] at he1'
      rw [show e1' = e1 from Option.some.inj he1'] at hstep'
      exact hstep'
    have hiter1 : iterFaceSpoke m (some v) (m.edges.length + 1) s 1 = some e1 := by
      rw [show iterFaceSpoke m (some v) (m.edges.length + 1) s 1 =
        (faceSpokeStep m (some v) (m.edges.length + 1) s).bind
          (fun x => iterFaceSpoke m (some v) (m.edges.length + 1) x 0) from rfl,
        hstep, Option.some_bind]
      rfl
    have hfid1 := hfidF 1 (by omega) (by omega)
    rw [hiter1, Option.some_bind] at hfid1
    obtain ⟨idv1, hidv1⟩ := Option.isSome_iff_exists.mp hfid1
    obtain ⟨stopE, pe, ped, hscan, hpair, hped, hif⟩ :=
      faceSpokeStep_inv m (some v) (m.edges.length + 1) s e1 hstep
    obtain ⟨cf, cfo, hcf, hcfo, hcid⟩ := faceIDOf_inv m e1 idv1 hidv1
    simp only [faceWalk, hsed, hsf, hscan, hpair, hped, hif, hcf, hcfo, hf0, Option.some_bind]
    by_cases hcase : cfo.ID = f0o.ID
    · rw [if_pos hcase]
      rfl
    · rw [if_neg hcase]
      have hjf2 : 2 ≤ jf := by
        rcases Nat.lt_or_ge jf 2 with hlt | hge
        · exfalso
          obtain rfl : jf = 1 := by omega
          rw [hiter1, Option.some_bind, hidv1] at hstopF
          exact hcase (hcid.trans (Option.some.inj hstopF))
        · exact hge
      have hshift := iterFaceSpoke_shift m (some v) (m.edges.length + 1) s e1 hstep
      have hrec := faceWalk_isSome m (some v) (m.edges.length + 1) f0 f0o hf0
        (jf - 1) e1 m.edges.length (by omega) (by omega)
        (fun t ht => by
          have := hchainF (t + 1) (by omega)
          rwa [hshift t] at this)
        (fun t ht1 ht => by
          have := hfidF (t + 1) (by omega) (by omega)
          rwa [hshift t] at this)
        (by
          have h2 : jf - 1 + 1 = jf := by omega
          rw [← hshift (jf - 1), h2]
          exact hstopF)
      obtain ⟨res, hres⟩ := Option.isSome_iff_exists.mp hrec
      rw [hres]
      rfl

/-- Witness for the claim C5 theorem: vertex 0 of the loaded one-triangle mesh
is a manifold fan (the neighbor orbit closes after 2 spoke steps, the face
orbit after 1), and both accessors indeed return at fuel `|edges| + 1 = 7`. -/
theorem spoke_walks_terminate_on_fan_witness :
    (HVertex.getVertexNeighbors triMesh 0
      (triMesh.edges.length + 1) (triMesh.edges.length + 1)).isSome = true ∧
    (HVertex.getAttachedFaces triMesh 0
      (triMesh.edges.length + 1) (triMesh.edges.length + 1)).isSome = true :=
  spoke_walks_terminate_on_fan triMesh 0 0 (some 1) 0 ((triMesh.faces[0]?).getD {}) 2 1
    (ids_assigned_of_getD triMesh (by decide))
    (by decide) (by decide) (by decide) (by decide)
    (by decide) (by decide) (by decide) (by decide)
    (by decide) (by decide) (by decide) (by decide) (by decide)

/-! ## Claims 2 and 10: the half-edge invariants of the constructed mesh

The construction is characterized phase by phase: step 3 lays the face blocks
down with cyclic in-block `next`/`prev` links and the hash table keyed by the
directed edges in order; step 4 pairs reverse keys and synthesizes null-face
boundary edges; step 5 links the boundary edges through the `boundaryEdges`
table.  A *well-formed manifold* soup — polygonal faces, no repeated vertex in
a face, no repeated directed edge (consistent CCW orientation of neighboring
faces), and boundary edges forming vertex-disjoint closed loops — makes every
phase succeed and yields the involution invariants. -/

/-- The directed edges of one face, in loop order: consecutive vertex pairs
with wrap-around, exactly `fverts[k] → fverts[(k+1) % n]`. -/
def pairsOf (w : List Nat) : List (Nat × Nat) := w.zip (w.rotate 1)

/-- All directed edges of the soup, in face order. -/
def allPairs (F : List (List Nat)) : List (Nat × Nat) := (F.map pairsOf).join

/-- The directed edges without a reverse companion: these spawn the boundary
half-edges of step 4. -/
def unpairedOf (F : List (List Nat)) : List (Nat × Nat) :=
  (allPairs F).filter (fun p => decide ((p.2, p.1) ∉ allPairs F))

/-- A well-formed, manifold, consistently CCW-oriented polygon soup: every
face a polygon (at least 3 distinct vertices, all in range), no directed edge
repeated (two neighboring CCW faces traverse their shared edge in opposite
directions), and the unpaired directed edges forming vertex-disjoint closed
boundary loops: their sources are distinct, their targets are distinct, and
every source is a target and vice versa. -/
def WellFormedSoup (S : Soup) : Prop :=
  (∀ w ∈ S.faces, 3 ≤ w.length ∧ w.Nodup ∧ ∀ v ∈ w, v < S.positions.length) ∧
  (allPairs S.faces).Nodup ∧
  ((unpairedOf S.faces).map Prod.fst).Nodup ∧
  ((unpairedOf S.faces).map Prod.snd).Nodup ∧
  (∀ p ∈ unpairedOf S.faces, p.1 ∈ (unpairedOf S.faces).map Prod.snd) ∧
  (∀ p ∈ unpairedOf S.faces, p.2 ∈ (unpairedOf S.faces).map Prod.fst)

instance (S : Soup) : Decidable (WellFormedSoup S) := by
  unfold WellFormedSoup
  infer_instance

theorem tblLookup_eq_none_of {α : Type} [DecidableEq α] (t : List (α × Nat)) (k : α)
    (h : ∀ e ∈ t, e.1 ≠ k) : tblLookup t k = none := by
  induction t with
  | nil => rfl
  | cons e rest ih =>
    obtain ⟨k0, v0⟩ := e
    rw [tblLookup, if_neg (h (k0, v0) (List.mem_cons_self _ _))]
    exact ih (fun e he => h e (List.mem_cons_of_mem _ he))

theorem tblInsert_fresh {α : Type} [DecidableEq α] (t : List (α × Nat)) (k : α) (v : Nat)
    (h : ∀ e ∈ t, e.1 ≠ k) : tblInsert t k v = t ++ [(k, v)] := by
  induction t with
  | nil => rfl
  | cons e rest ih =>
    obtain ⟨k0, v0⟩ := e
    rw [tblInsert, if_neg (h (k0, v0) (List.mem_cons_self _ _))]
    rw [ih (fun e he => h e (List.mem_cons_of_mem _ he))]
    rfl

theorem tblLookup_mem {α : Type} [DecidableEq α] (t : List (α × Nat)) (k : α) (v : Nat)
    (h : tblLookup t k = some v) : (k, v) ∈ t := by
  induction t with
  | nil => exact absurd h (by simp [tblLookup])
  | cons e rest ih =>
    obtain ⟨k0, v0⟩ := e
    rw [tblLookup] at h
    by_cases hk : k0 = k
    · rw [if_pos hk] at h
      obtain rfl := Option.some.inj h
      rw [← hk]
      exact List.mem_cons_self _ _
    · rw [if_neg hk] at h
      exact List.mem_cons_of_mem _ (ih h)

theorem tblLookup_of_mem_nodup {α : Type} [DecidableEq α] (t : List (α × Nat)) (k : α) (v : Nat)
    (hmem : (k, v) ∈ t) (hnd : (t.map Prod.fst).Nodup) : tblLookup t k = some v := by
  induction t with
  | nil => exact absurd hmem (List.not_mem_nil _)
  | cons e rest ih =>
    obtain ⟨k0, v0⟩ := e
    rw [List.map_cons, List.nodup_cons] at hnd
    rcases List.mem_cons.mp hmem with heq | hrest
    · obtain ⟨rfl, rfl⟩ : k0 = k ∧ v0 = v := by
        have := heq.symm
        rw [Prod.mk.injEq] at this
        exact this
      rw [tblLookup, if_pos rfl]
    · rw [tblLookup]
      have hne : k0 ≠ k := by
        intro hk
        have : (k, v).1 ∈ rest.map Prod.fst := List.mem_map_of_mem Prod.fst hrest
        exact hnd.1 (hk ▸ this)
      rw [if_neg hne]
      exact ih hrest hnd.2

theorem tblLookup_append_left {α : Type} [DecidableEq α] (t1 t2 : List (α × Nat)) (k : α) (v : Nat)
    (h : tblLookup t1 k = some v) : tblLookup (t1 ++ t2) k = some v := by
  induction t1 with
  | nil => exact absurd h (by simp [tblLookup])
  | cons e rest ih =>
    obtain ⟨k0, v0⟩ := e
    rw [tblLookup] at h
    rw [List.cons_append, tblLookup]
    by_cases hk : k0 = k
    · rwa [if_pos hk] at h ⊢
    · rw [if_neg hk] at h ⊢
      exact ih h

theorem tblLookup_isSome_of_mem_keys {α : Type} [DecidableEq α] (t : List (α × Nat)) (k : α)
    (h : k ∈ t.map Prod.fst) : (tblLookup t k).isSome = true := by
  induction t with
  | nil => exact absurd h (by simp)
  | cons e rest ih =>
    obtain ⟨k0, v0⟩ := e
    rw [tblLookup]
    by_cases hk : k0 = k
    · rw [if_pos hk]; rfl
    · rw [if_neg hk]
      rcases List.mem_map.mp h with ⟨p, hp, hpk⟩
      rcases List.mem_cons.mp hp with rfl | hp'
      · exact absurd hpk hk
      · exact ih (hpk ▸ List.mem_map_of_mem Prod.fst hp')

/-- The hash-table segment one face contributes: its directed edges keyed to
consecutive edge indices from `o`. -/
def tkeys : List (Nat × Nat) → Nat → List ((Nat × Nat) × Nat)
  | [], _ => []
  | p :: rest, o => (p, o) :: tkeys rest (o + 1)

theorem tkeys_length (ps : List (Nat × Nat)) : ∀ o, (tkeys ps o).length = ps.length := by
  induction ps with
  | nil => intro o; rfl
  | cons p rest ih => intro o; simp [tkeys, ih]

theorem tkeys_map_fst (ps : List (Nat × Nat)) : ∀ o, (tkeys ps o).map Prod.fst = ps := by
  induction ps with
  | nil => intro o; rfl
  | cons p rest ih => intro o; simp [tkeys, ih]

theorem tkeys_getElem (ps : List (Nat × Nat)) : ∀ o k, k < ps.length →
    (tkeys ps o)[k]? = some (ps.getD k (0, 0), o + k) := by
  induction ps with
  | nil => intro o k hk; exact absurd hk (by simp)
  | cons p rest ih =>
    intro o k hk
    cases k with
    | zero => simp [tkeys]
    | succ k1 =>
      have h1 : (tkeys (p :: rest) o)[k1 + 1]? = (tkeys rest (o + 1))[k1]? := by
        show ((p, o) :: tkeys rest (o + 1))[k1 + 1]? = _
        rw [List.getElem?_cons_succ]
      rw [h1, ih (o + 1) k1 (by simpa using hk)]
      simp [List.getD_cons_succ]
      omega

theorem tkeys_mem (ps : List (Nat × Nat)) : ∀ o e, e ∈ tkeys ps o → e.1 ∈ ps := by
  induction ps with
  | nil => intro o e he; exact absurd he (List.not_mem_nil _)
  | cons p rest ih =>
    intro o e he
    rcases List.mem_cons.mp he with rfl | h'
    · exact List.mem_cons_self _ _
    · exact List.mem_cons_of_mem _ (ih (o + 1) e h')

theorem pairsOf_length (w : List Nat) : (pairsOf w).length = w.length := by
  simp [pairsOf]

theorem pairsOf_map_fst (w : List Nat) : (pairsOf w).map Prod.fst = w :=
  List.map_fst_zip w (w.rotate 1) (by simp)

theorem pairsOf_getElem (w : List Nat) (k : Nat) (hk : k < w.length) :
    (pairsOf w)[k]? = some (w.getD k 0, w.getD ((k + 1) % w.length) 0) := by
  have hk' : k < (w.rotate 1).length := by simpa using hk
  have hmod : (k + 1) % w.length < w.length := Nat.mod_lt _ (by omega)
  rw [pairsOf, List.getElem?_zip_eq_some]
  constructor
  · rw [List.getD_eq_getElem w 0 hk]
    exact List.getElem?_eq_getElem hk
  · rw [List.getElem?_eq_getElem hk', List.getElem_rotate w 1 k hk']
    rw [List.getD_eq_getElem w 0 hmod]

theorem pairsOf_nodup (w : List Nat) (h : w.Nodup) : (pairsOf w).Nodup := by
  have := pairsOf_map_fst w
  exact List.Nodup.of_map Prod.fst (this.symm ▸ h)

/-- The invariant shape of one face block after `k` of its links have been
written: heads and faces from the start, `next` set for the first `k` edges,
`prev` for their successors. -/
def partialBlock (o fidx : Nat) (w : List Nat) (k : Nat) : List HEdge :=
  (List.range w.length).map fun j =>
    { head := some (w.getD ((j + 1) % w.length) 0)
      face := some fidx
      next := if j < k then some (o + (j + 1) % w.length) else none
      prev := if (j + w.length - 1) % w.length < k then
        some (o + (j + w.length - 1) % w.length) else none
      pair := none
      ID := none }

theorem partialBlock_length (o fidx : Nat) (w : List Nat) (k : Nat) :
    (partialBlock o fidx w k).length = w.length := by
  simp [partialBlock]

theorem partialBlock_getElem (o fidx : Nat) (w : List Nat) (k j : Nat) (hj : j < w.length) :
    (partialBlock o fidx w k)[j]? =
      some { head := some (w.getD ((j + 1) % w.length) 0)
             face := some fidx
             next := if j < k then some (o + (j + 1) % w.length) else none
             prev := if (j + w.length - 1) % w.length < k then
               some (o + (j + w.length - 1) % w.length) else none
             pair := none
             ID := none } := by
  rw [partialBlock, List.getElem?_map, List.getElem?_range hj]
  rfl

theorem addFaceEdges_spec (fidx : Nat) : ∀ (ps : List (Nat × Nat)) (vs : List HVertex)
    (es : List HEdge) (tbl : List ((Nat × Nat) × Nat)) (fh : Option Nat),
    (ps.map Prod.fst).Nodup →
    (∀ p ∈ ps, p.1 < vs.length) →
    (∀ e ∈ tbl, e.1 ∉ ps) →
    ps.Nodup →
    ∃ (vs1 : List HVertex) (fh1 : Option Nat), addFaceEdgesLoop fidx vs es tbl fh ps =
      (vs1, es ++ ps.map (fun p => { head := some p.2, face := some fidx }),
        tbl ++ tkeys ps es.length, fh1) ∧
      vs1.length = vs.length ∧
      (∀ (i : Nat), i ∉ ps.map Prod.fst → vs1[i]? = vs[i]?) ∧
      (∀ (i : Nat) (hv : HVertex), vs1[i]? = some hv →
        ∃ hv0, vs[i]? = some hv0 ∧ hv.ID = hv0.ID) ∧
      (∀ (k : Nat), k < ps.length → ∃ hv, vs1[(ps.getD k (0, 0)).1]? = some hv ∧
        hv.h = some (es.length + k)) := by
  intro ps
  induction ps with
  | nil =>
    intro vs es tbl fh _ _ _ _
    refine ⟨vs, fh, ?_, rfl, fun i _ => rfl, fun i hv h => ⟨hv, h, rfl⟩,
      fun k hk => absurd hk (by simp)⟩
    simp [addFaceEdgesLoop, tkeys]
  | cons p rest ih =>
    intro vs es tbl fh hnd hrg hfresh hknd
    obtain ⟨a, b⟩ := p
    have ha : a < vs.length := hrg (a, b) (List.mem_cons_self _ _)
    have hstep : addFaceEdgesLoop fidx vs es tbl fh ((a, b) :: rest) =
        addFaceEdgesLoop fidx
          (vs.set a { vs.getD a { pos := vec3zero } with h := some es.length })
          (es ++ [{ head := some b, face := some fidx }])
          (tblInsert tbl (a, b) es.length) (some es.length) rest := rfl
    rw [List.map_cons, List.nodup_cons] at hnd
    have hknd' := List.nodup_cons.mp hknd
    have hins : tblInsert tbl (a, b) es.length = tbl ++ [((a, b), es.length)] :=
      tblInsert_fresh tbl (a, b) es.length
        (fun e he hk => hfresh e he (hk ▸ List.mem_cons_self _ _))
    have hrg' : ∀ q ∈ rest, q.1 <
        (vs.set a { vs.getD a { pos := vec3zero } with h := some es.length }).length := by
      intro q hq
      rw [List.length_set]
      exact hrg q (List.mem_cons_of_mem _ hq)
    have hfresh' : ∀ e ∈ tbl ++ [((a, b), es.length)], e.1 ∉ rest := by
      intro e he
      rcases List.mem_append.mp he with h1 | h2
      · intro hmem
        exact hfresh e h1 (List.mem_cons_of_mem _ hmem)
      · obtain rfl : e = ((a, b), es.length) := by simpa using h2
        exact hknd'.1
    obtain ⟨vs1, fh1, heq, hlen, huntouched, hid, hk⟩ :=
      ih (vs.set a { vs.getD a { pos := vec3zero } with h := some es.length })
        (es ++ [{ head := some b, face := some fidx }])
        (tbl ++ [((a, b), es.length)]) (some es.length) hnd.2 hrg' hfresh' hknd'.2
    have hlen1 : (es ++ ([{ head := some b, face := some fidx }] : List HEdge)).length =
        es.length + 1 := by simp
    refine ⟨vs1, fh1, ?_, ?_, ?_, ?_, ?_⟩
    · rw [hstep, hins, heq, hlen1]
      simp [tkeys, List.append_assoc]
    · rw [hlen, List.length_set]
    · intro i hi
      rw [List.map_cons] at hi
      have hia : i ≠ a := fun h => hi (h ▸ List.mem_cons_self _ _)
      rw [huntouched i (fun h => hi (List.mem_cons_of_mem _ h))]
      rw [List.getElem?_set, if_neg (fun h => hia h.symm)]
    · intro i hv h
      obtain ⟨hv0, hh0, hid0⟩ := hid i hv h
      by_cases hia : i = a
      · subst hia
        rw [List.getElem?_set, if_pos rfl, if_pos ha] at hh0
        have hvs : vs[i]? = some (vs.getD i { pos := vec3zero }) := by
          rw [List.getD_eq_getElem vs _ ha]
          exact List.getElem?_eq_getElem ha
        refine ⟨vs.getD i { pos := vec3zero }, hvs, ?_⟩
        obtain rfl := (Option.some.inj hh0).symm
        exact hid0.trans rfl
      · rw [List.getElem?_set, if_neg (fun h => hia h.symm)] at hh0
        exact ⟨hv0, hh0, hid0⟩
    · intro k hkk
      cases k with
      | zero =>
        have hgd : ((((a, b) :: rest).getD 0 (0, 0)).1) = a := rfl
        rw [hgd]
        have hna : a ∉ rest.map Prod.fst := hnd.1
        rw [huntouched a hna, List.getElem?_set, if_pos rfl, if_pos ha]
        exact ⟨_, rfl, rfl⟩
      | succ k1 =>
        have hk1 : k1 < rest.length := by simpa using hkk
        obtain ⟨hv, hhv, hh⟩ := hk k1 hk1
        refine ⟨hv, ?_, ?_⟩
        · have hgd : (((a, b) :: rest).getD (k1 + 1) (0, 0)) = rest.getD k1 (0, 0) := rfl
          rw [hgd]
          exact hhv
        · rw [hh, hlen1]
          simp only [Option.some.injEq]
          omega

theorem set_map_range {β : Type} (n j : Nat) (f : Nat → β) (x : β) :
    ((List.range n).map f).set j x =
      (List.range n).map (fun i => if i = j then x else f i) := by
  apply List.ext_getElem?
  intro i
  by_cases hi : i < n
  · rw [List.getElem?_set]
    by_cases hij : j = i
    · subst hij
      rw [if_pos rfl, if_pos (by simp [hi]), List.getElem?_map, List.getElem?_range hi,
        Option.map_some']
      simp
    · rw [if_neg hij]
      have hne : i ≠ j := fun h => hij h.symm
      simp [List.getElem?_map, List.getElem?_range hi, hne]
  · have h1 : ¬ i < (((List.range n).map f).set j x).length := by simpa using hi
    have h2 : ¬ i < ((List.range n).map fun i => if i = j then x else f i).length := by
      simpa using hi
    rw [List.getElem?_eq_none (by omega : (((List.range n).map f).set j x).length ≤ i),
      List.getElem?_eq_none (by simpa using hi)]

theorem mod_pred_succ (n k : Nat) (hn : 1 ≤ n) (hk : k < n) :
    ((k + 1) % n + n - 1) % n = k := by
  have h1 : (k + 1) % n + n - 1 = (k + 1) % n + (n - 1) := by omega
  rw [h1, Nat.mod_add_mod]
  have h2 : k + 1 + (n - 1) = k + n := by omega
  rw [h2, Nat.add_mod_right]
  exact Nat.mod_eq_of_lt hk

theorem mod_succ_ne (n k : Nat) (hn : 2 ≤ n) (hk : k < n) : (k + 1) % n ≠ k := by
  rcases Nat.lt_or_ge (k + 1) n with h | h
  · rw [Nat.mod_eq_of_lt h]; omega
  · have hkn : k + 1 = n := by omega
    rw [hkn, Nat.mod_self]; omega

theorem mod_pred_eq_iff (n k j : Nat) (hn : 1 ≤ n) (hk : k < n) (hj : j < n) :
    (j + n - 1) % n = k ↔ j = (k + 1) % n := by
  constructor
  · intro h
    have h1 : ((j + n - 1) % n + 1) % n = (k + 1) % n := by rw [h]
    rw [Nat.mod_add_mod] at h1
    have h2 : j + n - 1 + 1 = j + n := by omega
    rw [h2, Nat.add_mod_right, Nat.mod_eq_of_lt hj] at h1
    exact h1
  · intro h
    rw [h]
    exact mod_pred_succ n k hn hk

theorem append_getElem_right (l1 l2 : List HEdge) (j : Nat) :
    (l1 ++ l2)[l1.length + j]? = l2[j]? := by
  rw [List.getElem?_append, if_neg (by omega)]
  congr 1
  omega

theorem hedge_getD_some (a d : HEdge) : (some a).getD d = a := rfl

theorem append_set_block (l1 l2 : List HEdge) (j : Nat) (x : HEdge) :
    (l1 ++ l2).set (l1.length + j) x = l1 ++ l2.set j x := by
  have hidx : l1.length + j - l1.length = j := by omega
  rw [List.set_append_right _ _ (by omega), hidx]

theorem linkFace_spec (vs : List HVertex) (w : List Nat) (fidx : Nat) (es₀ : List HEdge)
    (hn : 2 ≤ w.length)
    (hh : ∀ k, k < w.length → ∃ hv, vs[w.getD k 0]? = some hv ∧
      hv.h = some (es₀.length + k)) :
    ∀ d k, k + d = w.length →
    linkFaceEdgesLoop vs (es₀ ++ partialBlock es₀.length fidx w k) ((pairsOf w).drop k) =
      some (es₀ ++ partialBlock es₀.length fidx w w.length) := by
  intro d
  induction d with
  | zero =>
    intro k hk
    obtain rfl : k = w.length := by omega
    rw [List.drop_of_length_le (le_of_eq (pairsOf_length w))]
    rfl
  | succ d ih =>
    intro k hk
    have hkn : k < w.length := by omega
    have hmod : (k + 1) % w.length < w.length := Nat.mod_lt _ (by omega)
    have hne : (k + 1) % w.length ≠ k := mod_succ_ne _ _ hn hkn
    have hdrop : (pairsOf w).drop k =
        (w.getD k 0, w.getD ((k + 1) % w.length) 0) :: (pairsOf w).drop (k + 1) := by
      have hlt : k < (pairsOf w).length := by rw [pairsOf_length]; exact hkn
      rw [List.drop_eq_getElem_cons hlt]
      have hp := pairsOf_getElem w k hkn
      rw [List.getElem?_eq_getElem hlt] at hp
      rw [Option.some.inj hp]
    obtain ⟨hv1, hhv1, hh1⟩ := hh k hkn
    obtain ⟨hv2, hhv2, hh2⟩ := hh ((k + 1) % w.length) hmod
    rw [hdrop]
    simp only [linkFaceEdgesLoop, hhv1, hhv2, Option.some_bind, hh1, hh2]
    have eg1 : (es₀ ++ partialBlock es₀.length fidx w k).getD (es₀.length + k) {} =
        { head := some (w.getD ((k + 1) % w.length) 0)
          face := some fidx
          pair := none
          prev := if (k + w.length - 1) % w.length < k then
            some (es₀.length + (k + w.length - 1) % w.length) else none
          next := if k < k then some (es₀.length + (k + 1) % w.length) else none
          ID := none } := by
      rw [List.getD_eq_getElem?_getD, append_getElem_right,
        partialBlock_getElem _ _ _ _ _ hkn]
      rfl
    rw [eg1, append_set_block]
    rw [show partialBlock es₀.length fidx w k =
      (List.range w.length).map (fun j =>
        { head := some (w.getD ((j + 1) % w.length) 0)
          face := some fidx
          next := if j < k then some (es₀.length + (j + 1) % w.length) else none
          prev := if (j + w.length - 1) % w.length < k then
            some (es₀.length + (j + w.length - 1) % w.length) else none
          pair := none
          ID := none }) from rfl]
    rw [set_map_range]
    rw [List.getD_eq_getElem?_getD _ (es₀.length + (k + 1) % w.length) _,
      append_getElem_right, List.getElem?_map, List.getElem?_range hmod, Option.map_some']
    rw [if_neg hne]
    rw [hedge_getD_some]
    rw [append_set_block, set_map_range]
    have key : ∀ (L : List HEdge), L = partialBlock es₀.length fidx w (k + 1) →
        linkFaceEdgesLoop vs (es₀ ++ L) ((pairsOf w).drop (k + 1)) =
          some (es₀ ++ partialBlock es₀.length fidx w w.length) := by
      intro L hL
      rw [hL]
      exact ih (k + 1) (by omega)
    apply key
    rw [partialBlock]
    apply List.map_congr_left
    intro i hi
    have hin : i < w.length := List.mem_range.mp hi
    dsimp only
    by_cases hij : i = (k + 1) % w.length
    · rw [if_pos hij, hij]
      have hp1 : ((k + 1) % w.length + w.length - 1) % w.length = k :=
        mod_pred_succ _ _ (by omega) hkn
      rw [hp1, if_pos (by omega : k < k + 1)]
      have hiff : ((k + 1) % w.length < k) = ((k + 1) % w.length < k + 1) :=
        propext (by omega)
      simp only [hiff]
    · rw [if_neg hij]
      have hp2 : (i + w.length - 1) % w.length ≠ k := by
        intro h
        exact hij ((mod_pred_eq_iff w.length k i (by omega) hkn hin).mp h)
      by_cases hik : i = k
      · rw [if_pos hik, hik]
        rw [if_pos (by omega : k < k + 1)]
        have h2 : ((k + w.length - 1) % w.length < k) =
            ((k + w.length - 1) % w.length < k + 1) := by
          have hp3 : (k + w.length - 1) % w.length ≠ k := hik ▸ hp2
          exact propext (by omega)
        simp only [h2]
      · rw [if_neg hik]
        have h1 : (i < k) = (i < k + 1) := propext (by omega)
        have h2 : ((i + w.length - 1) % w.length < k) =
            ((i + w.length - 1) % w.length < k + 1) := propext (by omega)
        simp only [h1, h2]

theorem pairsOf_getD_fst (w : List Nat) (k : Nat) (hk : k < w.length) :
    (pairsOf w).getD k (0, 0) = (w.getD k 0, w.getD ((k + 1) % w.length) 0) := by
  rw [List.getD_eq_getElem?_getD, pairsOf_getElem w k hk]
  rfl

theorem rawBlock_eq (w : List Nat) (o fidx : Nat) :
    (pairsOf w).map (fun p => ({ head := some p.2, face := some fidx } : HEdge)) =
      partialBlock o fidx w 0 := by
  apply List.ext_getElem?
  intro j
  by_cases hj : j < w.length
  · have hj' : j < (pairsOf w).length := by rw [pairsOf_length]; exact hj
    rw [List.getElem?_map, List.getElem?_eq_getElem hj']
    have hp := pairsOf_getElem w j hj
    rw [List.getElem?_eq_getElem hj'] at hp
    rw [Option.some.inj hp, partialBlock_getElem _ _ _ _ _ hj]
    rfl
  · rw [List.getElem?_eq_none (by rw [List.length_map, pairsOf_length]; omega),
      List.getElem?_eq_none (by rw [partialBlock_length]; omega)]

theorem processFace_spec (vs : List HVertex) (es : List HEdge) (tbl : List ((Nat × Nat) × Nat))
    (fs : List HFace) (w : List Nat)
    (hw3 : 3 ≤ w.length) (hnd : w.Nodup) (hrange : ∀ v ∈ w, v < vs.length)
    (hfresh : ∀ e ∈ tbl, e.1 ∉ pairsOf w) :
    ∃ (vs1 : List HVertex) (fh : Option Nat),
      processFace vs es tbl fs w = some (vs1,
        es ++ partialBlock es.length fs.length w w.length,
        tbl ++ tkeys (pairsOf w) es.length, fs ++ [{ h := fh }]) ∧
      vs1.length = vs.length ∧
      (∀ (i : Nat) (hv : HVertex), vs1[i]? = some hv →
        ∃ hv0, vs[i]? = some hv0 ∧ hv.ID = hv0.ID) := by
  have hall : (w.all fun a => a < vs.length) = true := by
    simp only [List.all_eq_true, decide_eq_true_eq]
    exact hrange
  have hrg1 : ∀ p ∈ pairsOf w, p.1 < vs.length := by
    intro p hp
    apply hrange
    rw [← pairsOf_map_fst w]
    exact List.mem_map_of_mem Prod.fst hp
  obtain ⟨vs1, fh1, heq, hlen, huntouched, hid, hk⟩ :=
    addFaceEdges_spec fs.length (pairsOf w) vs es tbl none
      ((pairsOf_map_fst w).symm ▸ hnd) hrg1 hfresh (pairsOf_nodup w hnd)
  have hh : ∀ k, k < w.length → ∃ hv, vs1[w.getD k 0]? = some hv ∧
      hv.h = some (es.length + k) := by
    intro k hkk
    obtain ⟨hv, hhv, hhh⟩ := hk k (by rw [pairsOf_length]; exact hkk)
    rw [pairsOf_getD_fst w k hkk] at hhv
    exact ⟨hv, hhv, hhh⟩
  have hlink := linkFace_spec vs1 w fs.length es (by omega) hh w.length 0 (by omega)
  rw [rawBlock_eq w es.length fs.length] at heq
  refine ⟨vs1, fh1, ?_, hlen, hid⟩
  simp only [processFace, hall, if_true]
  rw [show w.zip (w.rotate 1) = pairsOf w from rfl, heq]
  dsimp only
  rw [show pairsOf w = (pairsOf w).drop 0 from (List.drop_zero _).symm, hlink]

/-- The edge list step 3 produces: one cyclically linked block per face. -/
def soupEdges : List (List Nat) → Nat → Nat → List HEdge
  | [], _, _ => []
  | w :: rest, o, fidx =>
    partialBlock o fidx w w.length ++ soupEdges rest (o + w.length) (fidx + 1)

/-- The hash table step 3 produces: every directed edge keyed to its edge
index, in insertion order. -/
def soupTbl : List (List Nat) → Nat → List ((Nat × Nat) × Nat)
  | [], _ => []
  | w :: rest, o => tkeys (pairsOf w) o ++ soupTbl rest (o + w.length)

theorem allPairs_cons (w : List Nat) (rest : List (List Nat)) :
    allPairs (w :: rest) = pairsOf w ++ allPairs rest := by
  simp [allPairs]

theorem addFacesLoop_spec : ∀ (F : List (List Nat)) (vs : List HVertex) (es : List HEdge)
    (tbl : List ((Nat × Nat) × Nat)) (fs : List HFace),
    (∀ w ∈ F, 3 ≤ w.length ∧ w.Nodup ∧ ∀ v ∈ w, v < vs.length) →
    (∀ e ∈ tbl, e.1 ∉ allPairs F) →
    (allPairs F).Nodup →
    ∃ (vs1 : List HVertex) (fs1 : List HFace),
      addFacesLoop vs es tbl fs F =
        some (vs1, es ++ soupEdges F es.length fs.length, tbl ++ soupTbl F es.length, fs1) ∧
      vs1.length = vs.length ∧ fs1.length = fs.length + F.length ∧
      (∀ (i : Nat) (hv : HVertex), vs1[i]? = some hv →
        ∃ hv0, vs[i]? = some hv0 ∧ hv.ID = hv0.ID) := by
  intro F
  induction F with
  | nil =>
    intro vs es tbl fs _ _ _
    refine ⟨vs, fs, ?_, rfl, by simp, fun i hv h => ⟨hv, h, rfl⟩⟩
    simp [addFacesLoop, soupEdges, soupTbl]
  | cons w rest ih =>
    intro vs es tbl fs hF hfresh hnodup
    obtain ⟨hw3, hnd, hrange⟩ := hF w (List.mem_cons_self _ _)
    rw [allPairs_cons] at hfresh hnodup
    have hfresh1 : ∀ e ∈ tbl, e.1 ∉ pairsOf w := by
      intro e he hmem
      exact hfresh e he (List.mem_append_left _ hmem)
    obtain ⟨vs1, fh, hpeq, hlen1, hid1⟩ := processFace_spec vs es tbl fs w hw3 hnd hrange hfresh1
    have hdisj : ∀ p ∈ pairsOf w, p ∉ allPairs rest := by
      intro p hp hmem
      exact (List.disjoint_of_nodup_append hnodup) hp hmem
    have hF' : ∀ u ∈ rest, 3 ≤ u.length ∧ u.Nodup ∧ ∀ v ∈ u, v < vs1.length := by
      intro u hu
      obtain ⟨h1, h2, h3⟩ := hF u (List.mem_cons_of_mem _ hu)
      exact ⟨h1, h2, fun v hv => hlen1 ▸ h3 v hv⟩
    have hfresh' : ∀ e ∈ tbl ++ tkeys (pairsOf w) es.length, e.1 ∉ allPairs rest := by
      intro e he
      rcases List.mem_append.mp he with h1 | h2
      · intro hmem
        exact hfresh e h1 (List.mem_append_right _ hmem)
      · exact hdisj e.1 (tkeys_mem _ _ _ h2)
    have hnodup' : (allPairs rest).Nodup := hnodup.of_append_right
    obtain ⟨vs2, fs2, hreq, hlen2, hflen2, hid2⟩ :=
      ih vs1 (es ++ partialBlock es.length fs.length w w.length)
        (tbl ++ tkeys (pairsOf w) es.length) (fs ++ [{ h := fh }]) hF' hfresh' hnodup'
    refine ⟨vs2, fs2, ?_, hlen2.trans hlen1, by simp [hflen2]; omega, ?_⟩
    · have hstep : addFacesLoop vs es tbl fs (w :: rest) =
          match processFace vs es tbl fs w with
          | none => none
          | some (vs1, es1, tbl1, fs1) => addFacesLoop vs1 es1 tbl1 fs1 rest := rfl
      rw [hstep, hpeq]
      dsimp only
      rw [hreq]
      have hL1 : (es ++ partialBlock es.length fs.length w w.length).length =
          es.length + w.length := by
        rw [List.length_append, partialBlock_length]
      have hL2 : (fs ++ [({ h := fh } : HFace)]).length = fs.length + 1 := by simp
      rw [hL1, hL2]
      simp only [soupEdges, soupTbl, List.append_assoc]
    · intro i hv h
      obtain ⟨hv1, hh1, hid1e⟩ := hid2 i hv h
      obtain ⟨hv0, hh0, hid0e⟩ := hid1 i hv1 hh1
      exact ⟨hv0, hh0, hid1e.trans hid0e⟩

theorem partialBlock_full_getElem (o fidx : Nat) (w : List Nat) (j : Nat)
    (hn : 1 ≤ w.length) (hj : j < w.length) :
    (partialBlock o fidx w w.length)[j]? = some
      { head := some (w.getD ((j + 1) % w.length) 0)
        face := some fidx
        pair := none
        prev := some (o + (j + w.length - 1) % w.length)
        next := some (o + (j + 1) % w.length)
        ID := none } := by
  rw [partialBlock_getElem _ _ _ _ _ hj]
  rw [if_pos hj, if_pos (Nat.mod_lt _ (by omega) : (j + w.length - 1) % w.length < w.length)]

theorem soupEdges_length : ∀ (F : List (List Nat)) (o fidx : Nat),
    (soupEdges F o fidx).length = (allPairs F).length := by
  intro F
  induction F with
  | nil => intro o fidx; rfl
  | cons w rest ih =>
    intro o fidx
    rw [soupEdges, allPairs_cons, List.length_append, List.length_append,
      partialBlock_length, pairsOf_length, ih]

theorem soupTbl_length : ∀ (F : List (List Nat)) (o : Nat),
    (soupTbl F o).length = (allPairs F).length := by
  intro F
  induction F with
  | nil => intro o; rfl
  | cons w rest ih =>
    intro o
    rw [soupTbl, allPairs_cons, List.length_append, List.length_append,
      tkeys_length, pairsOf_length, ih]

theorem soupTbl_map_fst : ∀ (F : List (List Nat)) (o : Nat),
    (soupTbl F o).map Prod.fst = allPairs F := by
  intro F
  induction F with
  | nil => intro o; rfl
  | cons w rest ih =>
    intro o
    rw [soupTbl, allPairs_cons, List.map_append, tkeys_map_fst, ih]

theorem soupTbl_getElem : ∀ (F : List (List Nat)) (o : Nat) (r : Nat),
    r < (allPairs F).length →
    (soupTbl F o)[r]? = some ((allPairs F).getD r (0, 0), o + r) := by
  intro F
  induction F with
  | nil => intro o r hr; exact absurd hr (by simp [allPairs])
  | cons w rest ih =>
    intro o r hr
    rw [allPairs_cons, List.length_append, pairsOf_length] at hr
    rw [soupTbl, allPairs_cons]
    rw [List.getD_eq_getElem?_getD, List.getElem?_append]
    rw [List.getElem?_append]
    by_cases hrn : r < w.length
    · rw [if_pos (by rw [tkeys_length, pairsOf_length]; exact hrn),
        if_pos (by rw [pairsOf_length]; exact hrn)]
      rw [tkeys_getElem _ _ _ (by rw [pairsOf_length]; exact hrn)]
      rw [List.getD_eq_getElem?_getD]
    · rw [if_neg (by rw [tkeys_length, pairsOf_length]; exact hrn),
        if_neg (by rw [pairsOf_length]; exact hrn)]
      rw [tkeys_length, pairsOf_length]
      rw [ih (o + w.length) (r - w.length) (by omega)]
      rw [List.getD_eq_getElem?_getD]
      simp only [Option.some.injEq, Prod.mk.injEq]
      constructor
      · trivial
      · omega

theorem mod_succ_pred (n r : Nat) (hn : 1 ≤ n) (hr : r < n) :
    ((r + n - 1) % n + 1) % n = r := by
  rw [Nat.mod_add_mod]
  have h1 : r + n - 1 + 1 = r + n := by omega
  rw [h1, Nat.add_mod_right]
  exact Nat.mod_eq_of_lt hr

theorem soupEdges_facts : ∀ (F : List (List Nat)) (o fidx : Nat),
    (∀ w ∈ F, 2 ≤ w.length) →
    ∀ r, r < (soupEdges F o fidx).length →
    ∃ rec, (soupEdges F o fidx)[r]? = some rec ∧ rec.pair = none ∧ rec.ID = none ∧
      (∃ f, rec.face = some f) ∧
      (∃ j, j < (soupEdges F o fidx).length ∧ rec.next = some (o + j) ∧
        ∃ rec2, (soupEdges F o fidx)[j]? = some rec2 ∧ rec2.prev = some (o + r)) ∧
      (∃ j, j < (soupEdges F o fidx).length ∧ rec.prev = some (o + j) ∧
        ∃ rec2, (soupEdges F o fidx)[j]? = some rec2 ∧ rec2.next = some (o + r)) := by
  intro F
  induction F with
  | nil => intro o fidx _ r hr; exact absurd hr (by simp [soupEdges])
  | cons w rest ih =>
    intro o fidx hF r hr
    have hn2 : 2 ≤ w.length := hF w (List.mem_cons_self _ _)
    rw [soupEdges] at hr ⊢
    rw [List.length_append, partialBlock_length] at hr
    have hlen : (partialBlock o fidx w w.length ++
        soupEdges rest (o + w.length) (fidx + 1)).length =
        w.length + (soupEdges rest (o + w.length) (fidx + 1)).length := by
      rw [List.length_append, partialBlock_length]
    by_cases hrn : r < w.length
    · have hacc : ∀ j, j < w.length →
          (partialBlock o fidx w w.length ++ soupEdges rest (o + w.length) (fidx + 1))[j]? =
            (partialBlock o fidx w w.length)[j]? := by
        intro j hj
        rw [List.getElem?_append, if_pos (by rw [partialBlock_length]; exact hj)]
      have hm1 : (r + 1) % w.length < w.length := Nat.mod_lt _ (by omega)
      have hm2 : (r + w.length - 1) % w.length < w.length := Nat.mod_lt _ (by omega)
      refine ⟨_, (hacc r hrn).trans (partialBlock_full_getElem o fidx w r (by omega) hrn),
        rfl, rfl, ⟨fidx, rfl⟩, ?_, ?_⟩
      · refine ⟨(r + 1) % w.length, by rw [hlen]; omega, rfl, ?_⟩
        refine ⟨_, (hacc _ hm1).trans (partialBlock_full_getElem o fidx w _ (by omega) hm1),
          ?_⟩
        rw [mod_pred_succ w.length r (by omega) hrn]
      · refine ⟨(r + w.length - 1) % w.length, by rw [hlen]; omega, rfl, ?_⟩
        refine ⟨_, (hacc _ hm2).trans (partialBlock_full_getElem o fidx w _ (by omega) hm2),
          ?_⟩
        rw [mod_succ_pred w.length r (by omega) hrn]
    · have hF' : ∀ u ∈ rest, 2 ≤ u.length := fun u hu => hF u (List.mem_cons_of_mem _ hu)
      obtain ⟨rec, hrec, hpair, hID, hface, hnx, hpv⟩ :=
        ih (o + w.length) (fidx + 1) hF' (r - w.length) (by omega)
      have haccr : ∀ j, ¬ j < w.length →
          (partialBlock o fidx w w.length ++ soupEdges rest (o + w.length) (fidx + 1))[j]? =
            (soupEdges rest (o + w.length) (fidx + 1))[j - w.length]? := by
        intro j hj
        rw [List.getElem?_append, if_neg (by rw [partialBlock_length]; exact hj)]
        rw [partialBlock_length]
      refine ⟨rec, (haccr r hrn).trans hrec, hpair, hID, hface, ?_, ?_⟩
      · obtain ⟨j, hj, hnxe, rec2, hrec2, hprev2⟩ := hnx
        refine ⟨w.length + j, by rw [hlen]; omega, ?_, rec2, ?_, ?_⟩
        · rw [hnxe]
          simp only [Option.some.injEq]
          omega
        · rw [haccr (w.length + j) (by omega)]
          have he : w.length + j - w.length = j := by omega
          rw [he]
          exact hrec2
        · rw [hprev2]
          simp only [Option.some.injEq]
          omega
      · obtain ⟨j, hj, hpve, rec2, hrec2, hnext2⟩ := hpv
        refine ⟨w.length + j, by rw [hlen]; omega, ?_, rec2, ?_, ?_⟩
        · rw [hpve]
          simp only [Option.some.injEq]
          omega
        · rw [haccr (w.length + j) (by omega)]
          have he : w.length + j - w.length = j := by omega
          rw [he]
          exact hrec2
        · rw [hnext2]
          simp only [Option.some.injEq]
          omega

/-- The key of table entry `r`. -/
def keyAt (T : List ((Nat × Nat) × Nat)) (r : Nat) : Nat × Nat := (T.getD r ((0, 0), 0)).1

/-- The boundary edges step 4 synthesizes, with their `boundaryEdges` table
entries: one per unpaired directed edge, keyed by its tail, positioned
sequentially from `p`. -/
def bSpec (T : List ((Nat × Nat) × Nat)) :
    List ((Nat × Nat) × Nat) → Nat → List ((Nat × Nat) × HEdge)
  | [], _ => []
  | (k, r) :: rest, p =>
    match tblLookup T (k.2, k.1) with
    | some _ => bSpec T rest p
    | none => ((k.2, p), { head := some k.1, pair := some r }) :: bSpec T rest (p + 1)

theorem bSpec_pos (T : List ((Nat × Nat) × Nat)) :
    ∀ (rest : List ((Nat × Nat) × Nat)) (p : Nat),
    (bSpec T rest p).map (fun e => e.1.2) = List.range' p (bSpec T rest p).length := by
  intro rest
  induction rest with
  | nil => intro p; rfl
  | cons e rest ih =>
    intro p
    obtain ⟨k, r⟩ := e
    rw [bSpec]
    cases h : tblLookup T (k.2, k.1) with
    | some j => exact ih p
    | none =>
      rw [List.map_cons, ih (p + 1), List.length_cons, List.range'_succ _ _ 1]

theorem bSpec_mem (T : List ((Nat × Nat) × Nat)) :
    ∀ (rest : List ((Nat × Nat) × Nat)) (p : Nat) (e : (Nat × Nat) × HEdge),
    e ∈ bSpec T rest p →
    ∃ k r, (k, r) ∈ rest ∧ tblLookup T (k.2, k.1) = none ∧
      e.1.1 = k.2 ∧ e.2 = { head := some k.1, pair := some r } ∧ p ≤ e.1.2 := by
  intro rest
  induction rest with
  | nil => intro p e he; exact absurd he (List.not_mem_nil _)
  | cons e0 rest ih =>
    intro p e he
    obtain ⟨k, r⟩ := e0
    rw [bSpec] at he
    cases h : tblLookup T (k.2, k.1) with
    | some j =>
      rw [h] at he
      obtain ⟨k', r', hmem, h1, h2, h3, h4⟩ := ih p e he
      exact ⟨k', r', List.mem_cons_of_mem _ hmem, h1, h2, h3, h4⟩
    | none =>
      rw [h] at he
      rcases List.mem_cons.mp he with rfl | h'
      · exact ⟨k, r, List.mem_cons_self _ _, h, rfl, rfl, le_refl _⟩
      · obtain ⟨k', r', hmem, h1, h2, h3, h4⟩ := ih (p + 1) e h'
        exact ⟨k', r', List.mem_cons_of_mem _ hmem, h1, h2, h3, by omega⟩

theorem bSpec_exists (T : List ((Nat × Nat) × Nat)) :
    ∀ (rest : List ((Nat × Nat) × Nat)) (p : Nat) (k : Nat × Nat) (r : Nat),
    (k, r) ∈ rest → tblLookup T (k.2, k.1) = none →
    ∃ e, e ∈ bSpec T rest p ∧ e.1.1 = k.2 ∧
      e.2 = ({ head := some k.1, pair := some r } : HEdge) := by
  intro rest
  induction rest with
  | nil => intro p k r hmem _; exact absurd hmem (List.not_mem_nil _)
  | cons e0 rest ih =>
    intro p k r hmem hnone
    obtain ⟨k0, r0⟩ := e0
    rw [bSpec]
    rcases List.mem_cons.mp hmem with heq | h'
    · obtain ⟨hk, hr⟩ : k = k0 ∧ r = r0 := by
        have := heq
        rw [Prod.mk.injEq] at this
        exact this
      rw [← hk, ← hr, hnone]
      exact ⟨((k.2, p), { head := some k.1, pair := some r }), List.mem_cons_self _ _, rfl, rfl⟩
    · cases h : tblLookup T (k0.2, k0.1) with
      | some j =>
        obtain ⟨e, he, h1, h2⟩ := ih p k r h' hnone
        exact ⟨e, he, h1, h2⟩
      | none =>
        obtain ⟨e, he, h1, h2⟩ := ih (p + 1) k r h' hnone
        exact ⟨e, List.mem_cons_of_mem _ he, h1, h2⟩

theorem bSpec_keys (T : List ((Nat × Nat) × Nat)) :
    ∀ (rest : List ((Nat × Nat) × Nat)) (p : Nat),
    (bSpec T rest p).map (fun e => e.1.1) =
      (rest.filter (fun kr => decide (tblLookup T (kr.1.2, kr.1.1) = none))).map
        (fun kr => kr.1.2) := by
  intro rest
  induction rest with
  | nil => intro p; rfl
  | cons e0 rest ih =>
    intro p
    obtain ⟨k, r⟩ := e0
    rw [bSpec, List.filter_cons]
    cases h : tblLookup T (k.2, k.1) with
    | some j =>
      rw [if_neg (by simp [h])]
      exact ih p
    | none =>
      rw [if_pos (by simp [h])]
      rw [List.map_cons, List.map_cons, ih (p + 1)]

theorem bSpec_heads (T : List ((Nat × Nat) × Nat)) :
    ∀ (rest : List ((Nat × Nat) × Nat)) (p : Nat),
    (bSpec T rest p).map (fun e => e.2.head) =
      (rest.filter (fun kr => decide (tblLookup T (kr.1.2, kr.1.1) = none))).map
        (fun kr => some kr.1.1) := by
  intro rest
  induction rest with
  | nil => intro p; rfl
  | cons e0 rest ih =>
    intro p
    obtain ⟨k, r⟩ := e0
    rw [bSpec, List.filter_cons]
    cases h : tblLookup T (k.2, k.1) with
    | some j =>
      rw [if_neg (by simp [h])]
      exact ih p
    | none =>
      rw [if_pos (by simp [h])]
      rw [List.map_cons, List.map_cons, ih (p + 1)]

theorem pairEdges_spec (T : List ((Nat × Nat) × Nat))
    (hval : ∀ r, r < T.length → T[r]? = some (keyAt T r, r))
    (htails : ∀ r r', r < T.length → r' < T.length → r ≠ r' →
      tblLookup T ((keyAt T r).2, (keyAt T r).1) = none →
      tblLookup T ((keyAt T r').2, (keyAt T r').1) = none →
      (keyAt T r).2 ≠ (keyAt T r').2) :
    ∀ (d r₀ : Nat), r₀ + d = T.length →
    ∀ (es : List HEdge) (bnd : List (Nat × Nat)),
    T.length ≤ es.length →
    (∀ e ∈ bnd, ∀ r, r₀ ≤ r → r < T.length →
      tblLookup T ((keyAt T r).2, (keyAt T r).1) = none → e.1 ≠ (keyAt T r).2) →
    ∃ (es2 : List HEdge),
      pairEdgesLoop T es bnd (T.drop r₀) =
        (es2, bnd ++ (bSpec T (T.drop r₀) es.length).map Prod.fst) ∧
      es2.length = es.length + (bSpec T (T.drop r₀) es.length).length ∧
      (∀ i, i < es.length → (i < r₀ ∨ T.length ≤ i) → es2[i]? = es[i]?) ∧
      (∀ r, r₀ ≤ r → r < T.length →
        ∃ rec, es[r]? = some rec ∧
          ((∃ j, tblLookup T ((keyAt T r).2, (keyAt T r).1) = some j ∧
             es2[r]? = some { rec with pair := some j }) ∨
           (tblLookup T ((keyAt T r).2, (keyAt T r).1) = none ∧
             ∃ p, es2[r]? = some { rec with pair := some p } ∧
               (((keyAt T r).2, p),
                 ({ head := some (keyAt T r).1, pair := some r } : HEdge)) ∈
                   bSpec T (T.drop r₀) es.length))) ∧
      (∀ e ∈ bSpec T (T.drop r₀) es.length, es2[e.1.2]? = some e.2) := by
  intro d
  induction d with
  | zero =>
    intro r₀ h0 es bnd hNes hbnd
    obtain rfl : r₀ = T.length := by omega
    rw [List.drop_length]
    refine ⟨es, by simp [pairEdgesLoop, bSpec], by simp [bSpec], fun i _ _ => rfl,
      fun r hr hr' => absurd hr (by omega), fun e he => absurd he (by simp [bSpec])⟩
  | succ d ih =>
    intro r₀ h0 es bnd hNes hbnd
    have hr₀ : r₀ < T.length := by omega
    have hdrop : T.drop r₀ = (keyAt T r₀, r₀) :: T.drop (r₀ + 1) := by
      rw [List.drop_eq_getElem_cons hr₀]
      congr 1
      have hv := hval r₀ hr₀
      rw [List.getElem?_eq_getElem hr₀] at hv
      exact Option.some.inj hv
    rcases hKab : keyAt T r₀ with ⟨a, b⟩
    have hrlt : r₀ < es.length := by omega
    have hrec : es[r₀]? = some (es.getD r₀ {}) := by
      rw [List.getD_eq_getElem _ _ hrlt]
      exact List.getElem?_eq_getElem hrlt
    rw [hdrop, hKab]
    cases hlook : tblLookup T (b, a) with
    | some j =>
      have hbnd' : ∀ e ∈ bnd, ∀ r, r₀ + 1 ≤ r → r < T.length →
          tblLookup T ((keyAt T r).2, (keyAt T r).1) = none → e.1 ≠ (keyAt T r).2 :=
        fun e he r hr1 hr2 hr3 => hbnd e he r (by omega) hr2 hr3
      obtain ⟨es2, heq, hlen, huntouched, hq3, hq4⟩ :=
        ih (r₀ + 1) (by omega)
          (es.set r₀ { es.getD r₀ {} with pair := some j }) bnd
          (by rw [List.length_set]; exact hNes) hbnd'
      rw [List.length_set] at hlen huntouched hq3 hq4 heq
      have hbsp : bSpec T (((a, b), r₀) :: T.drop (r₀ + 1)) es.length =
          bSpec T (T.drop (r₀ + 1)) es.length := by
        rw [bSpec, hlook]
      refine ⟨es2, ?_, ?_, ?_, ?_, ?_⟩
      · simp only [pairEdgesLoop, hlook]
        rw [heq, hbsp]
      · rw [hlen, hbsp]
      · intro i hi hcond
        rw [huntouched i hi (by omega)]
        rw [List.getElem?_set, if_neg (by omega)]
      · intro r hr1 hr2
        rcases Nat.eq_or_lt_of_le hr1 with rfl | hgt
        · refine ⟨es.getD r₀ {}, hrec, Or.inl ⟨j, by rw [hKab]; exact hlook, ?_⟩⟩
          rw [huntouched r₀ hrlt (by omega), List.getElem?_set, if_pos rfl,
            if_pos hrlt]
        · obtain ⟨rec, hrece, hdisj⟩ := hq3 r (by omega) hr2
          rw [List.getElem?_set, if_neg (by omega)] at hrece
          refine ⟨rec, hrece, ?_⟩
          rcases hdisj with ⟨j', hj1, hj2⟩ | ⟨hn, p, hp1, hp2⟩
          · exact Or.inl ⟨j', hj1, hj2⟩
          · exact Or.inr ⟨hn, p, hp1, hbsp ▸ hp2⟩
      · intro e he
        rw [hbsp] at he
        exact hq4 e he
    | none =>
      have hfreshb : ∀ e ∈ bnd, e.1 ≠ b := by
        intro e he
        have := hbnd e he r₀ (le_refl _) hr₀ (by rw [hKab]; exact hlook)
        rw [hKab] at this
        exact this
      have hins : tblInsert bnd b es.length = bnd ++ [(b, es.length)] :=
        tblInsert_fresh bnd b es.length hfreshb
      have hbnd' : ∀ e ∈ bnd ++ [(b, es.length)], ∀ r, r₀ + 1 ≤ r → r < T.length →
          tblLookup T ((keyAt T r).2, (keyAt T r).1) = none → e.1 ≠ (keyAt T r).2 := by
        intro e he r hr1 hr2 hr3
        rcases List.mem_append.mp he with h1 | h2
        · exact hbnd e h1 r (by omega) hr2 hr3
        · obtain rfl : e = (b, es.length) := by simpa using h2
          have := htails r₀ r hr₀ hr2 (by omega) (by rw [hKab]; exact hlook) hr3
          rw [hKab] at this
          exact this
      obtain ⟨es2, heq, hlen, huntouched, hq3, hq4⟩ :=
        ih (r₀ + 1) (by omega)
          (es.set r₀ { es.getD r₀ {} with pair := some es.length } ++
            [({ head := some a, pair := some r₀ } : HEdge)])
          (bnd ++ [(b, es.length)])
          (by rw [List.length_append, List.length_set]; simp; omega) hbnd'
      have hlenes : (es.set r₀ { es.getD r₀ {} with pair := some es.length } ++
          [({ head := some a, pair := some r₀ } : HEdge)]).length = es.length + 1 := by
        rw [List.length_append, List.length_set]
        rfl
      rw [hlenes] at hlen huntouched hq3 hq4 heq
      have hbsp : bSpec T (((a, b), r₀) :: T.drop (r₀ + 1)) es.length =
          ((b, es.length), ({ head := some a, pair := some r₀ } : HEdge)) ::
            bSpec T (T.drop (r₀ + 1)) (es.length + 1) := by
        rw [bSpec, hlook]
      refine ⟨es2, ?_, ?_, ?_, ?_, ?_⟩
      · simp only [pairEdgesLoop, hlook]
        rw [hins, heq, hbsp]
        rw [List.map_cons, List.append_assoc, List.singleton_append]
      · rw [hlen, hbsp, List.length_cons]
        omega
      · intro i hi hcond
        rw [huntouched i (by omega) (by omega)]
        rw [List.getElem?_append, if_pos (by rw [List.length_set]; omega),
          List.getElem?_set, if_neg (by omega)]
      · intro r hr1 hr2
        rcases Nat.eq_or_lt_of_le hr1 with rfl | hgt
        · refine ⟨es.getD r₀ {}, hrec, Or.inr ⟨by rw [hKab]; exact hlook, es.length, ?_, ?_⟩⟩
          · rw [huntouched r₀ (by omega) (by omega)]
            rw [List.getElem?_append, if_pos (by rw [List.length_set]; omega),
              List.getElem?_set, if_pos rfl, if_pos hrlt]
          · rw [hKab, hbsp]
            exact List.mem_cons_self _ _
        · obtain ⟨rec, hrece, hdisj⟩ := hq3 r (by omega) hr2
          rw [List.getElem?_append, if_pos (by rw [List.length_set]; omega),
            List.getElem?_set, if_neg (by omega)] at hrece
          refine ⟨rec, hrece, ?_⟩
          rcases hdisj with ⟨j', hj1, hj2⟩ | ⟨hn, p, hp1, hp2⟩
          · exact Or.inl ⟨j', hj1, hj2⟩
          · refine Or.inr ⟨hn, p, hp1, ?_⟩
            rw [hbsp]
            exact List.mem_cons_of_mem _ hp2
      · intro e he
        rw [hbsp] at he
        rcases List.mem_cons.mp he with rfl | h'
        · rw [huntouched es.length (by omega) (by omega)]
          rw [List.getElem?_append, if_neg (by rw [List.length_set]; omega),
            List.length_set]
          rw [show es.length - es.length = 0 from by omega]
          rfl
        · exact hq4 e h'

theorem linkBoundary_spec (bnd : List (Nat × Nat)) (vs : List HVertex) (es2 : List HEdge)
    (hkeysnd : (bnd.map Prod.fst).Nodup)
    (hvalsnd : (bnd.map Prod.snd).Nodup)
    (hids : ∀ (i : Nat) (hv : HVertex), vs[i]? = some hv → hv.ID = some i)
    (hB : ∀ e ∈ bnd, e.1 < vs.length ∧ e.2 < es2.length ∧
      ∃ av rv, es2[e.2]? = some ({ head := some av, pair := some rv } : HEdge) ∧
        av < vs.length ∧ av ∈ bnd.map Prod.fst) :
    ∀ (c v₀ : Nat), v₀ + c = vs.length →
    ∀ (es : List HEdge), es.length = es2.length →
    (∀ i, i < es2.length → (∀ v, (v, i) ∉ bnd) → es[i]? = es2[i]?) →
    (∀ e ∈ bnd, ∃ av rv nx pv,
      es2[e.2]? = some ({ head := some av, pair := some rv } : HEdge) ∧
      es[e.2]? = some { head := some av
                        face := none
                        pair := some rv
                        prev := pv
                        next := nx
                        ID := none } ∧
      ((e.1 < v₀ ∧ nx = tblLookup bnd av) ∨ (¬ e.1 < v₀ ∧ nx = none)) ∧
      ((∃ e' av' rv', e' ∈ bnd ∧ e'.1 < v₀ ∧
          es2[e'.2]? = some ({ head := some av', pair := some rv' } : HEdge) ∧
          av' = e.1 ∧ pv = some e'.2) ∨
       ((¬ ∃ e' av' rv', e' ∈ bnd ∧ e'.1 < v₀ ∧
          es2[e'.2]? = some ({ head := some av', pair := some rv' } : HEdge) ∧
          av' = e.1) ∧ pv = none))) →
    ∃ es3, linkBoundaryLoop bnd vs es (List.range' v₀ c) = some es3 ∧
      es3.length = es2.length ∧
      (∀ i, i < es2.length → (∀ v, (v, i) ∉ bnd) → es3[i]? = es2[i]?) ∧
      (∀ e ∈ bnd, ∃ av rv nx pv,
        es2[e.2]? = some ({ head := some av, pair := some rv } : HEdge) ∧
        es3[e.2]? = some { head := some av
                           face := none
                           pair := some rv
                           prev := pv
                           next := nx
                           ID := none } ∧
        ((e.1 < vs.length ∧ nx = tblLookup bnd av) ∨ (¬ e.1 < vs.length ∧ nx = none)) ∧
        ((∃ e' av' rv', e' ∈ bnd ∧ e'.1 < vs.length ∧
            es2[e'.2]? = some ({ head := some av', pair := some rv' } : HEdge) ∧
            av' = e.1 ∧ pv = some e'.2) ∨
         ((¬ ∃ e' av' rv', e' ∈ bnd ∧ e'.1 < vs.length ∧
            es2[e'.2]? = some ({ head := some av', pair := some rv' } : HEdge) ∧
            av' = e.1) ∧ pv = none))) := by
  intro c
  induction c with
  | zero =>
    intro v₀ hvc es hlen hJ1 hJ2
    obtain rfl : v₀ = vs.length := by omega
    exact ⟨es, rfl, hlen, hJ1, hJ2⟩
  | succ c ih =>
    intro v₀ hvc es hlen hJ1 hJ2
    rw [List.range'_succ]
    cases hlook : tblLookup bnd v₀ with
    | none =>
      have hkey0 : ∀ p, (v₀, p) ∉ bnd := by
        intro p hp
        have hs := tblLookup_isSome_of_mem_keys bnd v₀
          (List.mem_map_of_mem Prod.fst hp)
        rw [hlook] at hs
        exact absurd hs (by simp)
      have hstep : linkBoundaryLoop bnd vs es (v₀ :: List.range' (v₀ + 1) c) =
          linkBoundaryLoop bnd vs es (List.range' (v₀ + 1) c) := by
        simp only [linkBoundaryLoop, hlook]
      have hJ2' : ∀ e ∈ bnd, ∃ av rv nx pv,
          es2[e.2]? = some ({ head := some av, pair := some rv } : HEdge) ∧
          es[e.2]? = some { head := some av
                            face := none
                            pair := some rv
                            prev := pv
                            next := nx
                            ID := none } ∧
          ((e.1 < v₀ + 1 ∧ nx = tblLookup bnd av) ∨ (¬ e.1 < v₀ + 1 ∧ nx = none)) ∧
          ((∃ e' av' rv', e' ∈ bnd ∧ e'.1 < v₀ + 1 ∧
              es2[e'.2]? = some ({ head := some av', pair := some rv' } : HEdge) ∧
              av' = e.1 ∧ pv = some e'.2) ∨
           ((¬ ∃ e' av' rv', e' ∈ bnd ∧ e'.1 < v₀ + 1 ∧
              es2[e'.2]? = some ({ head := some av', pair := some rv' } : HEdge) ∧
              av' = e.1) ∧ pv = none)) := by
        intro e he
        obtain ⟨av, rv, nx, pv, h1, h2, h3, h4⟩ := hJ2 e he
        have hne : e.1 ≠ v₀ := by
          intro h
          apply hkey0 e.2
          rw [← h]
          rw [show (e.1, e.2) = e from rfl]
          exact he
        refine ⟨av, rv, nx, pv, h1, h2, ?_, ?_⟩
        · rcases h3 with ⟨ha, hb⟩ | ⟨ha, hb⟩
          · exact Or.inl ⟨by omega, hb⟩
          · exact Or.inr ⟨by omega, hb⟩
        · rcases h4 with ⟨e', av', rv', he', hlt, hrec', hav', hpv⟩ | ⟨hno, hpv⟩
          · exact Or.inl ⟨e', av', rv', he', by omega, hrec', hav', hpv⟩
          · refine Or.inr ⟨?_, hpv⟩
            rintro ⟨e', av', rv', he', hlt, hrec', hav'⟩
            have hne' : e'.1 ≠ v₀ := by
              intro h
              apply hkey0 e'.2
              rw [← h]
              rw [show (e'.1, e'.2) = e' from rfl]
              exact he'
            exact hno ⟨e', av', rv', he', by omega, hrec', hav'⟩
      rw [hstep]
      exact ih (v₀ + 1) (by omega) es hlen hJ1 hJ2'
    | some p₀ =>
      have hmem0 : (v₀, p₀) ∈ bnd := tblLookup_mem bnd v₀ p₀ hlook
      obtain ⟨av₀, rv₀, nx₀, pv₀, hrec0, hcur0, h30, h40⟩ := hJ2 (v₀, p₀) hmem0
      have hnx0 : nx₀ = none := by
        rcases h30 with ⟨ha, _⟩ | ⟨_, hb⟩
        · exact absurd ha (by omega)
        · exact hb
      obtain ⟨hv0lt, hp0lt, av₀', rv₀', hrec0', hav0lt, hav0keys⟩ := hB (v₀, p₀) hmem0
      have havv : av₀' = av₀ := by
        have h := Option.some.inj (hrec0'.symm.trans hrec0)
        have := congrArg HEdge.head h
        simpa using this
      rw [havv] at hrec0' hav0lt hav0keys
      obtain ⟨p₁, hlk1⟩ := Option.isSome_iff_exists.mp
        (tblLookup_isSome_of_mem_keys bnd av₀ hav0keys)
      have hmem1 : (av₀, p₁) ∈ bnd := tblLookup_mem bnd av₀ p₁ hlk1
      obtain ⟨av₁, rv₁, nx₁, pv₁, hrec1, hcur1, h31, h41⟩ := hJ2 (av₀, p₁) hmem1
      have hp1lt : p₁ < es2.length := (hB (av₀, p₁) hmem1).2.1
      have hvs0 : vs[av₀]? = some (vs.getD av₀ { pos := vec3zero }) := by
        rw [List.getD_eq_getElem _ _ hav0lt]
        exact List.getElem?_eq_getElem hav0lt
      have hid0 : (vs.getD av₀ { pos := vec3zero }).ID = some av₀ :=
        hids av₀ _ hvs0
      have hgd0 : es.getD p₀ {} =
          { head := some av₀
            face := none
            pair := some rv₀
            prev := pv₀
            next := nx₀
            ID := none } := by
        rw [List.getD_eq_getElem?_getD, hcur0]
        rfl
      have hstep : linkBoundaryLoop bnd vs es (v₀ :: List.range' (v₀ + 1) c) =
          linkBoundaryLoop bnd vs
            ((es.set p₀ { es.getD p₀ {} with next := some p₁ }).set p₁
              { (es.set p₀ { es.getD p₀ {} with next := some p₁ }).getD p₁ {} with
                prev := some p₀ })
            (List.range' (v₀ + 1) c) := by
        simp only [linkBoundaryLoop, hlook, hgd0, hnx0, hvs0, hid0, Option.some_bind, hlk1]
      have hkeyinj : ∀ e e' : Nat × Nat, e ∈ bnd → e' ∈ bnd → e.1 = e'.1 → e = e' :=
        fun e e' he he' h => List.inj_on_of_nodup_map hkeysnd he he' h
      have hvalinj : ∀ e e' : Nat × Nat, e ∈ bnd → e' ∈ bnd → e.2 = e'.2 → e = e' :=
        fun e e' he he' h => List.inj_on_of_nodup_map hvalsnd he he' h
      have hlkmem : ∀ e : Nat × Nat, e ∈ bnd → tblLookup bnd e.1 = some e.2 := by
        intro e he
        apply tblLookup_of_mem_nodup bnd e.1 e.2 ?_ hkeysnd
        rw [show (e.1, e.2) = e from rfl]
        exact he
      have hplt0 : p₀ < es.length := by
        rw [hlen]
        exact hp0lt
      rw [hstep]
      rw [hgd0, hnx0]
      by_cases hpp : p₀ = p₁
      · -- self-loop boundary edge: both writes hit the same position
        have heq01 : (v₀, p₀) = (av₀, p₁) := hvalinj _ _ hmem0 hmem1 hpp
        have hv0av : v₀ = av₀ := congrArg Prod.fst heq01
        have hlk1' : tblLookup bnd av₀ = some p₀ := by
          rw [hpp]
          exact hlk1
        rw [← hpp]
        have hin1 : (es.set p₀ { head := some av₀, face := none, pair := some rv₀, prev := pv₀, next := some p₀, ID := none }).getD p₀ {} =
            { head := some av₀, face := none, pair := some rv₀, prev := pv₀, next := some p₀, ID := none } := by
          rw [List.getD_eq_getElem?_getD, List.getElem?_set, if_pos rfl, if_pos hplt0]
          rfl
        rw [hin1, List.set_set]
        apply ih (v₀ + 1) (by omega)
        · rw [List.length_set]
          exact hlen
        · intro i hi hnotin
          have hne0 : p₀ ≠ i := by
            intro h
            apply hnotin v₀
            rw [← h]
            exact hmem0
          rw [List.getElem?_set, if_neg hne0]
          exact hJ1 i hi hnotin
        · intro e he
          by_cases hep : e.2 = p₀
          · have he0 : e = (v₀, p₀) := hvalinj _ _ he hmem0 hep
            refine ⟨av₀, rv₀, some p₀, some p₀, ?_, ?_, ?_, ?_⟩
            · rw [he0]
              exact hrec0
            · rw [he0]
              show (es.set p₀ _)[p₀]? = _
              rw [List.getElem?_set, if_pos rfl, if_pos hplt0]
            · left
              constructor
              · rw [he0]
                omega
              · exact hlk1'.symm
            · left
              refine ⟨(v₀, p₀), av₀, rv₀, hmem0, by omega, hrec0, ?_, rfl⟩
              rw [he0, ← hv0av]
          · obtain ⟨av, rv, nx, pv, h1, h2, h3, h4⟩ := hJ2 e he
            have hne : e.1 ≠ v₀ := by
              intro h
              exact hep (congrArg Prod.snd (hkeyinj e (v₀, p₀) he hmem0 h))
            refine ⟨av, rv, nx, pv, h1, ?_, ?_, ?_⟩
            · rw [List.getElem?_set, if_neg (fun h => hep h.symm)]
              exact h2
            · rcases h3 with ⟨ha, hb⟩ | ⟨ha, hb⟩
              · exact Or.inl ⟨by omega, hb⟩
              · exact Or.inr ⟨by omega, hb⟩
            · rcases h4 with ⟨e', av', rv', he', hlt, hrec', hav', hpv⟩ | ⟨hno, hpv⟩
              · exact Or.inl ⟨e', av', rv', he', by omega, hrec', hav', hpv⟩
              · refine Or.inr ⟨?_, hpv⟩
                rintro ⟨e', av', rv', he', hlt, hrec', hav'⟩
                rcases Nat.lt_or_ge e'.1 v₀ with hcase | hcase
                · exact hno ⟨e', av', rv', he', hcase, hrec', hav'⟩
                · have he'v : e'.1 = v₀ := by omega
                  have he'eq : e' = (v₀, p₀) := hkeyinj e' (v₀, p₀) he' hmem0 he'v
                  have hav'' : av' = av₀ := by
                    have hh := Option.some.inj ((he'eq ▸ hrec' : es2[p₀]? = _).symm.trans hrec0)
                    have := congrArg HEdge.head hh
                    simpa using this
                  rw [hav''] at hav'
                  rw [← hv0av] at hav'
                  exact hne hav'.symm
      · -- distinct positions: write next at p₀, prev at p₁
        have hav0ne : av₀ ≠ v₀ := by
          intro h
          rw [h, hlook] at hlk1
          exact hpp (Option.some.inj hlk1)
        have hplt1 : p₁ < es.length := by
          rw [hlen]
          exact hp1lt
        have hin1 : (es.set p₀ { head := some av₀, face := none, pair := some rv₀, prev := pv₀, next := some p₁, ID := none }).getD p₁ {} =
            { head := some av₁, face := none, pair := some rv₁, prev := pv₁, next := nx₁, ID := none } := by
          rw [List.getD_eq_getElem?_getD, List.getElem?_set, if_neg hpp, hcur1]
          rfl
        rw [hin1]
        apply ih (v₀ + 1) (by omega)
        · rw [List.length_set, List.length_set]
          exact hlen
        · intro i hi hnotin
          have hne1 : p₁ ≠ i := by
            intro h
            apply hnotin av₀
            rw [← h]
            exact hmem1
          have hne0 : p₀ ≠ i := by
            intro h
            apply hnotin v₀
            rw [← h]
            exact hmem0
          rw [List.getElem?_set, if_neg hne1, List.getElem?_set, if_neg hne0]
          exact hJ1 i hi hnotin
        · intro e he
          by_cases hep1 : e.2 = p₁
          · have he1 : e = (av₀, p₁) := hvalinj _ _ he hmem1 hep1
            refine ⟨av₁, rv₁, nx₁, some p₀, ?_, ?_, ?_, ?_⟩
            · rw [he1]
              exact hrec1
            · rw [he1]
              show ((es.set p₀ _).set p₁ _)[p₁]? = _
              rw [List.getElem?_set, if_pos rfl, if_pos (by rw [List.length_set]; exact hplt1)]
            · rcases h31 with ⟨ha, hb⟩ | ⟨ha, hb⟩
              · have ha' : av₀ < v₀ := ha
                refine Or.inl ⟨?_, hb⟩
                rw [he1]
                show av₀ < v₀ + 1
                omega
              · have ha' : ¬ av₀ < v₀ := ha
                refine Or.inr ⟨?_, hb⟩
                rw [he1]
                show ¬ av₀ < v₀ + 1
                have hav0ne2 : av₀ ≠ v₀ := hav0ne
                omega
            · left
              refine ⟨(v₀, p₀), av₀, rv₀, hmem0, by omega, hrec0, ?_, rfl⟩
              rw [he1]
          · by_cases hep0 : e.2 = p₀
            · have he0 : e = (v₀, p₀) := hvalinj _ _ he hmem0 hep0
              refine ⟨av₀, rv₀, some p₁, pv₀, ?_, ?_, ?_, ?_⟩
              · rw [he0]
                exact hrec0
              · rw [he0]
                show ((es.set p₀ _).set p₁ _)[p₀]? = _
                rw [List.getElem?_set, if_neg (fun h => hpp h.symm), List.getElem?_set,
                  if_pos rfl, if_pos hplt0]
              · left
                constructor
                · rw [he0]
                  show v₀ < v₀ + 1
                  omega
                · exact hlk1.symm
              · rcases h40 with ⟨e', av', rv', he', hlt, hrec', hav', hpv⟩ | ⟨hno, hpv⟩
                · left
                  exact ⟨e', av', rv', he', by omega, hrec', by rw [he0]; exact hav', hpv⟩
                · refine Or.inr ⟨?_, hpv⟩
                  rintro ⟨e', av', rv', he', hlt, hrec', hav'⟩
                  rcases Nat.lt_or_ge e'.1 v₀ with hcase | hcase
                  · exact hno ⟨e', av', rv', he', hcase, hrec', by rw [he0] at hav'; exact hav'⟩
                  · have he'v : e'.1 = v₀ := by omega
                    have he'eq : e' = (v₀, p₀) := hkeyinj e' (v₀, p₀) he' hmem0 he'v
                    have hav'' : av' = av₀ := by
                      have hh := Option.some.inj
                        ((he'eq ▸ hrec' : es2[p₀]? = _).symm.trans hrec0)
                      have := congrArg HEdge.head hh
                      simpa using this
                    rw [he0] at hav'
                    rw [hav''] at hav'
                    exact hav0ne hav'
            · obtain ⟨av, rv, nx, pv, h1, h2, h3, h4⟩ := hJ2 e he
              have hne : e.1 ≠ v₀ := by
                intro h
                exact hep0 (congrArg Prod.snd (hkeyinj e (v₀, p₀) he hmem0 h))
              refine ⟨av, rv, nx, pv, h1, ?_, ?_, ?_⟩
              · rw [List.getElem?_set, if_neg (fun h => hep1 h.symm),
                  List.getElem?_set, if_neg (fun h => hep0 h.symm)]
                exact h2
              · rcases h3 with ⟨ha, hb⟩ | ⟨ha, hb⟩
                · exact Or.inl ⟨by omega, hb⟩
                · exact Or.inr ⟨by omega, hb⟩
              · rcases h4 with ⟨e', av', rv', he', hlt, hrec', hav', hpv⟩ | ⟨hno, hpv⟩
                · exact Or.inl ⟨e', av', rv', he', by omega, hrec', hav', hpv⟩
                · refine Or.inr ⟨?_, hpv⟩
                  rintro ⟨e', av', rv', he', hlt, hrec', hav'⟩
                  rcases Nat.lt_or_ge e'.1 v₀ with hcase | hcase
                  · exact hno ⟨e', av', rv', he', hcase, hrec', hav'⟩
                  · have he'v : e'.1 = v₀ := by omega
                    have he'eq : e' = (v₀, p₀) := hkeyinj e' (v₀, p₀) he' hmem0 he'v
                    have hav'' : av' = av₀ := by
                      have hh := Option.some.inj
                        ((he'eq ▸ hrec' : es2[p₀]? = _).symm.trans hrec0)
                      have := congrArg HEdge.head hh
                      simpa using this
                    rw [hav''] at hav'
                    have hlke : tblLookup bnd e.1 = some e.2 := hlkmem e he
                    rw [hav'] at hlk1
                    rw [hlke] at hlk1
                    exact hep1 (Option.some.inj hlk1)

theorem numberEdges_getElem (es : List HEdge) (i : Nat) (hi : i < es.length) :
    (numberEdges es)[i]? = some { es.getD i {} with ID := some i } := by
  rw [numberEdges, List.getElem?_map, List.getElem?_range hi]
  rfl

theorem numberEdges_length (es : List HEdge) : (numberEdges es).length = es.length := by
  simp [numberEdges]

theorem mkVertices_length (p c : List Vec3) : (mkVertices p c).length = p.length := by
  simp [mkVertices]

theorem mkVertices_ids (p c : List Vec3) :
    ∀ (i : Nat) (hv : HVertex), (mkVertices p c)[i]? = some hv → hv.ID = some i := by
  intro i hv h
  rw [mkVertices, List.getElem?_map] at h
  cases hr : (List.range p.length)[i]? with
  | none => rw [hr] at h; exact absurd h (by simp)
  | some j =>
    rw [hr] at h
    have hj : j = i := by
      rcases List.getElem?_eq_some_iff.mp hr with ⟨hlt, heq⟩
      rw [List.getElem_range] at heq
      exact heq.symm
    rw [Option.map_some'] at h
    obtain rfl := (Option.some.inj h).symm
    rw [hj]

theorem tblLookup_none_iff {α : Type} [DecidableEq α] (t : List (α × Nat)) (k : α) :
    tblLookup t k = none ↔ k ∉ t.map Prod.fst := by
  constructor
  · intro h hmem
    have := tblLookup_isSome_of_mem_keys t k hmem
    rw [h] at this
    exact absurd this (by simp)
  · intro h
    apply tblLookup_eq_none_of
    intro e he hk
    exact h (hk ▸ List.mem_map_of_mem Prod.fst he)

theorem allPairs_mem_bounds (F : List (List Nat)) (n : Nat)
    (hF : ∀ w ∈ F, ∀ v ∈ w, v < n) :
    ∀ k ∈ allPairs F, k.1 < n ∧ k.2 < n := by
  intro k hk
  rw [allPairs, List.mem_join] at hk
  obtain ⟨l, hl, hkl⟩ := hk
  rw [List.mem_map] at hl
  obtain ⟨w, hw, rfl⟩ := hl
  constructor
  · apply hF w hw
    rw [← pairsOf_map_fst w]
    exact List.mem_map_of_mem Prod.fst hkl
  · apply hF w hw
    have h2 : k.2 ∈ w.rotate 1 := by
      rw [pairsOf] at hkl
      exact List.of_mem_zip hkl |>.2
    rw [List.mem_rotate] at h2
    exact h2

theorem soupTbl_map_snd (F : List (List Nat)) :
    (soupTbl F 0).map Prod.snd = List.range (allPairs F).length := by
  apply List.ext_getElem?
  intro r
  by_cases hr : r < (allPairs F).length
  · rw [List.getElem?_map, soupTbl_getElem F 0 r hr, List.getElem?_range hr,
      Option.map_some']
    simp
  · rw [List.getElem?_eq_none (by rw [List.length_map, soupTbl_length]; omega),
      List.getElem?_eq_none (by rw [List.length_range]; omega)]

theorem bSpec_pairs (T : List ((Nat × Nat) × Nat)) :
    ∀ (rest : List ((Nat × Nat) × Nat)) (p : Nat),
    (bSpec T rest p).map (fun e => e.2.pair) =
      (rest.filter (fun kr => decide (tblLookup T (kr.1.2, kr.1.1) = none))).map
        (fun kr => some kr.2) := by
  intro rest
  induction rest with
  | nil => intro p; rfl
  | cons e0 rest ih =>
    intro p
    obtain ⟨k, r⟩ := e0
    rw [bSpec, List.filter_cons]
    cases h : tblLookup T (k.2, k.1) with
    | some j =>
      rw [if_neg (by simp [h])]
      exact ih p
    | none =>
      rw [if_pos (by simp [h])]
      rw [List.map_cons, List.map_cons, ih (p + 1)]

/-- The full hash table of the soup. -/
def soupT (S : Soup) : List ((Nat × Nat) × Nat) := soupTbl S.faces 0

/-- The number of interior (face) half-edges of the soup. -/
def soupN (S : Soup) : Nat := (allPairs S.faces).length

/-- The synthesized boundary edges with their table entries. -/
def soupB (S : Soup) : List ((Nat × Nat) × HEdge) := bSpec (soupT S) (soupT S) (soupN S)

/-- The `boundaryEdges` table contents. -/
def soupBnd (S : Soup) : List (Nat × Nat) := (soupB S).map Prod.fst

theorem soupT_length (S : Soup) : (soupT S).length = soupN S := soupTbl_length S.faces 0

theorem keyAt_soupT (S : Soup) (r : Nat) (hr : r < soupN S) :
    keyAt (soupT S) r = (allPairs S.faces).getD r (0, 0) := by
  rw [keyAt, List.getD_eq_getElem?_getD, soupT, soupTbl_getElem S.faces 0 r hr]
  rfl

theorem soupT_val (S : Soup) (r : Nat) (hr : r < soupN S) :
    (soupT S)[r]? = some (keyAt (soupT S) r, r) := by
  rw [keyAt_soupT S r hr]
  show (soupTbl S.faces 0)[r]? = _
  rw [soupTbl_getElem S.faces 0 r hr, Nat.zero_add]

theorem keyAt_mem_allPairs (S : Soup) (r : Nat) (hr : r < soupN S) :
    keyAt (soupT S) r ∈ allPairs S.faces := by
  rw [keyAt_soupT S r hr, List.getD_eq_getElem _ _ hr]
  exact List.getElem_mem hr

theorem soupT_keys_nodup (S : Soup) (hwf : WellFormedSoup S) :
    ((soupT S).map Prod.fst).Nodup := by
  rw [soupT, soupTbl_map_fst]
  exact hwf.2.1

theorem keyAt_inj (S : Soup) (hwf : WellFormedSoup S) (r r' : Nat)
    (hr : r < soupN S) (hr' : r' < soupN S) (hne : r ≠ r') :
    keyAt (soupT S) r ≠ keyAt (soupT S) r' := by
  rw [keyAt_soupT S r hr, keyAt_soupT S r' hr']
  rw [List.getD_eq_getElem _ _ hr, List.getD_eq_getElem _ _ hr']
  intro h
  exact hne (hwf.2.1.getElem_inj_iff.mp h)

theorem soupT_lookup_self (S : Soup) (hwf : WellFormedSoup S) (r : Nat) (hr : r < soupN S) :
    tblLookup (soupT S) (keyAt (soupT S) r) = some r := by
  apply tblLookup_of_mem_nodup _ _ _ ?_ (soupT_keys_nodup S hwf)
  have h := soupT_val S r hr
  rcases List.getElem?_eq_some_iff.mp h with ⟨hlt, heq⟩
  exact heq ▸ List.getElem_mem hlt

theorem soupT_unpaired_iff (S : Soup) (r : Nat) (hr : r < soupN S) :
    tblLookup (soupT S) ((keyAt (soupT S) r).2, (keyAt (soupT S) r).1) = none ↔
      keyAt (soupT S) r ∈ unpairedOf S.faces := by
  rw [tblLookup_none_iff]
  simp only [soupT, soupTbl_map_fst]
  rw [unpairedOf, List.mem_filter]
  constructor
  · intro h
    refine ⟨?_, by simpa using h⟩
    rw [← soupT]
    exact keyAt_mem_allPairs S r hr
  · intro h
    simpa using h.2

theorem soupT_tails (S : Soup) (hwf : WellFormedSoup S) : ∀ (r r' : Nat),
    r < (soupT S).length → r' < (soupT S).length → r ≠ r' →
    tblLookup (soupT S) ((keyAt (soupT S) r).2, (keyAt (soupT S) r).1) = none →
    tblLookup (soupT S) ((keyAt (soupT S) r').2, (keyAt (soupT S) r').1) = none →
    (keyAt (soupT S) r).2 ≠ (keyAt (soupT S) r').2 := by
  intro r r' hr hr' hne hu hu'
  rw [soupT_length] at hr hr'
  have h1 := (soupT_unpaired_iff S r hr).mp hu
  have h2 := (soupT_unpaired_iff S r' hr').mp hu'
  intro heq
  exact keyAt_inj S hwf r r' hr hr' hne
    (List.inj_on_of_nodup_map hwf.2.2.2.1 h1 h2 heq)

theorem filter_fst_map (T : List ((Nat × Nat) × Nat)) (p : Nat × Nat → Bool) :
    ((T.filter (fun kr => p kr.1)).map (fun kr => kr.1)) = (T.map Prod.fst).filter p := by
  induction T with
  | nil => rfl
  | cons e rest ih =>
    rw [List.filter_cons, List.map_cons, List.filter_cons]
    by_cases hp : p e.1
    · rw [if_pos hp, if_pos hp, List.map_cons, ih]
    · rw [if_neg hp, if_neg hp, ih]

theorem soupT_filter_eq (S : Soup) :
    ((soupT S).map Prod.fst).filter
        (fun k => decide (tblLookup (soupT S) (k.2, k.1) = none)) =
      unpairedOf S.faces := by
  rw [soupT, soupTbl_map_fst, unpairedOf]
  apply List.filter_congr
  intro k hk
  rw [decide_eq_decide]
  rw [tblLookup_none_iff]
  simp only [soupT, soupTbl_map_fst]

theorem soupBnd_keys (S : Soup) :
    (soupBnd S).map Prod.fst = (unpairedOf S.faces).map Prod.snd := by
  have h0 : (soupBnd S).map Prod.fst = (soupB S).map (fun e => e.1.1) := by
    rw [soupBnd, List.map_map]
    rfl
  rw [h0, soupB, bSpec_keys]
  have h1 : ((soupT S).filter
      (fun kr => decide (tblLookup (soupT S) (kr.1.2, kr.1.1) = none))).map
        (fun kr => kr.1.2) =
      (((soupT S).filter
        (fun kr => decide (tblLookup (soupT S) (kr.1.2, kr.1.1) = none))).map
          (fun kr => kr.1)).map Prod.snd := by
    rw [List.map_map]
    rfl
  rw [h1]
  rw [show ((soupT S).filter
      (fun kr => decide (tblLookup (soupT S) (kr.1.2, kr.1.1) = none))).map
        (fun kr => kr.1) =
      ((soupT S).map Prod.fst).filter
        (fun k => decide (tblLookup (soupT S) (k.2, k.1) = none)) from
    filter_fst_map (soupT S)
      (fun k => decide (tblLookup (soupT S) (k.2, k.1) = none))]
  rw [soupT_filter_eq]

theorem soupB_heads (S : Soup) :
    (soupB S).map (fun e => e.2.head) = (unpairedOf S.faces).map (fun k => some k.1) := by
  rw [soupB, bSpec_heads]
  have h1 : ((soupT S).filter
      (fun kr => decide (tblLookup (soupT S) (kr.1.2, kr.1.1) = none))).map
        (fun kr => some kr.1.1) =
      (((soupT S).filter
        (fun kr => decide (tblLookup (soupT S) (kr.1.2, kr.1.1) = none))).map
          (fun kr => kr.1)).map (fun k => some k.1) := by
    rw [List.map_map]
    rfl
  rw [h1]
  rw [show ((soupT S).filter
      (fun kr => decide (tblLookup (soupT S) (kr.1.2, kr.1.1) = none))).map
        (fun kr => kr.1) =
      ((soupT S).map Prod.fst).filter
        (fun k => decide (tblLookup (soupT S) (k.2, k.1) = none)) from
    filter_fst_map (soupT S)
      (fun k => decide (tblLookup (soupT S) (k.2, k.1) = none))]
  rw [soupT_filter_eq]

theorem soupB_heads_nodup (S : Soup) (hwf : WellFormedSoup S) :
    ((soupB S).map (fun e => e.2.head)).Nodup := by
  rw [soupB_heads]
  have h1 : (unpairedOf S.faces).map (fun k => some k.1) =
      ((unpairedOf S.faces).map Prod.fst).map (fun v => (some v : Option Nat)) := by
    rw [List.map_map]
    rfl
  rw [h1]
  exact List.Nodup.map (fun a b h => Option.some.inj h) hwf.2.2.1

theorem soupB_pairs_nodup (S : Soup) :
    ((soupB S).map (fun e => e.2.pair)).Nodup := by
  rw [soupB, bSpec_pairs]
  have h1 : ((soupT S).filter
      (fun kr => decide (tblLookup (soupT S) (kr.1.2, kr.1.1) = none))).map
        (fun kr => some kr.2) =
      (((soupT S).filter
        (fun kr => decide (tblLookup (soupT S) (kr.1.2, kr.1.1) = none))).map
          Prod.snd).map (fun v => (some v : Option Nat)) := by
    rw [List.map_map]
    rfl
  rw [h1]
  apply List.Nodup.map (fun a b h => Option.some.inj h)
  apply List.Nodup.sublist (List.Sublist.map Prod.snd (List.filter_sublist _))
  rw [soupT, soupTbl_map_snd]
  exact List.nodup_range _

theorem soupBnd_keys_nodup (S : Soup) (hwf : WellFormedSoup S) :
    ((soupBnd S).map Prod.fst).Nodup := by
  rw [soupBnd_keys]
  exact hwf.2.2.2.1

theorem soupBnd_vals (S : Soup) :
    (soupBnd S).map Prod.snd = List.range' (soupN S) (soupB S).length := by
  rw [soupBnd, List.map_map]
  have h0 : (Prod.snd ∘ Prod.fst : ((Nat × Nat) × HEdge) → Nat) =
      fun e => e.1.2 := rfl
  rw [h0, soupB, bSpec_pos]

theorem soupBnd_vals_nodup (S : Soup) : ((soupBnd S).map Prod.snd).Nodup := by
  rw [soupBnd_vals]
  exact List.nodup_range' _ _

theorem soupB_pos_bounds (S : Soup) (e : (Nat × Nat) × HEdge) (he : e ∈ soupB S) :
    soupN S ≤ e.1.2 ∧ e.1.2 < soupN S + (soupB S).length := by
  have hmem : e.1.2 ∈ (soupB S).map (fun e => e.1.2) := List.mem_map_of_mem _ he
  have h0 : (soupB S).map (fun e => e.1.2) = List.range' (soupN S) (soupB S).length := by
    rw [soupB, bSpec_pos]
  rw [h0, List.mem_range'_1] at hmem
  exact hmem

theorem soupB_coverage (S : Soup) (p : Nat) (h1 : soupN S ≤ p)
    (h2 : p < soupN S + (soupB S).length) :
    ∃ e, e ∈ soupB S ∧ e.1.2 = p := by
  have hmem : p ∈ (soupB S).map (fun e => e.1.2) := by
    have h0 : (soupB S).map (fun e => e.1.2) = List.range' (soupN S) (soupB S).length := by
      rw [soupB, bSpec_pos]
    rw [h0, List.mem_range'_1]
    exact ⟨h1, h2⟩
  obtain ⟨e, he, heq⟩ := List.mem_map.mp hmem
  exact ⟨e, he, heq⟩

theorem soupT_mem_val (S : Soup) (k : Nat × Nat) (r : Nat) (h : (k, r) ∈ soupT S) :
    r < soupN S ∧ k = keyAt (soupT S) r := by
  obtain ⟨idx, hidx, heq⟩ := List.getElem_of_mem h
  have hidx' : idx < soupN S := by
    rw [soupT_length] at hidx
    exact hidx
  have h2 := soupT_val S idx hidx'
  rw [List.getElem?_eq_getElem hidx, heq] at h2
  obtain ⟨hk, hr⟩ : k = keyAt (soupT S) idx ∧ r = idx := by
    have := Option.some.inj h2
    rw [Prod.mk.injEq] at this
    exact this
  rw [hr]
  exact ⟨hidx', hk⟩

theorem loadFromSoup_pipeline (S : Soup) (hwf : WellFormedSoup S) :
    ∃ (vs1 : List HVertex) (fs1 : List HFace) (es2 es3 : List HEdge),
      HedgeMesh.loadFromSoup S = some { vertices := vs1
                                        edges := numberEdges es3
                                        faces := numberFaces fs1
                                        needsDisplayUpdate := true } ∧
      vs1.length = S.positions.length ∧
      (∀ (i : Nat) (hv : HVertex), vs1[i]? = some hv → hv.ID = some i) ∧
      es2.length = soupN S + (soupB S).length ∧
      (∀ r, r < soupN S →
        ∃ rec, (soupEdges S.faces 0 0)[r]? = some rec ∧
          ((∃ j, tblLookup (soupT S) ((keyAt (soupT S) r).2, (keyAt (soupT S) r).1) =
              some j ∧ es2[r]? = some { rec with pair := some j }) ∨
           (tblLookup (soupT S) ((keyAt (soupT S) r).2, (keyAt (soupT S) r).1) = none ∧
             ∃ p, es2[r]? = some { rec with pair := some p } ∧
               (((keyAt (soupT S) r).2, p),
                 ({ head := some (keyAt (soupT S) r).1, pair := some r } : HEdge)) ∈
                   soupB S))) ∧
      (∀ e ∈ soupB S, es2[e.1.2]? = some e.2) ∧
      es3.length = es2.length ∧
      (∀ i, i < es2.length → (∀ v, (v, i) ∉ soupBnd S) → es3[i]? = es2[i]?) ∧
      (∀ e ∈ soupBnd S, ∃ av rv nx pv,
        es2[e.2]? = some ({ head := some av, pair := some rv } : HEdge) ∧
        es3[e.2]? = some { head := some av
                           face := none
                           pair := some rv
                           prev := pv
                           next := nx
                           ID := none } ∧
        ((e.1 < vs1.length ∧ nx = tblLookup (soupBnd S) av) ∨
          (¬ e.1 < vs1.length ∧ nx = none)) ∧
        ((∃ e' av' rv', e' ∈ soupBnd S ∧ e'.1 < vs1.length ∧
            es2[e'.2]? = some ({ head := some av', pair := some rv' } : HEdge) ∧
            av' = e.1 ∧ pv = some e'.2) ∨
         ((¬ ∃ e' av' rv', e' ∈ soupBnd S ∧ e'.1 < vs1.length ∧
            es2[e'.2]? = some ({ head := some av', pair := some rv' } : HEdge) ∧
            av' = e.1) ∧ pv = none))) := by
  obtain ⟨vs1, fs1, heqA, hlenA, hflen, hidsA⟩ :=
    addFacesLoop_spec S.faces (mkVertices S.positions S.colors) [] [] []
      (by
        intro w hw
        obtain ⟨h1, h2, h3⟩ := hwf.1 w hw
        exact ⟨h1, h2, fun v hv => by rw [mkVertices_length]; exact h3 v hv⟩)
      (fun e he => absurd he (List.not_mem_nil _))
      hwf.2.1
  simp only [List.length_nil] at heqA
  rw [List.nil_append, List.nil_append] at heqA
  have hids1 : ∀ (i : Nat) (hv : HVertex), vs1[i]? = some hv → hv.ID = some i := by
    intro i hv h
    obtain ⟨hv0, hh0, hid0⟩ := hidsA i hv h
    rw [hid0]
    exact mkVertices_ids S.positions S.colors i hv0 hh0
  have hlen1 : vs1.length = S.positions.length := by
    rw [hlenA, mkVertices_length]
  have hE1len : (soupEdges S.faces 0 0).length = soupN S := by
    rw [soupEdges_length]
    rfl
  obtain ⟨es2, heqB, hlenB, _, hq3, hq4⟩ :=
    pairEdges_spec (soupT S)
      (fun r hr => soupT_val S r (by rw [← soupT_length]; exact hr))
      (soupT_tails S hwf)
      (soupT S).length 0 (by omega) (soupEdges S.faces 0 0) []
      (by rw [hE1len, soupT_length])
      (fun e he => absurd he (List.not_mem_nil _))
  rw [List.drop_zero, hE1len] at heqB hq3 hq4
  rw [List.nil_append] at heqB
  rw [List.drop_zero, hE1len] at hlenB
  have hlenB' : es2.length = soupN S + (soupB S).length := by
    rw [hlenB, soupB]
  have hBfacts : ∀ e ∈ soupBnd S, e.1 < vs1.length ∧ e.2 < es2.length ∧
      ∃ av rv, es2[e.2]? = some ({ head := some av, pair := some rv } : HEdge) ∧
        av < vs1.length ∧ av ∈ (soupBnd S).map Prod.fst := by
    intro e he
    obtain ⟨b, hb, rfl⟩ := List.mem_map.mp he
    obtain ⟨k, r, hkr, hnone, hkey, hrec, hple⟩ := bSpec_mem (soupT S) (soupT S) (soupN S) b hb
    obtain ⟨hrN, hkeq⟩ := soupT_mem_val S k r hkr
    have hkmem : k ∈ allPairs S.faces := by
      rw [hkeq]
      exact keyAt_mem_allPairs S r hrN
    have hbounds := allPairs_mem_bounds S.faces S.positions.length
      (fun w hw => (hwf.1 w hw).2.2) k hkmem
    have hunp : k ∈ unpairedOf S.faces := by
      rw [hkeq]
      rw [hkeq] at hnone
      exact (soupT_unpaired_iff S r hrN).mp hnone
    refine ⟨?_, ?_, k.1, r, ?_, ?_, ?_⟩
    · rw [hlen1, hkey]
      exact hbounds.2
    · rw [hlenB']
      exact (soupB_pos_bounds S b hb).2
    · exact hrec ▸ hq4 b hb
    · rw [hlen1]
      exact hbounds.1
    · rw [soupBnd_keys]
      have := hwf.2.2.2.2.1 k hunp
      exact this
  obtain ⟨es3, heqC, hlenC, hJ1C, hJ2C⟩ :=
    linkBoundary_spec (soupBnd S) vs1 es2
      (soupBnd_keys_nodup S hwf) (soupBnd_vals_nodup S) hids1 hBfacts
      vs1.length 0 (by omega) es2 rfl
      (fun i _ _ => rfl)
      (by
        intro e he
        obtain ⟨b, hb, rfl⟩ := List.mem_map.mp he
        obtain ⟨k, r, hkr, hnone, hkey, hrec, hple⟩ :=
          bSpec_mem (soupT S) (soupT S) (soupN S) b hb
        refine ⟨k.1, r, none, none, ?_, ?_, ?_, ?_⟩
        · exact hrec ▸ hq4 b hb
        · exact hrec ▸ hq4 b hb
        · exact Or.inr ⟨by omega, rfl⟩
        · refine Or.inr ⟨?_, rfl⟩
          rintro ⟨e', av', rv', he', hlt, _, _⟩
          omega)
  refine ⟨vs1, fs1, es2, es3, ?_,
    hlen1, hids1, hlenB',
    (fun r hr => hq3 r (by omega) (by rw [soupT_length]; exact hr)),
    hq4, hlenC, hJ1C, hJ2C⟩
  have heqB' : pairEdgesLoop (soupTbl S.faces 0) (soupEdges S.faces 0 0) []
      (soupTbl S.faces 0) =
      (es2, (bSpec (soupT S) (soupT S) (soupN S)).map Prod.fst) := heqB
  have heqC' : linkBoundaryLoop ((bSpec (soupT S) (soupT S) (soupN S)).map Prod.fst) vs1
      es2 (List.range' 0 vs1.length) = some es3 := heqC
  show HedgeMesh.loadFromSoup S = _
  rw [HedgeMesh.loadFromSoup]
  rw [heqA]
  dsimp only
  rw [heqB']
  dsimp only
  rw [show List.range vs1.length = List.range' 0 vs1.length from List.range_eq_range' _,
    heqC']

/-- Every half-edge's `pair.pair`, `next.prev` and `prev.next` come back to
itself, stated over edge indices. -/
def pairInvolutive (m : HedgeMesh) : Prop :=
  ∀ i, i < m.edges.length →
    (∃ j, j < m.edges.length ∧ (m.edges.getD i {}).pair = some j ∧
      (m.edges.getD j {}).pair = some i) ∧
    (∃ j, j < m.edges.length ∧ (m.edges.getD i {}).next = some j ∧
      (m.edges.getD j {}).prev = some i) ∧
    (∃ j, j < m.edges.length ∧ (m.edges.getD i {}).prev = some j ∧
      (m.edges.getD j {}).next = some i)

/-- No half-edge and its pair both carry a null face: every null-face edge is
paired with a face-bearing edge. -/
def boundaryPairedToFace (m : HedgeMesh) : Prop :=
  ∀ i, i < m.edges.length → (m.edges.getD i {}).face = none →
    ∃ j, j < m.edges.length ∧ (m.edges.getD i {}).pair = some j ∧
      ((m.edges.getD j {}).face).isSome = true

instance (m : HedgeMesh) : Decidable (pairInvolutive m) := by
  unfold pairInvolutive
  infer_instance

instance (m : HedgeMesh) : Decidable (boundaryPairedToFace m) := by
  unfold boundaryPairedToFace
  infer_instance

example : pairInvolutive makeTriangle := by decide

example : boundaryPairedToFace makeTriangle := by decide

example : pairInvolutive triMesh := by decide

example : boundaryPairedToFace triMesh := by decide

theorem numberEdges_getD_fields (es : List HEdge) (i : Nat) (hi : i < es.length) :
    ((numberEdges es).getD i {}).pair = (es.getD i {}).pair ∧
    ((numberEdges es).getD i {}).next = (es.getD i {}).next ∧
    ((numberEdges es).getD i {}).prev = (es.getD i {}).prev ∧
    ((numberEdges es).getD i {}).face = (es.getD i {}).face := by
  rw [List.getD_eq_getElem?_getD, numberEdges_getElem es i hi]
  exact ⟨rfl, rfl, rfl, rfl⟩

theorem getD_of_getElem {l : List HEdge} {i : Nat} {rec : HEdge}
    (h : l[i]? = some rec) : l.getD i {} = rec := by
  rw [List.getD_eq_getElem?_getD, h]
  rfl

theorem interiorRead (S : Soup) (hwf : WellFormedSoup S) (vs1 : List HVertex)
    (es2 es3 : List HEdge)
    (hlen2 : es2.length = soupN S + (soupB S).length)
    (hq3 : ∀ r, r < soupN S →
      ∃ rec, (soupEdges S.faces 0 0)[r]? = some rec ∧
        ((∃ j, tblLookup (soupT S) ((keyAt (soupT S) r).2, (keyAt (soupT S) r).1) =
            some j ∧ es2[r]? = some { rec with pair := some j }) ∨
         (tblLookup (soupT S) ((keyAt (soupT S) r).2, (keyAt (soupT S) r).1) = none ∧
           ∃ p, es2[r]? = some { rec with pair := some p } ∧
             (((keyAt (soupT S) r).2, p),
               ({ head := some (keyAt (soupT S) r).1, pair := some r } : HEdge)) ∈
                 soupB S)))
    (hq4 : ∀ e ∈ soupB S, es2[e.1.2]? = some e.2)
    (hJ1 : ∀ i, i < es2.length → (∀ v, (v, i) ∉ soupBnd S) → es3[i]? = es2[i]?)
    (hJ2 : ∀ e ∈ soupBnd S, ∃ av rv nx pv,
      es2[e.2]? = some ({ head := some av, pair := some rv } : HEdge) ∧
      es3[e.2]? = some { head := some av
                         face := none
                         pair := some rv
                         prev := pv
                         next := nx
                         ID := none } ∧
      ((e.1 < vs1.length ∧ nx = tblLookup (soupBnd S) av) ∨
        (¬ e.1 < vs1.length ∧ nx = none)) ∧
      ((∃ e' av' rv', e' ∈ soupBnd S ∧ e'.1 < vs1.length ∧
          es2[e'.2]? = some ({ head := some av', pair := some rv' } : HEdge) ∧
          av' = e.1 ∧ pv = some e'.2) ∨
       ((¬ ∃ e' av' rv', e' ∈ soupBnd S ∧ e'.1 < vs1.length ∧
          es2[e'.2]? = some ({ head := some av', pair := some rv' } : HEdge) ∧
          av' = e.1) ∧ pv = none))) :
    ∀ i, i < soupN S →
      (∃ j, j < soupN S + (soupB S).length ∧ (es3.getD i {}).pair = some j ∧
        (es3.getD j {}).pair = some i) ∧
      (∃ j, j < soupN S + (soupB S).length ∧ (es3.getD i {}).next = some j ∧
        (es3.getD j {}).prev = some i) ∧
      (∃ j, j < soupN S + (soupB S).length ∧ (es3.getD i {}).prev = some j ∧
        (es3.getD j {}).next = some i) ∧
      ((es3.getD i {}).face).isSome = true := by
  have hfw2 : ∀ w ∈ S.faces, 2 ≤ w.length := by
    intro w hw
    have := (hwf.1 w hw).1
    omega
  have hE1len : (soupEdges S.faces 0 0).length = soupN S := by
    rw [soupEdges_length]
    rfl
  have hnotbnd : ∀ i, i < soupN S → ∀ v, (v, i) ∉ soupBnd S := by
    intro i hi v hv
    obtain ⟨b, hb, hbe⟩ := List.mem_map.mp hv
    have hbd := soupB_pos_bounds S b hb
    have hsnd : b.1.2 = i := congrArg Prod.snd hbe
    omega
  have hint : ∀ i, i < soupN S → es3[i]? = es2[i]? := by
    intro i hi
    exact hJ1 i (by omega) (hnotbnd i hi)
  have hq3' : ∀ r, r < soupN S → ∃ rec p', (soupEdges S.faces 0 0)[r]? = some rec ∧
      es2[r]? = some { rec with pair := some p' } := by
    intro r hr
    obtain ⟨rec, hrec, hd⟩ := hq3 r hr
    rcases hd with ⟨j, _, hj2⟩ | ⟨_, p, hp1, _⟩
    · exact ⟨rec, j, hrec, hj2⟩
    · exact ⟨rec, p, hrec, hp1⟩
  intro i hi
  obtain ⟨rec, p', hrecE, hes2i⟩ := hq3' i hi
  have hes3i : es3[i]? = some { rec with pair := some p' } := (hint i hi).trans hes2i
  have hmi := getD_of_getElem hes3i
  obtain ⟨recE, hrecE2, hpairE, hIDE, ⟨f, hface⟩, ⟨jn, hjn, hnext, recn, hrecn, hprevn⟩,
    ⟨jp, hjp, hprev, recp, hrecp, hnextp⟩⟩ :=
    soupEdges_facts S.faces 0 0 hfw2 i (by rw [hE1len]; exact hi)
  have hrr : rec = recE := Option.some.inj (hrecE.symm.trans hrecE2)
  rw [hE1len] at hjn hjp
  rw [Nat.zero_add] at hnext hprev hprevn hnextp
  refine ⟨?_, ?_, ?_, ?_⟩
  · -- pair involution
    obtain ⟨rec0, hrec0, hd⟩ := hq3 i hi
    have hrr0 : rec0 = rec := Option.some.inj (hrec0.symm.trans hrecE)
    rcases hd with ⟨j, hlkj, hes2ij⟩ | ⟨hnone, p, hes2ip, hmemB⟩
    · have hjmem := tblLookup_mem _ _ _ hlkj
      obtain ⟨hjN, hkeyj⟩ := soupT_mem_val S _ j hjmem
      have hkeyii : ((keyAt (soupT S) j).2, (keyAt (soupT S) j).1) = keyAt (soupT S) i := by
        rw [← hkeyj]
      have hlki : tblLookup (soupT S)
          ((keyAt (soupT S) j).2, (keyAt (soupT S) j).1) = some i := by
        rw [hkeyii]
        exact soupT_lookup_self S hwf i hi
      obtain ⟨recj, hrecj, hdj⟩ := hq3 j hjN
      rcases hdj with ⟨i', hlki', hes2j⟩ | ⟨hn, _⟩
      · have hii' : i' = i := by
          rw [hlki] at hlki'
          exact (Option.some.inj hlki').symm
        rw [hii'] at hes2j
        have hes3j : es3[j]? = some { recj with pair := some i } :=
          (hint j hjN).trans hes2j
        refine ⟨j, by omega, ?_, ?_⟩
        · rw [hmi]
          have hes3i2 : es3[i]? = some { rec with pair := some j } := by
            rw [hrr0] at hes2ij
            exact (hint i hi).trans hes2ij
          rw [hes3i] at hes3i2
          have := Option.some.inj hes3i2
          have hpp' := congrArg HEdge.pair this
          show ({ rec with pair := some p' } : HEdge).pair = some j
          exact hpp'
        · rw [getD_of_getElem hes3j]
      · rw [hn] at hlki
        exact Option.noConfusion hlki
    · have hbnds := soupB_pos_bounds S _ hmemB
      have hbmem : ((keyAt (soupT S) i).2, p) ∈ soupBnd S :=
        List.mem_map_of_mem Prod.fst hmemB
      obtain ⟨av, rv, nx, pv, hes2p, hes3p, _, _⟩ := hJ2 _ hbmem
      have hq4b := hq4 _ hmemB
      have hmatch : rv = i := by
        have h1 := Option.some.inj (hes2p.symm.trans hq4b)
        have := congrArg HEdge.pair h1
        simpa using this
      refine ⟨p, ?_, ?_, ?_⟩
      · have : (((keyAt (soupT S) i).2, p),
          ({ head := some (keyAt (soupT S) i).1, pair := some i } : HEdge)).1.2 = p := rfl
        omega
      · rw [hmi]
        have h1 := Option.some.inj (hes2i.symm.trans hes2ip)
        have hpp' := congrArg HEdge.pair h1
        show ({ rec with pair := some p' } : HEdge).pair = some p
        simpa using hpp'
      · rw [getD_of_getElem hes3p, ← hmatch]
  · -- next involution
    obtain ⟨recn', pn', hrecn', hes2n⟩ := hq3' jn hjn
    have hrecneq : recn' = recn := Option.some.inj (hrecn'.symm.trans hrecn)
    have hes3n : es3[jn]? = some { recn' with pair := some pn' } :=
      (hint jn hjn).trans hes2n
    refine ⟨jn, by omega, ?_, ?_⟩
    · rw [hmi]
      show ({ rec with pair := some p' } : HEdge).next = some jn
      show rec.next = some jn
      rw [hrr]
      exact hnext
    · rw [getD_of_getElem hes3n]
      show recn'.prev = some i
      rw [hrecneq]
      exact hprevn
  · -- prev involution
    obtain ⟨recp', pp', hrecp', hes2p⟩ := hq3' jp hjp
    have hrecpeq : recp' = recp := Option.some.inj (hrecp'.symm.trans hrecp)
    have hes3p : es3[jp]? = some { recp' with pair := some pp' } :=
      (hint jp hjp).trans hes2p
    refine ⟨jp, by omega, ?_, ?_⟩
    · rw [hmi]
      show ({ rec with pair := some p' } : HEdge).prev = some jp
      show rec.prev = some jp
      rw [hrr]
      exact hprev
    · rw [getD_of_getElem hes3p]
      show recp'.next = some i
      rw [hrecpeq]
      exact hnextp
  · rw [hmi]
    show (({ rec with pair := some p' } : HEdge).face).isSome = true
    show (rec.face).isSome = true
    rw [hrr, hface]
    rfl

theorem boundaryRead (S : Soup) (hwf : WellFormedSoup S) (vs1 : List HVertex)
    (es2 es3 : List HEdge)
    (hlen1 : vs1.length = S.positions.length)
    (hlen2 : es2.length = soupN S + (soupB S).length)
    (hq3 : ∀ r, r < soupN S →
      ∃ rec, (soupEdges S.faces 0 0)[r]? = some rec ∧
        ((∃ j, tblLookup (soupT S) ((keyAt (soupT S) r).2, (keyAt (soupT S) r).1) =
            some j ∧ es2[r]? = some { rec with pair := some j }) ∨
         (tblLookup (soupT S) ((keyAt (soupT S) r).2, (keyAt (soupT S) r).1) = none ∧
           ∃ p, es2[r]? = some { rec with pair := some p } ∧
             (((keyAt (soupT S) r).2, p),
               ({ head := some (keyAt (soupT S) r).1, pair := some r } : HEdge)) ∈
                 soupB S)))
    (hq4 : ∀ e ∈ soupB S, es2[e.1.2]? = some e.2)
    (hJ1 : ∀ i, i < es2.length → (∀ v, (v, i) ∉ soupBnd S) → es3[i]? = es2[i]?)
    (hJ2 : ∀ e ∈ soupBnd S, ∃ av rv nx pv,
      es2[e.2]? = some ({ head := some av, pair := some rv } : HEdge) ∧
      es3[e.2]? = some { head := some av
                         face := none
                         pair := some rv
                         prev := pv
                         next := nx
                         ID := none } ∧
      ((e.1 < vs1.length ∧ nx = tblLookup (soupBnd S) av) ∨
        (¬ e.1 < vs1.length ∧ nx = none)) ∧
      ((∃ e' av' rv', e' ∈ soupBnd S ∧ e'.1 < vs1.length ∧
          es2[e'.2]? = some ({ head := some av', pair := some rv' } : HEdge) ∧
          av' = e.1 ∧ pv = some e'.2) ∨
       ((¬ ∃ e' av' rv', e' ∈ soupBnd S ∧ e'.1 < vs1.length ∧
          es2[e'.2]? = some ({ head := some av', pair := some rv' } : HEdge) ∧
          av' = e.1) ∧ pv = none))) :
    ∀ i, soupN S ≤ i → i < soupN S + (soupB S).length →
      (∃ j, j < soupN S ∧ (es3.getD i {}).pair = some j ∧
        (es3.getD j {}).pair = some i) ∧
      (∃ j, j < soupN S + (soupB S).length ∧ (es3.getD i {}).next = some j ∧
        (es3.getD j {}).prev = some i) ∧
      (∃ j, j < soupN S + (soupB S).length ∧ (es3.getD i {}).prev = some j ∧
        (es3.getD j {}).next = some i) ∧
      (es3.getD i {}).face = none := by
  have hnotbnd : ∀ i', i' < soupN S → ∀ v, (v, i') ∉ soupBnd S := by
    intro i' hi' v hv
    obtain ⟨b, hb, hbe⟩ := List.mem_map.mp hv
    have hbd := soupB_pos_bounds S b hb
    have hsnd : b.1.2 = i' := congrArg Prod.snd hbe
    omega
  intro i hiN hiL
  obtain ⟨b, hb, hbi⟩ := soupB_coverage S i hiN hiL
  have he0 : b.1 ∈ soupBnd S := List.mem_map_of_mem Prod.fst hb
  obtain ⟨k, r, hkr, hnone, hkey, hrecb, _⟩ :=
    bSpec_mem (soupT S) (soupT S) (soupN S) b hb
  obtain ⟨hrN, hkeq⟩ := soupT_mem_val S k r hkr
  have hkmem : k ∈ allPairs S.faces := by
    rw [hkeq]
    exact keyAt_mem_allPairs S r hrN
  have hbounds := allPairs_mem_bounds S.faces S.positions.length
    (fun w hw => (hwf.1 w hw).2.2) k hkmem
  have hnoneK : tblLookup (soupT S)
      ((keyAt (soupT S) r).2, (keyAt (soupT S) r).1) = none := by
    rw [← hkeq]
    exact hnone
  have hunpK : k ∈ unpairedOf S.faces := by
    rw [hkeq]
    exact (soupT_unpaired_iff S r hrN).mp hnoneK
  obtain ⟨av, rv, nx, pv, hes2i, hes3i, hnxd, hpvd⟩ := hJ2 b.1 he0
  rw [hbi] at hes2i hes3i
  have hq4b : es2[i]? = some b.2 := by
    rw [← hbi]
    exact hq4 b hb
  have hmatch : ({ head := some av, pair := some rv } : HEdge) = b.2 :=
    Option.some.inj (hes2i.symm.trans hq4b)
  rw [hrecb] at hmatch
  have hav : av = k.1 := by
    have h := congrArg HEdge.head hmatch
    simpa using h
  have hrv : rv = r := by
    have h := congrArg HEdge.pair hmatch
    simpa using h
  have hmi := getD_of_getElem hes3i
  have hltb : b.1.1 < vs1.length := by
    rw [hkey, hlen1]
    exact hbounds.2
  refine ⟨?_, ?_, ?_, ?_⟩
  · -- pair involution back to the interior partner r
    obtain ⟨rec, hrecE, hd⟩ := hq3 r hrN
    rcases hd with ⟨j, hlkj, _⟩ | ⟨_, p', hes2r, hmemB'⟩
    · rw [hnoneK] at hlkj
      exact Option.noConfusion hlkj
    · have hfb : (fun e => e.2.pair) b = (fun e => e.2.pair)
          (((keyAt (soupT S) r).2, p'),
            ({ head := some (keyAt (soupT S) r).1, pair := some r } : HEdge)) := by
        show b.2.pair = some r
        rw [hrecb]
      have hbeq := List.inj_on_of_nodup_map (soupB_pairs_nodup S) hb hmemB' hfb
      have hp'i : p' = i := by
        have h2 := congrArg (fun e => e.1.2) hbeq
        simpa [hbi] using h2.symm
      rw [hp'i] at hes2r
      have hes3r : es3[r]? = es2[r]? := by
        apply hJ1 r (by omega) (hnotbnd r hrN)
      refine ⟨r, hrN, ?_, ?_⟩
      · rw [hmi]
        show some rv = some r
        rw [hrv]
      · rw [getD_of_getElem (hes3r.trans hes2r)]
  · -- next goes to the boundary edge out of the head vertex
    have havmem : k.1 ∈ (soupBnd S).map Prod.fst := by
      rw [soupBnd_keys]
      exact hwf.2.2.2.2.1 k hunpK
    have hsome := tblLookup_isSome_of_mem_keys (soupBnd S) k.1 havmem
    obtain ⟨p₂, hlk2⟩ := Option.isSome_iff_exists.mp hsome
    have hmem₂ : ((k.1, p₂) : Nat × Nat) ∈ soupBnd S :=
      tblLookup_mem (soupBnd S) k.1 p₂ hlk2
    obtain ⟨b₂, hb₂, hb₂e⟩ := List.mem_map.mp hmem₂
    have hp₂eq : b₂.1.2 = p₂ := congrArg Prod.snd hb₂e
    have hp₂bd := soupB_pos_bounds S b₂ hb₂
    obtain ⟨av₂, rv₂, nx₂, pv₂, hes2p₂, hes3p₂, hnxd₂, hpvd₂⟩ := hJ2 (k.1, p₂) hmem₂
    have hes3p₂' : es3[p₂]? = some { head := some av₂, face := none, pair := some rv₂, prev := pv₂, next := nx₂, ID := none } := hes3p₂
    have hpv₂i : pv₂ = some i := by
      rcases hpvd₂ with ⟨e', av', rv', he', hlt', hrec', hav', hpveq⟩ | ⟨hno, _⟩
      · obtain ⟨b₃, hb₃, hb₃e⟩ := List.mem_map.mp he'
        have hidx : b₃.1.2 = e'.2 := congrArg Prod.snd hb₃e
        have hq4b₃ := hq4 b₃ hb₃
        rw [hidx] at hq4b₃
        have hb₃rec : b₃.2 = ({ head := some av', pair := some rv' } : HEdge) :=
          Option.some.inj (hq4b₃.symm.trans hrec')
        have hav'2 : av' = k.1 := hav'
        have hfb : (fun e => e.2.head) b₃ = (fun e => e.2.head) b := by
          show b₃.2.head = b.2.head
          rw [hb₃rec, hav'2, hrecb]
        have hbeq₃ : b₃ = b := List.inj_on_of_nodup_map (soupB_heads_nodup S hwf) hb₃ hb hfb
        rw [hpveq, ← hidx, hbeq₃, hbi]
      · exfalso
        apply hno
        refine ⟨b.1, av, rv, he0, hltb, ?_, ?_⟩
        · rw [hbi]
          exact hes2i
        · show av = k.1
          exact hav
    refine ⟨p₂, by omega, ?_, ?_⟩
    · rw [hmi]
      show nx = some p₂
      rcases hnxd with ⟨_, hnx⟩ | ⟨hnlt, _⟩
      · rw [hnx, hav]
        exact hlk2
      · exact absurd hltb hnlt
    · rw [getD_of_getElem hes3p₂']
      exact hpv₂i
  · -- prev comes from the boundary edge into the tail vertex
    rcases hpvd with ⟨e', av', rv', he', hlt', hrec', hav', hpveq⟩ | ⟨hno, _⟩
    · obtain ⟨b₅, hb₅, hb₅e⟩ := List.mem_map.mp he'
      have hidx₅ : b₅.1.2 = e'.2 := congrArg Prod.snd hb₅e
      have hbd₅ := soupB_pos_bounds S b₅ hb₅
      obtain ⟨av₅, rv₅, nx₅, pv₅, hes2e', hes3e', hnxd₅, _⟩ := hJ2 e' he'
      have hrecmatch : ({ head := some av₅, pair := some rv₅ } : HEdge) =
          ({ head := some av', pair := some rv' } : HEdge) :=
        Option.some.inj (hes2e'.symm.trans hrec')
      have hav₅eq : av₅ = av' := by
        have h := congrArg HEdge.head hrecmatch
        simpa using h
      have hav'b : av' = b.1.1 := hav'
      have hbmem0 : ((b.1.1, b.1.2) : Nat × Nat) ∈ soupBnd S := he0
      have hlkb : tblLookup (soupBnd S) b.1.1 = some b.1.2 :=
        tblLookup_of_mem_nodup _ _ _ hbmem0 (soupBnd_keys_nodup S hwf)
      refine ⟨e'.2, by omega, ?_, ?_⟩
      · rw [hmi]
        show pv = some e'.2
        exact hpveq
      · rw [getD_of_getElem hes3e']
        show nx₅ = some i
        rcases hnxd₅ with ⟨_, hnx₅⟩ | ⟨hn₅, _⟩
        · rw [hnx₅, hav₅eq, hav'b, hlkb, hbi]
        · exact absurd hlt' hn₅
    · exfalso
      apply hno
      obtain ⟨k', hk'unp, hk'1⟩ := List.mem_map.mp (hwf.2.2.2.2.2 k hunpK)
      have hk'all : k' ∈ allPairs S.faces := List.mem_of_mem_filter hk'unp
      obtain ⟨r', hr'len, heqr'⟩ := List.getElem_of_mem hk'all
      have hr'N : r' < soupN S := hr'len
      have hkey' : keyAt (soupT S) r' = k' := by
        rw [keyAt_soupT S r' hr'N, List.getD_eq_getElem _ _ hr'len]
        exact heqr'
      have hnone'' : tblLookup (soupT S)
          ((keyAt (soupT S) r').2, (keyAt (soupT S) r').1) = none := by
        apply (soupT_unpaired_iff S r' hr'N).mpr
        rw [hkey']
        exact hk'unp
      have hmem' : ((keyAt (soupT S) r', r') : (Nat × Nat) × Nat) ∈ soupT S := by
        rcases List.getElem?_eq_some_iff.mp (soupT_val S r' hr'N) with ⟨hlt₆, heq₆⟩
        exact heq₆ ▸ List.getElem_mem hlt₆
      obtain ⟨e₄, he₄, he₄1, he₄2⟩ :=
        bSpec_exists (soupT S) (soupT S) (soupN S) (keyAt (soupT S) r') r' hmem' hnone''
      have he₄B : e₄ ∈ soupB S := he₄
      have hlt₄ : e₄.1.1 < vs1.length := by
        rw [he₄1, hkey', hlen1]
        exact (allPairs_mem_bounds S.faces S.positions.length
          (fun w hw => (hwf.1 w hw).2.2) k' hk'all).2
      have hrec₄ : es2[e₄.1.2]? =
          some ({ head := some (keyAt (soupT S) r').1, pair := some r' } : HEdge) := by
        have h := hq4 e₄ he₄B
        rw [he₄2] at h
        exact h
      have hav₄ : (keyAt (soupT S) r').1 = b.1.1 := by
        rw [hkey', hk'1, hkey]
      exact ⟨e₄.1, (keyAt (soupT S) r').1, r',
        List.mem_map_of_mem Prod.fst he₄B, hlt₄, hrec₄, hav₄⟩
  · rw [hmi]

theorem loadFromSoup_props (S : Soup) (m : HedgeMesh) (hwf : WellFormedSoup S)
    (hload : HedgeMesh.loadFromSoup S = some m) :
    pairInvolutive m ∧ boundaryPairedToFace m := by
  obtain ⟨vs1, fs1, es2, es3, heq, hlen1, hids1, hlen2, hq3, hq4, hlen3, hJ1, hJ2⟩ :=
    loadFromSoup_pipeline S hwf
  rw [hload] at heq
  have hm := Option.some.inj heq
  have hedges : m.edges = numberEdges es3 := by rw [hm]
  have hes3len : es3.length = soupN S + (soupB S).length := by rw [hlen3, hlen2]
  have hmlen : m.edges.length = soupN S + (soupB S).length := by
    rw [hedges, numberEdges_length, hes3len]
  have hIR := interiorRead S hwf vs1 es2 es3 hlen2 hq3 hq4 hJ1 hJ2
  have hBR := boundaryRead S hwf vs1 es2 es3 hlen1 hlen2 hq3 hq4 hJ1 hJ2
  have hfields : ∀ i, i < soupN S + (soupB S).length →
      (m.edges.getD i {}).pair = (es3.getD i {}).pair ∧
      (m.edges.getD i {}).next = (es3.getD i {}).next ∧
      (m.edges.getD i {}).prev = (es3.getD i {}).prev ∧
      (m.edges.getD i {}).face = (es3.getD i {}).face := by
    intro i hi
    rw [hedges]
    exact numberEdges_getD_fields es3 i (by rw [hes3len]; exact hi)
  constructor
  · intro i hi
    rw [hmlen] at hi
    obtain ⟨hp, hn, hpr, _⟩ := hfields i hi
    by_cases hiN : i < soupN S
    · obtain ⟨⟨j1, hj1, hp1, hp2⟩, ⟨j2, hj2, hn1, hn2⟩, ⟨j3, hj3, hpr1, hpr2⟩, _⟩ :=
        hIR i hiN
      refine ⟨⟨j1, by rw [hmlen]; omega, ?_, ?_⟩, ⟨j2, by rw [hmlen]; omega, ?_, ?_⟩,
        ⟨j3, by rw [hmlen]; omega, ?_, ?_⟩⟩
      · rw [hp]
        exact hp1
      · rw [(hfields j1 (by omega)).1]
        exact hp2
      · rw [hn]
        exact hn1
      · rw [(hfields j2 (by omega)).2.2.1]
        exact hn2
      · rw [hpr]
        exact hpr1
      · rw [(hfields j3 (by omega)).2.1]
        exact hpr2
    · obtain ⟨⟨j1, hj1, hp1, hp2⟩, ⟨j2, hj2, hn1, hn2⟩, ⟨j3, hj3, hpr1, hpr2⟩, _⟩ :=
        hBR i (by omega) hi
      refine ⟨⟨j1, by rw [hmlen]; omega, ?_, ?_⟩, ⟨j2, by rw [hmlen]; omega, ?_, ?_⟩,
        ⟨j3, by rw [hmlen]; omega, ?_, ?_⟩⟩
      · rw [hp]
        exact hp1
      · rw [(hfields j1 (by omega)).1]
        exact hp2
      · rw [hn]
        exact hn1
      · rw [(hfields j2 (by omega)).2.2.1]
        exact hn2
      · rw [hpr]
        exact hpr1
      · rw [(hfields j3 (by omega)).2.1]
        exact hpr2
  · intro i hi hface
    rw [hmlen] at hi
    obtain ⟨hp, _, _, hf⟩ := hfields i hi
    by_cases hiN : i < soupN S
    · obtain ⟨_, _, _, hfs⟩ := hIR i hiN
      have hnone3 : (es3.getD i {}).face = none := by
        rw [← hf]
        exact hface
      rw [hnone3] at hfs
      exact absurd hfs (by simp)
    · obtain ⟨⟨j1, hj1N, hp1, hp2⟩, _, _, _⟩ := hBR i (by omega) hi
      obtain ⟨_, _, _, hfj⟩ := hIR j1 hj1N
      refine ⟨j1, by rw [hmlen]; omega, ?_, ?_⟩
      · rw [hp]
        exact hp1
      · rw [(hfields j1 (by omega)).2.2.2]
        exact hfj

/-- C2: in any mesh built by `loadFileFromLines` (steps 2-6, `loadFromSoup`) from a
well-formed, manifold, consistently CCW-oriented polygon soup, and in the
`makeTriangle` mesh, every half-edge `h` satisfies `h.pair.pair == h`,
`h.next.prev == h` and `h.prev.next == h`, including the synthesized boundary
half-edges. -/
theorem mesh_pair_involutive (S : Soup) (m : HedgeMesh) (hwf : WellFormedSoup S)
    (hload : HedgeMesh.loadFromSoup S = some m) :
    pairInvolutive m ∧ pairInvolutive makeTriangle :=
  ⟨(loadFromSoup_props S m hwf hload).1, by decide⟩

theorem mesh_pair_involutive_witness :
    WellFormedSoup triSoup ∧ (pairInvolutive triMesh ∧ pairInvolutive makeTriangle) :=
  ⟨by decide, mesh_pair_involutive triSoup triMesh (by decide)
    (option_eq_some_getD _ {} (by decide))⟩

/-- C10: in any mesh built by `loadFileFromLines` (steps 2-6, `loadFromSoup`) from a
well-formed, manifold, consistently CCW-oriented polygon soup, and in the
`makeTriangle` mesh, no half-edge and its pair both have a null face: every
null-face half-edge is paired with a face-bearing half-edge. -/
theorem mesh_boundary_paired_to_face (S : Soup) (m : HedgeMesh) (hwf : WellFormedSoup S)
    (hload : HedgeMesh.loadFromSoup S = some m) :
    boundaryPairedToFace m ∧ boundaryPairedToFace makeTriangle :=
  ⟨(loadFromSoup_props S m hwf hload).2, by decide⟩

theorem mesh_boundary_paired_to_face_witness :
    WellFormedSoup triSoup ∧
      (boundaryPairedToFace triMesh ∧ boundaryPairedToFace makeTriangle) :=
  ⟨by decide, mesh_boundary_paired_to_face triSoup triMesh (by decide)
    (option_eq_some_getD _ {} (by decide))⟩
